import Mathlib

/-!
# Task scheduler: routing strategies and dispatch

A shallow embedding of `pkg/types`, `pkg/router`, `pkg/executor` and
`pkg/scheduler` of the task scheduler, and theorems about the five routing
strategies, the strategy dispatcher, the task registry and the dispatch
procedure.

Conventions of the embedding.

* A Go map `map[string]V` is a function `String → Option V` (`none`: key absent),
  written to with `Function.update`.
* `int64` counters are `Int`. The round-robin counters stay within `[0, 1000000]`
  and the LFU counts grow by one per call, so the 64-bit boundary plays no role:
  the embedding agrees with the code on every counter value whose increment does
  not wrap (every `int64` value below `2^63 - 1`), and a theorem that ranges over
  counter values beyond the reachable ones states that bound.
* `time.Time` is an `Int` (a clock reading in nanoseconds); `Before` is `<`.
  The value returned by `time.Now()` is an argument `now` of the call.
* A `*rand.Rand` generator is a stream of raw values (`Rand`); `Intn n` consumes
  one raw value and reduces it into `[0, n)`.
* A Go result `(types.Executor, error)` is a pair of options (`RouteResult`); the
  outer `Option` around it is `none` when the call ends in a runtime panic
  (slice index out of range).
* Mutexes and atomics are omitted: every call is modelled as one atomic step.
  The goroutine that `executeTask` spawns takes its steps separately from the
  call that spawned it (`TaskScheduler.stepGoroutine`).
-/

set_option linter.dupNamespace false

namespace TaskScheduler

/-! ## pkg/types -/

/-- The Go type `types.RouteStrategy`, an `int`. -/
abbrev RouteStrategy := Int

/-- Task-level round robin (`iota` 0). -/
abbrev RoundRobinTask : RouteStrategy := 0
/-- Application-level round robin. -/
abbrev RoundRobinApp : RouteStrategy := 1
/-- Random routing. -/
abbrev Random : RouteStrategy := 2
/-- Least frequently used. -/
abbrev LFU : RouteStrategy := 3
/-- Least recently used. -/
abbrev LRU : RouteStrategy := 4

/-- The Go type `types.TaskStatus`. -/
inductive TaskStatus where
  | TaskStatusPending
  | TaskStatusRunning
  | TaskStatusCompleted
  | TaskStatusFailed
  | TaskStatusStopped
deriving DecidableEq, Repr

/-- The Go struct `types.Task` (the untyped `Params` bag is left out: no code
modelled here reads it). -/
structure Task where
  ID : String
  Name : String
  Cron : String
  Handler : String
  Strategy : RouteStrategy
  CreatedAt : Int
  LastRunTime : Int
  NextRunTime : Int
  Status : TaskStatus
deriving DecidableEq, Repr

/-- An implementation of the interface `types.Executor`: the fields of
`executor.SimpleExecutor`. The routers only call `GetID`. -/
structure Executor where
  id : String
  address : String
  usageCount : Int
  lastUsed : Int
  isHealthy : Bool
deriving DecidableEq, Repr

/-- The method `GetID`. -/
def Executor.GetID (e : Executor) : String := e.id

/-- The test helper `createTestTask`. -/
def createTestTask (id : String) (strategy : RouteStrategy) : Task :=
  ⟨id, "Test Task", "", "testHandler", strategy, 0, 0, 0, TaskStatus.TaskStatusPending⟩

/-- The constructor `executor.NewSimpleExecutor`, at clock reading `now`. -/
def NewSimpleExecutor (id address : String) (now : Int) : Executor :=
  ⟨id, address, 0, now, true⟩

/-! ## Environment: pseudo-random generators -/

/-- A `math/rand` generator: the stream of raw values it is going to produce. -/
structure Rand where
  stream : Nat → Nat

/-- The method `Intn`: consume one raw value, reduce it into `[0, n)`. -/
def Rand.Intn (g : Rand) (n : Nat) : Nat × Rand :=
  (g.stream 0 % n, ⟨fun i => g.stream (i + 1)⟩)

/-- The generator that returns `v` (reduced) on every draw. -/
def Rand.const (v : Nat) : Rand := ⟨fun _ => v⟩

/-! ## Results -/

/-- A Go return value `(types.Executor, error)`; `none` is `nil`. -/
abbrev RouteResult := Option Executor × Option String

/-- The error every strategy returns on an empty candidate list. -/
def noExecutors : RouteResult := (none, some "no available executors")

/-- Go slice indexing `xs[i]` with an `int` index: `none` is the runtime panic
outside `0 ≤ i < len(xs)`. -/
def index? {α : Type} (xs : List α) (i : Int) : Option α :=
  if 0 ≤ i then xs[i.toNat]? else none

/-- The Go expression `int(count) % len(executors)` (truncated remainder). -/
def goMod (count : Int) (len : Nat) : Int := Int.tmod count (len : Int)

/-! ## pkg/router/roundrobin.go -/

/-- State of `RoundRobinTaskRouter`: one counter per task ID. -/
structure RoundRobinTaskRouter where
  taskCounters : String → Option Int

/-- A fresh task-level round-robin router. -/
def NewRoundRobinTaskRouter : RoundRobinTaskRouter := ⟨fun _ => none⟩

/-- The method `RoundRobinTaskRouter.Route`; `g` is the global generator of
`math/rand`. Returns the result, the new router state and the new generator.
(The counter is an `int64`: `init.1 + 1` is `atomic.AddInt64` for every counter
value below `2^63 - 1`.) -/
def RoundRobinTaskRouter.Route (r : RoundRobinTaskRouter) (g : Rand) (task : Task)
    (executors : List Executor) : Option RouteResult × RoundRobinTaskRouter × Rand :=
  if executors.length = 0 then (some noExecutors, r, g)
  else
    -- look the counter up, drawing its initial value on first use
    let init : Int × Rand :=
      match r.taskCounters task.ID with
      | some c => (c, g)
      | none => (((g.Intn 100).1 : Int), (g.Intn 100).2)
    -- atomic.AddInt64(counter, 1)
    let count : Int := init.1 + 1
    -- reset to a fresh draw above 1000000
    let reset : Int × Rand :=
      if count > 1000000 then (((init.2.Intn 100).1 : Int), (init.2.Intn 100).2)
      else (count, init.2)
    let r1 : RoundRobinTaskRouter := ⟨Function.update r.taskCounters task.ID (some reset.1)⟩
    match index? executors (goMod reset.1 executors.length) with
    | some e => (some (some e, none), r1, reset.2)
    | none => (none, r1, reset.2)

/-- State of `RoundRobinAppRouter`: the single shared counter. -/
structure RoundRobinAppRouter where
  globalCounter : Int
deriving DecidableEq, Repr

/-- A fresh application-level round-robin router (counter zero). -/
def NewRoundRobinAppRouter : RoundRobinAppRouter := ⟨0⟩

/-- The method `RoundRobinAppRouter.Route`. (The counter is an `int64`:
`r.globalCounter + 1` is `atomic.AddInt64` for every counter value below
`2^63 - 1`.) -/
def RoundRobinAppRouter.Route (r : RoundRobinAppRouter) (_task : Task)
    (executors : List Executor) : Option RouteResult × RoundRobinAppRouter :=
  if executors.length = 0 then (some noExecutors, r)
  else
    let count : Int := r.globalCounter + 1
    let count1 : Int := if count > 1000000 then 0 else count
    let r1 : RoundRobinAppRouter := ⟨count1⟩
    match index? executors (goMod count1 executors.length) with
    | some e => (some (some e, none), r1)
    | none => (none, r1)

/-! ## pkg/router/random.go -/

/-- State of `RandomRouter`: its own seeded generator. -/
structure RandomRouter where
  rnd : Rand

/-- A fresh random router; `seeded` is the generator `rand.New` builds from the
clock seed. -/
def NewRandomRouter (seeded : Rand) : RandomRouter := ⟨seeded⟩

/-- The method `RandomRouter.Route`. -/
def RandomRouter.Route (r : RandomRouter) (_task : Task)
    (executors : List Executor) : Option RouteResult × RandomRouter :=
  if executors.length = 0 then (some noExecutors, r)
  else
    let draw := r.rnd.Intn executors.length
    match index? executors (draw.1 : Int) with
    | some e => (some (some e, none), ⟨draw.2⟩)
    | none => (none, ⟨draw.2⟩)

/-! ## pkg/router/lfu_lru.go -/

/-- State of `LFURouter`: task ID to executor ID to count. -/
structure LFURouter where
  taskCounters : String → Option (String → Option Int)

/-- A fresh LFU router. -/
def NewLFURouter : LFURouter := ⟨fun _ => none⟩

/-- The scan loop of `LFURouter.Route`, from the loop state
`(selectedExecutor, minCount)`. -/
def LFURouter.scan (taskCounter : String → Option Int) :
    List Executor → Option Executor → Int → Option Executor × Int
  | [], selected, minCount => (selected, minCount)
  | executor :: rest, selected, minCount =>
    let count : Int := (taskCounter executor.GetID).getD 0
    if minCount = -1 ∨ count < minCount then
      LFURouter.scan taskCounter rest (some executor) count
    else
      LFURouter.scan taskCounter rest selected minCount

/-- The method `LFURouter.Route`. -/
def LFURouter.Route (r : LFURouter) (task : Task)
    (executors : List Executor) : Option RouteResult × LFURouter :=
  if executors.length = 0 then (some noExecutors, r)
  else
    -- the task entry is created when missing
    let taskCounter : String → Option Int := (r.taskCounters task.ID).getD (fun _ => none)
    match (LFURouter.scan taskCounter executors none (-1)).1 with
    | some e =>
      let taskCounter1 :=
        Function.update taskCounter e.GetID (some ((taskCounter e.GetID).getD 0 + 1))
      (some (some e, none), ⟨Function.update r.taskCounters task.ID (some taskCounter1)⟩)
    | none =>
      (some (none, none), ⟨Function.update r.taskCounters task.ID (some taskCounter)⟩)

/-- State of `LRURouter`: task ID to executor ID to last-used time. -/
structure LRURouter where
  taskLastUsed : String → Option (String → Option Int)

/-- A fresh LRU router. -/
def NewLRURouter : LRURouter := ⟨fun _ => none⟩

/-- The scan loop of `LRURouter.Route`, from the loop state
`(selectedExecutor, oldestTime)`; a never-used executor ends the loop. -/
def LRURouter.scan (taskUsage : String → Option Int) :
    List Executor → Option Executor → Int → Option Executor
  | [], selected, _ => selected
  | executor :: rest, selected, oldestTime =>
    match taskUsage executor.GetID with
    | none => some executor
    | some lastUsed =>
      if lastUsed < oldestTime then LRURouter.scan taskUsage rest (some executor) lastUsed
      else LRURouter.scan taskUsage rest selected oldestTime

/-- The method `LRURouter.Route`; `now` is the reading of `time.Now()`. -/
def LRURouter.Route (r : LRURouter) (now : Int) (task : Task)
    (executors : List Executor) : Option RouteResult × LRURouter :=
  if executors.length = 0 then (some noExecutors, r)
  else
    let taskUsage : String → Option Int := (r.taskLastUsed task.ID).getD (fun _ => none)
    match LRURouter.scan taskUsage executors none now with
    | some e =>
      (some (some e, none),
        ⟨Function.update r.taskLastUsed task.ID
          (some (Function.update taskUsage e.GetID (some now)))⟩)
    | none =>
      (some (none, none), ⟨Function.update r.taskLastUsed task.ID (some taskUsage)⟩)

/-! ## pkg/router/base.go and multi.go -/

/-- A value of the interface `types.Router` built by the factory. -/
inductive Router where
  | roundRobinTask (r : RoundRobinTaskRouter)
  | roundRobinApp (r : RoundRobinAppRouter)
  | random (r : RandomRouter)
  | lfu (r : LFURouter)
  | lru (r : LRURouter)

/-- The method `Factory.CreateRouter`; `seeded` is the generator a new random
router would be built with. -/
def Factory.CreateRouter (strategy : RouteStrategy) (seeded : Rand) : Router :=
  if strategy = RoundRobinTask then Router.roundRobinTask NewRoundRobinTaskRouter
  else if strategy = RoundRobinApp then Router.roundRobinApp NewRoundRobinAppRouter
  else if strategy = Random then Router.random (NewRandomRouter seeded)
  else if strategy = LFU then Router.lfu NewLFURouter
  else if strategy = LRU then Router.lru NewLRURouter
  else Router.roundRobinApp NewRoundRobinAppRouter

/-- Interface dispatch of `router.Route(task, executors)`. -/
def Router.Route (rt : Router) (g : Rand) (now : Int) (task : Task)
    (executors : List Executor) : Option RouteResult × Router × Rand :=
  match rt with
  | Router.roundRobinTask r =>
    let out := r.Route g task executors
    (out.1, Router.roundRobinTask out.2.1, out.2.2)
  | Router.roundRobinApp r =>
    let out := r.Route task executors
    (out.1, Router.roundRobinApp out.2, g)
  | Router.random r =>
    let out := r.Route task executors
    (out.1, Router.random out.2, g)
  | Router.lfu r =>
    let out := r.Route task executors
    (out.1, Router.lfu out.2, g)
  | Router.lru r =>
    let out := r.Route now task executors
    (out.1, Router.lru out.2, g)

/-- State of `MultiStrategyRouter`: the cache of strategy instances. -/
structure MultiStrategyRouter where
  routers : RouteStrategy → Option Router

/-- A fresh multi-strategy router (empty cache). -/
def NewMultiStrategyRouter : MultiStrategyRouter := ⟨fun _ => none⟩

/-- The method `MultiStrategyRouter.Route`: look the instance of the task's
strategy up, create it on a miss, and forward the call. -/
def MultiStrategyRouter.Route (msr : MultiStrategyRouter) (g : Rand) (seeded : Rand)
    (now : Int) (task : Task) (executors : List Executor) :
    Option RouteResult × MultiStrategyRouter × Rand :=
  let router : Router :=
    match msr.routers task.Strategy with
    | some rt => rt
    | none => Factory.CreateRouter task.Strategy seeded
  let out := router.Route g now task executors
  (out.1, ⟨Function.update msr.routers task.Strategy (some out.2.1)⟩, out.2.2)

/-- The test fixture `createTestExecutors`. -/
def createTestExecutors : List Executor :=
  [NewSimpleExecutor "exec-1" "http://localhost:8001" 0,
   NewSimpleExecutor "exec-2" "http://localhost:8002" 0,
   NewSimpleExecutor "exec-3" "http://localhost:8003" 0]

/-! ## Observations on router states -/

/-- The count recorded by an LFU router for executor `execID` under task
`taskID`; `none` when the executor was never recorded for that task. -/
def LFURouter.count? (r : LFURouter) (taskID execID : String) : Option Int :=
  (r.taskCounters taskID).bind (fun m => m execID)

/-- The count as the scan loop reads it: 0 when nothing is recorded. -/
def LFURouter.count (r : LFURouter) (taskID execID : String) : Int :=
  (r.count? taskID execID).getD 0

/-- The timestamp recorded by an LRU router for executor `execID` under task
`taskID`; `none` when the executor was never recorded for that task. -/
def LRURouter.lastUsed? (r : LRURouter) (taskID execID : String) : Option Int :=
  (r.taskLastUsed taskID).bind (fun m => m execID)

/-- The LFU router states that calls of `Route` produce from a fresh router. -/
inductive LFURouter.Reachable : LFURouter → Prop where
  | fresh : LFURouter.Reachable NewLFURouter
  | route (r : LFURouter) (task : Task) (executors : List Executor) :
      LFURouter.Reachable r → LFURouter.Reachable (r.Route task executors).2

/-- The LFU router state after `n` consecutive `Route` calls for one task
with one candidate list. -/
def LFURouter.after (r : LFURouter) (task : Task) (executors : List Executor) :
    Nat → LFURouter
  | 0 => r
  | n + 1 => ((LFURouter.after r task executors n).Route task executors).2

/-- The result of call number `k + 1` in a run of consecutive `Route` calls for
one task with one candidate list. -/
def LFURouter.nth (r : LFURouter) (task : Task) (executors : List Executor)
    (k : Nat) : Option RouteResult :=
  ((LFURouter.after r task executors k).Route task executors).1

/-- The app round-robin states that calls of `Route` produce from a fresh
router. -/
inductive RoundRobinAppRouter.Reachable : RoundRobinAppRouter → Prop where
  | fresh : RoundRobinAppRouter.Reachable NewRoundRobinAppRouter
  | route (r : RoundRobinAppRouter) (task : Task) (executors : List Executor) :
      RoundRobinAppRouter.Reachable r →
      RoundRobinAppRouter.Reachable (r.Route task executors).2

/-- The counter value a round-robin call moves on to from the value `n`: one
more, or, past 1000000, the value `reset`. -/
def nextCount (reset n : Nat) : Nat := if n + 1 > 1000000 then reset else n + 1

/-- The two-executor pool of the end-to-end scenario. -/
def twoExecutors : List Executor :=
  [NewSimpleExecutor "exec-1" "http://localhost:8001" 0,
   NewSimpleExecutor "exec-2" "http://localhost:8002" 0]

/-- The first test executor. -/
def exec1 : Executor := NewSimpleExecutor "exec-1" "http://localhost:8001" 0
/-- The second test executor. -/
def exec2 : Executor := NewSimpleExecutor "exec-2" "http://localhost:8002" 0
/-- The third test executor. -/
def exec3 : Executor := NewSimpleExecutor "exec-3" "http://localhost:8003" 0

/-- The task round-robin router and the global generator after `n` consecutive
`Route` calls for one task with one candidate list. -/
def RoundRobinTaskRouter.after (r : RoundRobinTaskRouter) (g : Rand) (task : Task)
    (executors : List Executor) : Nat → RoundRobinTaskRouter × Rand
  | 0 => (r, g)
  | n + 1 =>
    (((RoundRobinTaskRouter.after r g task executors n).1.Route
      (RoundRobinTaskRouter.after r g task executors n).2 task executors).2)

/-- The result of call number `k + 1` in a run of consecutive `Route` calls for
one task with one candidate list. -/
def RoundRobinTaskRouter.nth (r : RoundRobinTaskRouter) (g : Rand) (task : Task)
    (executors : List Executor) (k : Nat) : Option RouteResult :=
  ((RoundRobinTaskRouter.after r g task executors k).1.Route
    (RoundRobinTaskRouter.after r g task executors k).2 task executors).1

/-- Executor number `i` of a large pool; the IDs are pairwise distinct. -/
def numberedExecutor (i : Nat) : Executor :=
  NewSimpleExecutor (String.mk (List.replicate (i + 1) 'x')) "" 0

/-- A pool of `n` executors with pairwise distinct IDs. -/
def numberedExecutors (n : Nat) : List Executor :=
  (List.range n).map numberedExecutor

/-- The multi-strategy router states that calls of `Route` produce from a
fresh router. -/
inductive MultiStrategyRouter.Reachable : MultiStrategyRouter → Prop where
  | fresh : MultiStrategyRouter.Reachable NewMultiStrategyRouter
  | route (msr : MultiStrategyRouter) (g seeded : Rand) (now : Int) (task : Task)
      (executors : List Executor) :
      MultiStrategyRouter.Reachable msr →
      MultiStrategyRouter.Reachable (msr.Route g seeded now task executors).2.1

/-- No round-robin counter of the strategy instance is negative. -/
def Router.CountersNonneg : Router → Prop
  | Router.roundRobinTask r => ∀ (t : String) (c : Int), r.taskCounters t = some c → 0 ≤ c
  | Router.roundRobinApp r => 0 ≤ r.globalCounter
  | Router.random _ => True
  | Router.lfu _ => True
  | Router.lru _ => True

/-- Whether the strategy instance is an LRU router. -/
def Router.isLRU : Router → Bool
  | Router.lru _ => true
  | _ => false

/-- The LRU router state after `n` consecutive `Route` calls for one task with
one candidate list; `clock k` is the reading of `time.Now()` in call `k + 1`. -/
def LRURouter.after (r : LRURouter) (clock : Nat → Int) (task : Task)
    (executors : List Executor) : Nat → LRURouter
  | 0 => r
  | n + 1 =>
    ((LRURouter.after r clock task executors n).Route (clock n) task executors).2

/-- The result of call number `k + 1` in a run of consecutive LRU `Route` calls
for one task with one candidate list, under the clock readings `clock`. -/
def LRURouter.nth (r : LRURouter) (clock : Nat → Int) (task : Task)
    (executors : List Executor) (k : Nat) : Option RouteResult :=
  ((LRURouter.after r clock task executors k).Route (clock k) task executors).1

/-- One call of the dispatcher as the environment presents it: the generator a
new random router would be seeded with, the clock reading, the task and the
candidates. -/
structure RouteCall where
  seeded : Rand
  now : Int
  task : Task
  executors : List Executor

/-- A sequence of `MultiStrategyRouter.Route` calls: the results in call order,
the final dispatcher state and the final global generator. -/
def MultiStrategyRouter.run (msr : MultiStrategyRouter) (g : Rand) :
    List RouteCall → List (Option RouteResult) × MultiStrategyRouter × Rand
  | [] => ([], msr, g)
  | c :: cs =>
    let out := msr.Route g c.seeded c.now c.task c.executors
    let rest := MultiStrategyRouter.run out.2.1 out.2.2 cs
    (out.1 :: rest.1, rest.2)

/-- A single dedicated instance of strategy `s` fed a sequence of calls: the
instance is built by the factory at the first call (`inst` is `none` until
then) and kept for all later calls. -/
def Router.dedicated (s : RouteStrategy) :
    Option Router → Rand → List RouteCall → List (Option RouteResult)
  | _, _, [] => []
  | inst, g, c :: cs =>
    let rt : Router := inst.getD (Factory.CreateRouter s c.seeded)
    let out := rt.Route g c.now c.task c.executors
    out.1 :: Router.dedicated s (some out.2.1) out.2.2 cs

/-- The results of the calls of strategy `s` among the results of a run of the
dispatcher. -/
def resultsOfKind (s : RouteStrategy) (results : List (Option RouteResult))
    (calls : List RouteCall) : List (Option RouteResult) :=
  (results.zip calls).filterMap
    (fun rc => if rc.2.task.Strategy = s then some rc.1 else none)

/-- Whether the strategy instance is a task round-robin router, the only kind
that reads the global generator. -/
def Router.isRoundRobinTask : Router → Bool
  | Router.roundRobinTask _ => true
  | _ => false

/-! ## Objects behind pointers, and maps with iteration

Tasks and executors reach the scheduler as pointers (`*types.Task`,
`*executor.SimpleExecutor`): the objects live in a memory indexed by address and
the scheduler, the registry and the goroutines hold addresses. The maps the code
iterates over or measures (`ts.tasks`, `em.executors`) are lists of entries with
pairwise distinct keys; the order in which `range` visits them is chosen by the
runtime and is an argument (`order`) of the code that iterates. -/

/-- The address of a task or executor object. -/
abbrev Ptr := Nat

/-- Go map read `m[k]` (`none`: key absent). -/
def mapGet {α : Type} (m : List (String × α)) (k : String) : Option α :=
  (m.find? (fun kv => decide (kv.1 = k))).map (fun kv => kv.2)

/-- Go map write `m[k] = v`. -/
def mapSet {α : Type} (m : List (String × α)) (k : String) (v : α) : List (String × α) :=
  if (mapGet m k).isSome then m.map (fun kv => if kv.1 = k then (k, v) else kv)
  else m ++ [(k, v)]

/-- Go map removal `delete(m, k)`. -/
def mapDelete {α : Type} (m : List (String × α)) (k : String) : List (String × α) :=
  m.filter (fun kv => decide (kv.1 ≠ k))

/-! ## pkg/types: configuration -/

/-- The Go struct `types.SchedulerConfig` (the interval in nanoseconds). -/
structure SchedulerConfig where
  MaxConcurrentTasks : Int
  HealthCheckInterval : Int
  DefaultStrategy : RouteStrategy
deriving DecidableEq, Repr

/-! ## pkg/executor -/

/-- The method `SimpleExecutor.IsHealthy`. -/
def Executor.IsHealthy (e : Executor) : Bool := e.isHealthy

/-- The method `SimpleExecutor.SetHealthy`. -/
def Executor.SetHealthy (e : Executor) (healthy : Bool) : Executor :=
  { e with isHealthy := healthy }

/-- The method `SimpleExecutor.Execute` at clock reading `now`: an error when
the executor is not healthy, otherwise the usage count grows by one and the
last-used time is stamped. Returns the error and the executor object after the
call. -/
def Executor.Execute (e : Executor) (now : Int) : Option String × Executor :=
  if e.IsHealthy = false then (some ("executor " ++ e.id ++ " is not healthy"), e)
  else (none, { e with usageCount := e.usageCount + 1, lastUsed := now })

/-- State of `executor.Manager`: executor ID to executor pointer. -/
structure Manager where
  executors : List (String × Ptr)
deriving DecidableEq, Repr

/-- A fresh executor manager. -/
def NewManager : Manager := ⟨[]⟩

/-- The method `Manager.AddExecutor`; `execMem` is the memory of executor
objects. -/
def Manager.AddExecutor (em : Manager) (execMem : Ptr → Executor) (executor : Ptr) :
    Option String × Manager :=
  if (mapGet em.executors (execMem executor).GetID).isSome then
    (some ("executor " ++ (execMem executor).GetID ++ " already exists"), em)
  else
    (none, ⟨mapSet em.executors (execMem executor).GetID executor⟩)

/-- The method `Manager.RemoveExecutor`. -/
def Manager.RemoveExecutor (em : Manager) (executorID : String) : Option String × Manager :=
  if (mapGet em.executors executorID).isSome = false then
    (some ("executor " ++ executorID ++ " not found"), em)
  else
    (none, ⟨mapDelete em.executors executorID⟩)

/-- The method `Manager.GetExecutors`: the healthy executors, in the order in
which the runtime iterates over the map. -/
def Manager.GetExecutors (em : Manager) (execMem : Ptr → Executor)
    (order : List (String × Ptr) → List (String × Ptr)) : List Ptr :=
  ((order em.executors).filter (fun kv => (execMem kv.2).IsHealthy)).map (fun kv => kv.2)

/-- The method `Manager.GetExecutor`. -/
def Manager.GetExecutor (em : Manager) (executorID : String) : Option Ptr × Option String :=
  match mapGet em.executors executorID with
  | some executor => (some executor, none)
  | none => (none, some ("executor " ++ executorID ++ " not found"))

/-! ## pkg/scheduler -/

/-- The cron scheduler of `robfig/cron`, as far as the scheduler uses it: the
registered entries (trigger expression and the task pointer captured by the
callback `func() { ts.executeTask(task) }`) and whether it is started. -/
structure Cron where
  entries : List (String × Ptr)
  running : Bool
deriving DecidableEq, Repr

/-- State of `scheduler.TaskScheduler` (`cancelled`: the context `ctx` has been
cancelled). -/
structure TaskScheduler where
  tasks : List (String × Ptr)
  executorManager : Manager
  router : MultiStrategyRouter
  cron : Cron
  config : SchedulerConfig
  running : Bool
  cancelled : Bool

/-- Where the goroutine spawned by `executeTask` stands: not yet started, past
the assignment of `Running` and the last-run time, or past `Execute` and the
assignment of `Failed` or `Completed`. -/
inductive Phase where
  | spawned
  | started
  | executed
deriving DecidableEq, Repr

/-- A goroutine spawned by `executeTask`: the captured task pointer, the
captured executor (`none`: the nil interface) and its phase. -/
structure Goroutine where
  task : Ptr
  executor : Option Ptr
  phase : Phase
deriving DecidableEq, Repr

/-- The program state: the task and executor objects, the scheduler, the
goroutines spawned by `executeTask` that have not ended, the global generator
of `math/rand`, and whether a goroutine has panicked. -/
structure World where
  taskMem : Ptr → Task
  execMem : Ptr → Executor
  ts : TaskScheduler
  goroutines : List Goroutine
  rng : Rand
  panicked : Bool

/-- What the environment supplies to one dispatch: the clock reading, the
generator a new random router would be seeded with, and the order in which the
runtime iterates over the executor map. -/
structure Env where
  now : Int
  seeded : Rand
  order : List (String × Ptr) → List (String × Ptr)

/-- An iteration order visits every entry of the map exactly once. -/
def Env.Valid (env : Env) : Prop := ∀ l : List (String × Ptr), (env.order l).Perm l

/-- The constructor `scheduler.New`; `none` is the nil configuration. -/
def New (config : Option SchedulerConfig) : TaskScheduler :=
  { tasks := [],
    executorManager := NewManager,
    router := NewMultiStrategyRouter,
    cron := ⟨[], false⟩,
    config := config.getD ⟨10, 30000000000, RoundRobinApp⟩,
    running := false,
    cancelled := false }

/-- The method `TaskScheduler.AddTask` at clock reading `now`; `cronErr` is
the expression parser of `robfig/cron`: the error `AddFunc` returns for a
trigger expression, printed with `%v` (`none`: the expression is accepted).
Returns the error and the program state after the call. -/
def TaskScheduler.AddTask (w : World) (cronErr : String → Option String) (now : Int)
    (task : Ptr) :
    Option String × World :=
  if (mapGet w.ts.tasks (w.taskMem task).ID).isSome then
    (some ("task " ++ (w.taskMem task).ID ++ " already exists"), w)
  else
    -- default strategy, status and creation time are written to the task object
    let t1 : Task :=
      { w.taskMem task with
        Strategy := if (w.taskMem task).Strategy = 0 then w.ts.config.DefaultStrategy
          else (w.taskMem task).Strategy,
        Status := TaskStatus.TaskStatusPending,
        CreatedAt := now }
    let w1 : World := { w with taskMem := Function.update w.taskMem task t1 }
    if t1.Cron ≠ "" then
      match cronErr t1.Cron with
      | none =>
        (none, { w1 with ts := { w1.ts with
          cron := ⟨w1.ts.cron.entries ++ [(t1.Cron, task)], w1.ts.cron.running⟩,
          tasks := mapSet w1.ts.tasks t1.ID task } })
      | some err =>
        (some ("failed to add cron job for task " ++ t1.ID ++ ": " ++ err), w1)
    else
      (none, { w1 with ts := { w1.ts with tasks := mapSet w1.ts.tasks t1.ID task } })

/-- The method `TaskScheduler.RemoveTask`. -/
def TaskScheduler.RemoveTask (w : World) (taskID : String) : Option String × World :=
  match mapGet w.ts.tasks taskID with
  | none => (some ("task " ++ taskID ++ " not found"), w)
  | some task =>
    let taskMem1 : Ptr → Task :=
      if (w.taskMem task).Status = TaskStatus.TaskStatusRunning then
        Function.update w.taskMem task
          { w.taskMem task with Status := TaskStatus.TaskStatusStopped }
      else w.taskMem
    (none, { w with
      taskMem := taskMem1,
      ts := { w.ts with tasks := mapDelete w.ts.tasks taskID } })

/-- The method `TaskScheduler.AddExecutor`. -/
def TaskScheduler.AddExecutor (w : World) (executor : Ptr) : Option String × World :=
  ((w.ts.executorManager.AddExecutor w.execMem executor).1,
    { w with ts := { w.ts with
      executorManager := (w.ts.executorManager.AddExecutor w.execMem executor).2 } })

/-- The method `TaskScheduler.RemoveExecutor`. -/
def TaskScheduler.RemoveExecutor (w : World) (executorID : String) : Option String × World :=
  ((w.ts.executorManager.RemoveExecutor executorID).1,
    { w with ts := { w.ts with
      executorManager := (w.ts.executorManager.RemoveExecutor executorID).2 } })

/-- The method `TaskScheduler.GetExecutors`. -/
def TaskScheduler.GetExecutors (w : World)
    (order : List (String × Ptr) → List (String × Ptr)) : List Ptr :=
  w.ts.executorManager.GetExecutors w.execMem order

/-- The method `TaskScheduler.executeTask` up to the `go` statement. The
candidates handed to the router are the healthy executor objects; the executor
the router returns is the pointer among the candidates whose object it is. On a
successful route the goroutine is spawned, not yet started. -/
def TaskScheduler.executeTask (w : World) (env : Env) (task : Ptr) : World :=
  if (w.taskMem task).Status = TaskStatus.TaskStatusRunning then w
  else if (w.taskMem task).Status = TaskStatus.TaskStatusStopped then w
  else
    let executors : List Ptr := TaskScheduler.GetExecutors w env.order
    if executors.length = 0 then
      { w with
        taskMem := Function.update w.taskMem task
          { w.taskMem task with Status := TaskStatus.TaskStatusFailed } }
    else
      let out := w.ts.router.Route w.rng env.seeded env.now (w.taskMem task)
        (executors.map w.execMem)
      let w1 : World := { w with ts := { w.ts with router := out.2.1 }, rng := out.2.2 }
      match out.1 with
      | none => { w1 with panicked := true }
      | some (_, some _) =>
        { w1 with
          taskMem := Function.update w1.taskMem task
            { w1.taskMem task with Status := TaskStatus.TaskStatusFailed } }
      | some (executor, none) =>
        { w1 with
          goroutines := w1.goroutines ++
            [⟨task, executor.bind (fun e => executors.find? (fun q => decide (w.execMem q = e))),
              Phase.spawned⟩] }

/-- One step of goroutine number `i` spawned by `executeTask`, at clock reading
`now`. From `spawned`: the status becomes `Running`, the last-run time is
stamped, and the log line calls `GetID` on the executor (a panic on the nil
interface). From `started`: `Execute`, then the status becomes `Failed` or
`Completed`. From `executed`: the status of a task with a trigger expression
goes back to `Pending`, and the goroutine ends. -/
def TaskScheduler.stepGoroutine (w : World) (now : Int) (i : Nat) : World :=
  match w.goroutines[i]? with
  | none => w
  | some gr =>
    match gr.phase with
    | Phase.spawned =>
      let w1 : World :=
        { w with
          taskMem := Function.update w.taskMem gr.task
            { w.taskMem gr.task with
              Status := TaskStatus.TaskStatusRunning, LastRunTime := now } }
      match gr.executor with
      | none => { w1 with panicked := true, goroutines := w.goroutines.eraseIdx i }
      | some _ => { w1 with goroutines := w.goroutines.set i { gr with phase := Phase.started } }
    | Phase.started =>
      match gr.executor with
      | none => { w with panicked := true, goroutines := w.goroutines.eraseIdx i }
      | some q =>
        { w with
          execMem := Function.update w.execMem q ((w.execMem q).Execute now).2,
          taskMem := Function.update w.taskMem gr.task
            { w.taskMem gr.task with
              Status := if ((w.execMem q).Execute now).1.isSome then TaskStatus.TaskStatusFailed
                else TaskStatus.TaskStatusCompleted },
          goroutines := w.goroutines.set i { gr with phase := Phase.executed } }
    | Phase.executed =>
      { w with
        taskMem :=
          if (w.taskMem gr.task).Cron ≠ "" then
            Function.update w.taskMem gr.task
              { w.taskMem gr.task with Status := TaskStatus.TaskStatusPending }
          else w.taskMem,
        goroutines := w.goroutines.eraseIdx i }

/-- A fire of cron entry number `j`: when the cron scheduler is started, its
callback dispatches the task it captured. -/
def TaskScheduler.fire (w : World) (env : Env) (j : Nat) : World :=
  match w.ts.cron.entries[j]? with
  | none => w
  | some entry => if w.ts.cron.running then TaskScheduler.executeTask w env entry.2 else w

/-- The method `TaskScheduler.Start` (the health-check loop it launches probes
nothing and is left out). -/
def TaskScheduler.Start (w : World) : Option String × World :=
  if w.ts.running then (some "scheduler is already running", w)
  else
    (none, { w with ts := { w.ts with
      cron := ⟨w.ts.cron.entries, true⟩, running := true } })

/-- The method `TaskScheduler.Stop`. -/
def TaskScheduler.Stop (w : World) : Option String × World :=
  if w.ts.running = false then (some "scheduler is not running", w)
  else
    (none, { w with
      taskMem := w.ts.tasks.foldl
        (fun mem kv =>
          if (mem kv.2).Status = TaskStatus.TaskStatusRunning then
            Function.update mem kv.2 { mem kv.2 with Status := TaskStatus.TaskStatusStopped }
          else mem)
        w.taskMem,
      ts := { w.ts with
        cron := ⟨w.ts.cron.entries, false⟩, cancelled := true, running := false } })

/-! ## Fixtures: the programs under `cmd/` and `examples/` -/

/-- The configuration of `cmd/scheduler/main.go`. -/
def demoConfig : SchedulerConfig := ⟨5, 30000000000, RoundRobinApp⟩

/-- The first task of `cmd/scheduler/main.go`, assigned task round robin. -/
def orderTimeoutTask : Task :=
  ⟨"order-timeout-check", "order timeout check", "0 */1 * * * *", "orderTimeoutHandler",
    RoundRobinTask, 0, 0, 0, TaskStatus.TaskStatusPending⟩

/-- The task of `examples/simple/main.go`: a trigger expression and app round
robin. -/
def helloWorldTask : Task :=
  ⟨"hello-world", "Hello World Task", "0 */10 * * * *", "helloWorldHandler",
    RoundRobinApp, 0, 0, 0, TaskStatus.TaskStatusPending⟩

/-- A task with app round robin and no trigger expression. -/
def manualTask : Task :=
  ⟨"manual-task", "manual task", "", "manualHandler",
    RoundRobinApp, 0, 0, 0, TaskStatus.TaskStatusPending⟩

/-- A second task object with the ID hello-world, whose trigger expression is
not a cron expression. -/
def malformedTask : Task :=
  ⟨"hello-world", "Hello World Task", "every ten seconds", "helloWorldHandler",
    RoundRobinApp, 0, 0, 0, TaskStatus.TaskStatusPending⟩

/-- A stand-in on the fixtures for the expression parser of `robfig/cron` with
seconds: it accepts the expressions of six fields separated by single spaces,
and answers any other expression with the error of that parser about the number
of fields. (The general theorems hold for every parser.) -/
def cronSixFields (s : String) : Option String :=
  if (s.data.filter (fun c => decide (c = Char.ofNat 32))).length = 5 then none
  else
    some ("expected exactly 6 fields, found "
      ++ toString ((s.data.filter (fun c => decide (c = Char.ofNat 32))).length + 1)
      ++ ": [" ++ s ++ "]")

/-- A program state before any call: the four task objects at addresses 0 to
3, the three test executors at addresses 0 to 2, and a scheduler built by
`New` with the configuration of `cmd/scheduler/main.go`. -/
def demoWorld : World :=
  { taskMem := fun p =>
      if p = 0 then orderTimeoutTask else if p = 1 then helloWorldTask
      else if p = 2 then manualTask else malformedTask,
    execMem := fun p => if p = 0 then exec1 else if p = 1 then exec2 else exec3,
    ts := New (some demoConfig),
    goroutines := [],
    rng := Rand.const 7,
    panicked := false }

/-- The environment of the fixtures: clock reading `now`, map iteration in
entry order. -/
def demoEnv (now : Int) : Env := ⟨now, Rand.const 3, fun l => l⟩

/-- The fixture after `AddExecutor` of exec-1 and `AddTask` of the hello-world
task at clock reading 10. -/
def helloWorld : World :=
  (TaskScheduler.AddTask (TaskScheduler.AddExecutor demoWorld 0).2 cronSixFields 10 1).2

/-- The fixture after `AddExecutor` of exec-1 and exec-2 and `AddTask` of the
manual task at clock reading 10. -/
def manualWorld : World :=
  (TaskScheduler.AddTask
    (TaskScheduler.AddExecutor (TaskScheduler.AddExecutor demoWorld 0).2 1).2
    cronSixFields 10 2).2

/-- The program states along one dispatch of `task` that runs to completion,
from a state without goroutines in flight: after `executeTask` returns, and
after each of the three steps of the goroutine it spawned, taken at the clock
readings `t1`, `t2`, `t3`. -/
def dispatchTrace (w : World) (env : Env) (t1 t2 t3 : Int) (task : Ptr) : List World :=
  [TaskScheduler.executeTask w env task,
   TaskScheduler.stepGoroutine (TaskScheduler.executeTask w env task) t1 0,
   TaskScheduler.stepGoroutine
     (TaskScheduler.stepGoroutine (TaskScheduler.executeTask w env task) t1 0) t2 0,
   TaskScheduler.stepGoroutine
     (TaskScheduler.stepGoroutine
       (TaskScheduler.stepGoroutine (TaskScheduler.executeTask w env task) t1 0) t2 0) t3 0]

/-- The program state at the end of `dispatchTrace`: the execution has
completed and its goroutine has ended. -/
def dispatchToCompletion (w : World) (env : Env) (t1 t2 t3 : Int) (task : Ptr) : World :=
  TaskScheduler.stepGoroutine
    (TaskScheduler.stepGoroutine
      (TaskScheduler.stepGoroutine (TaskScheduler.executeTask w env task) t1 0) t2 0) t3 0

/-- The status of `task` in each state of a list of program states. -/
def statusTrace (task : Ptr) (ws : List World) : List TaskStatus :=
  ws.map (fun w => (w.taskMem task).Status)

/-- The fixture with exec-1 and exec-2 registered and no task added. -/
def twoExecutorWorld : World :=
  (TaskScheduler.AddExecutor (TaskScheduler.AddExecutor demoWorld 0).2 1).2

/-- The fixture `helloWorld` after `Start`, a dispatch of the hello-world task
at clock reading 20 and the first step of its goroutine at clock reading 30:
the scheduler is started and the task is Running. -/
def runningWorld : World :=
  TaskScheduler.stepGoroutine
    (TaskScheduler.executeTask (TaskScheduler.Start helloWorld).2 (demoEnv 20) 1) 30 0

/-- A call on the executor registry: `AddExecutor(executor)` or
`RemoveExecutor(executorID)`. -/
inductive RegistryCall where
  | add (executor : Ptr)
  | remove (executorID : String)
deriving DecidableEq, Repr

/-- One call on the registry: the error it returns and the registry after it. -/
def Manager.call (em : Manager) (execMem : Ptr → Executor) :
    RegistryCall → Option String × Manager
  | RegistryCall.add executor => em.AddExecutor execMem executor
  | RegistryCall.remove executorID => em.RemoveExecutor executorID

/-- A sequence of calls on the registry, from left to right: every call with
the error it returned, and the registry after the last call. -/
def Manager.calls (em : Manager) (execMem : Ptr → Executor) :
    List RegistryCall → List (RegistryCall × Option String) × Manager
  | [] => ([], em)
  | c :: cs =>
    ((c, (em.call execMem c).1) :: ((em.call execMem c).2.calls execMem cs).1,
      ((em.call execMem c).2.calls execMem cs).2)

/-- Spec side, the registry as a finite map from executor ID to executor: a
registration fails when the ID is present and stores the executor otherwise, a
removal fails when the ID is absent and removes it otherwise. Returns whether
the call failed and the map after it. -/
def finiteMapCall (m : String → Option Ptr) (execMem : Ptr → Executor) :
    RegistryCall → Bool × (String → Option Ptr)
  | RegistryCall.add executor =>
    if (m (execMem executor).GetID).isSome then (true, m)
    else (false, Function.update m (execMem executor).GetID (some executor))
  | RegistryCall.remove executorID =>
    if (m executorID).isSome then (false, Function.update m executorID none)
    else (true, m)

/-- Spec side, read off a history of calls with their errors: the executor of
the last successful `AddExecutor` for `executorID` when no successful
`RemoveExecutor` of that ID followed it; `found` is the answer before the
history. -/
def lastRegisteredFrom (execMem : Ptr → Executor) (executorID : String)
    (found : Option Ptr) (history : List (RegistryCall × Option String)) : Option Ptr :=
  history.foldl
    (fun found entry =>
      match entry with
      | (RegistryCall.add executor, none) =>
        if (execMem executor).GetID = executorID then some executor else found
      | (RegistryCall.remove removed, none) =>
        if removed = executorID then none else found
      | (_, some _) => found)
    found

/-- Spec side: `lastRegisteredFrom` on the history since the registry was
created. -/
def lastRegistered (execMem : Ptr → Executor) (executorID : String)
    (history : List (RegistryCall × Option String)) : Option Ptr :=
  lastRegisteredFrom execMem executorID none history

/-- The map `GetTaskStats` returns, by key. The two distributions are Go maps
of counters (`none`: key absent). -/
structure TaskStats where
  total_tasks : Int
  status_distribution : TaskStatus → Option Int
  strategy_distribution : RouteStrategy → Option Int
  total_executors : Int

/-- Go `m[k]++` on a map of counters: an absent key reads as zero. -/
def mapIncr {κ : Type} [DecidableEq κ] (m : κ → Option Int) (k : κ) : κ → Option Int :=
  Function.update m k (some ((m k).getD 0 + 1))

/-- The method `TaskScheduler.GetTaskStats`; `taskOrder` and `execOrder` are
the orders in which the runtime iterates over the task map and the executor
map. -/
def TaskScheduler.GetTaskStats (w : World)
    (taskOrder execOrder : List (String × Ptr) → List (String × Ptr)) : TaskStats :=
  let counts : (TaskStatus → Option Int) × (RouteStrategy → Option Int) :=
    (taskOrder w.ts.tasks).foldl
      (fun acc kv =>
        (mapIncr acc.1 (w.taskMem kv.2).Status, mapIncr acc.2 (w.taskMem kv.2).Strategy))
      (fun _ => none, fun _ => none)
  { total_tasks := (w.ts.tasks.length : Int),
    status_distribution := counts.1,
    strategy_distribution := counts.2,
    total_executors := ((TaskScheduler.GetExecutors w execOrder).length : Int) }

/-- The fixture `manualWorld` (exec-1 and exec-2 registered, the manual task
added) after `SetHealthy(false)` on exec-2. -/
def oneUnhealthyWorld : World :=
  { manualWorld with
    execMem := Function.update manualWorld.execMem 1 ((manualWorld.execMem 1).SetHealthy false) }

/-! ## Calls in flight on a round-robin router

The round-robin routers hold no lock around their counter arithmetic: a call is
a sequence of atomic operations (`atomic.AddInt64`, `atomic.StoreInt64`,
`atomic.LoadInt64`, the section under `r.mutex`), and between two of them
another call on the same router may take its own. A call in flight is a value
that records how far the call has come and the local variable `count`; one step
performs the next atomic operation together with the local computation that
follows it. -/

/-- The last statements of either round-robin `Route`:
`executors[int(count) % len(executors)]`. -/
def roundRobinPick (executors : List Executor) (count : Int) : Option RouteResult :=
  match index? executors (goMod count executors.length) with
  | some e => some (some e, none)
  | none => none

/-- A call of `RoundRobinAppRouter.Route` in flight: before `atomic.AddInt64`,
after it with the local `count`, or returned. -/
inductive AppCall where
  | entered
  | added (count : Int)
  | returned (result : Option RouteResult)
deriving DecidableEq, Repr

/-- The next atomic operation of a call of `RoundRobinAppRouter.Route`. From
`entered`: the length check and `atomic.AddInt64(&r.globalCounter, 1)`. From
`added`: the comparison of the local `count` with 1000000 and, above it,
`atomic.StoreInt64(&r.globalCounter, 0)`; then the return. -/
def RoundRobinAppRouter.stepCall (r : RoundRobinAppRouter) (executors : List Executor) :
    AppCall → AppCall × RoundRobinAppRouter
  | AppCall.entered =>
    if executors.length = 0 then (AppCall.returned (some noExecutors), r)
    else (AppCall.added (r.globalCounter + 1), ⟨r.globalCounter + 1⟩)
  | AppCall.added count =>
    if count > 1000000 then (AppCall.returned (roundRobinPick executors 0), ⟨0⟩)
    else (AppCall.returned (roundRobinPick executors count), r)
  | AppCall.returned result => (AppCall.returned result, r)

/-- Two calls of `RoundRobinAppRouter.Route` in flight on one router, with the
same candidates: `schedule` names, step by step, the call that performs its
next atomic operation (`true`: the first call). -/
def RoundRobinAppRouter.concurrent (executors : List Executor) :
    List Bool → RoundRobinAppRouter × AppCall × AppCall →
      RoundRobinAppRouter × AppCall × AppCall
  | [], s => s
  | true :: schedule, (r, a, b) =>
    RoundRobinAppRouter.concurrent executors schedule
      ((r.stepCall executors a).2, (r.stepCall executors a).1, b)
  | false :: schedule, (r, a, b) =>
    RoundRobinAppRouter.concurrent executors schedule
      ((r.stepCall executors b).2, a, (r.stepCall executors b).1)

/-- A call of `RoundRobinTaskRouter.Route` in flight: before the section under
`r.mutex`, past it (holding the pointer to the counter of the task), after
`atomic.AddInt64` with the local `count`, after `atomic.StoreInt64`, or
returned. -/
inductive TaskCall where
  | entered
  | found
  | added (count : Int)
  | stored
  | returned (result : Option RouteResult)
deriving DecidableEq, Repr

/-- The next atomic operation of a call of `RoundRobinTaskRouter.Route` for
`task`; `g` is the global generator of `math/rand`. From `entered`: the length
check and the section under `r.mutex`, which creates the counter on first use.
From `found`: `atomic.AddInt64(counter, 1)`. From `added`: the comparison of
the local `count` with 1000000 and, above it,
`atomic.StoreInt64(counter, int64(rand.Intn(100)))`; at or below it, the
return. From `stored`: `atomic.LoadInt64(counter)` and the return. The counter
behind the pointer is the entry of the task, which no code replaces or deletes
(an entry that is missing reads as zero). -/
def RoundRobinTaskRouter.stepCall (r : RoundRobinTaskRouter) (g : Rand) (task : Task)
    (executors : List Executor) : TaskCall → TaskCall × RoundRobinTaskRouter × Rand
  | TaskCall.entered =>
    if executors.length = 0 then (TaskCall.returned (some noExecutors), r, g)
    else
      match r.taskCounters task.ID with
      | some _ => (TaskCall.found, r, g)
      | none =>
        (TaskCall.found,
          ⟨Function.update r.taskCounters task.ID (some ((g.Intn 100).1 : Int))⟩,
          (g.Intn 100).2)
  | TaskCall.found =>
    (TaskCall.added ((r.taskCounters task.ID).getD 0 + 1),
      ⟨Function.update r.taskCounters task.ID (some ((r.taskCounters task.ID).getD 0 + 1))⟩, g)
  | TaskCall.added count =>
    if count > 1000000 then
      (TaskCall.stored,
        ⟨Function.update r.taskCounters task.ID (some ((g.Intn 100).1 : Int))⟩,
        (g.Intn 100).2)
    else (TaskCall.returned (roundRobinPick executors count), r, g)
  | TaskCall.stored =>
    (TaskCall.returned (roundRobinPick executors ((r.taskCounters task.ID).getD 0)), r, g)
  | TaskCall.returned result => (TaskCall.returned result, r, g)

/-- Two calls of `RoundRobinTaskRouter.Route` for the same task in flight on
one router, with the same candidates: `schedule` names, step by step, the call
that performs its next atomic operation (`true`: the first call). -/
def RoundRobinTaskRouter.concurrent (task : Task) (executors : List Executor) :
    List Bool → RoundRobinTaskRouter × Rand × TaskCall × TaskCall →
      RoundRobinTaskRouter × Rand × TaskCall × TaskCall
  | [], s => s
  | true :: schedule, (r, g, a, b) =>
    RoundRobinTaskRouter.concurrent task executors schedule
      ((r.stepCall g task executors a).2.1, (r.stepCall g task executors a).2.2,
        (r.stepCall g task executors a).1, b)
  | false :: schedule, (r, g, a, b) =>
    RoundRobinTaskRouter.concurrent task executors schedule
      ((r.stepCall g task executors b).2.1, (r.stepCall g task executors b).2.2,
        a, (r.stepCall g task executors b).1)

/-- A task round-robin router whose counter for the task "t" stands at
1000000. -/
def taskRouterAtLimit : RoundRobinTaskRouter :=
  ⟨Function.update NewRoundRobinTaskRouter.taskCounters "t" (some 1000000)⟩

/-! ## Empty candidate lists -/

/-- Claim C2. Each of the five strategy implementations, called with an empty
candidate list, returns the error and no executor, and leaves its state (the
counters, the per-task maps, the generators) exactly as it was. -/
theorem route_empty_keeps_state (task : Task) :
    (∀ (r : RoundRobinTaskRouter) (g : Rand),
        r.Route g task [] = (some (none, some "no available executors"), r, g)) ∧
    (∀ r : RoundRobinAppRouter,
        r.Route task [] = (some (none, some "no available executors"), r)) ∧
    (∀ r : RandomRouter,
        r.Route task [] = (some (none, some "no available executors"), r)) ∧
    (∀ r : LFURouter,
        r.Route task [] = (some (none, some "no available executors"), r)) ∧
    (∀ (r : LRURouter) (now : Int),
        r.Route now task [] = (some (none, some "no available executors"), r)) :=
  ⟨fun _ _ => rfl, fun _ => rfl, fun _ => rfl, fun _ => rfl, fun _ _ => rfl⟩

/-! ## LRU -/

theorem LRURouter.lastUsed?_eq (r : LRURouter) (taskID execID : String) :
    r.lastUsed? taskID execID = (r.taskLastUsed taskID).getD (fun _ => none) execID := by
  unfold LRURouter.lastUsed?
  cases r.taskLastUsed taskID <;> rfl

/-- A never-used executor ends the scan, whatever was selected before it. -/
theorem LRURouter.scan_find (taskUsage : String → Option Int) (e : Executor) :
    ∀ (executors : List Executor) (selected : Option Executor) (oldestTime : Int),
      executors.find? (fun x => (taskUsage x.GetID).isNone) = some e →
      LRURouter.scan taskUsage executors selected oldestTime = some e := by
  intro executors
  induction executors with
  | nil => intro _ _ h; simp at h
  | cons x rest ih =>
    intro selected oldestTime h
    cases hx : taskUsage x.GetID with
    | none =>
      simp [List.find?, hx] at h
      subst h
      simp [LRURouter.scan, hx]
    | some lastUsed =>
      simp [List.find?, hx] at h
      simp only [LRURouter.scan, hx]
      split
      · exact ih _ _ h
      · exact ih _ _ h

/-- Claim C9. When some candidate has no recorded timestamp for the task, Route
returns the first such candidate in list order (whatever the timestamps of the
candidates before it), records the current time for it under that task, and
leaves every other recorded timestamp as it was. -/
theorem LRURouter.route_first_never_used (r : LRURouter) (now : Int) (task : Task)
    (executors : List Executor) (e : Executor)
    (h : executors.find? (fun x => (r.lastUsed? task.ID x.GetID).isNone) = some e) :
    (r.Route now task executors).1 = some (some e, none) ∧
    (r.Route now task executors).2.lastUsed? task.ID e.GetID = some now ∧
    ∀ taskID execID : String, (taskID ≠ task.ID ∨ execID ≠ e.GetID) →
      (r.Route now task executors).2.lastUsed? taskID execID = r.lastUsed? taskID execID := by
  have hne : executors.length ≠ 0 := by
    intro h0
    rw [List.length_eq_zero] at h0
    simp [h0] at h
  have hfind : executors.find?
      (fun x => (((r.taskLastUsed task.ID).getD (fun _ => none)) x.GetID).isNone) = some e := by
    simpa [LRURouter.lastUsed?_eq] using h
  have hscan := LRURouter.scan_find _ e executors none now hfind
  have hroute : r.Route now task executors =
      (some (some e, none),
        ⟨Function.update r.taskLastUsed task.ID
          (some (Function.update ((r.taskLastUsed task.ID).getD (fun _ => none))
            e.GetID (some now)))⟩) := by
    simp [LRURouter.Route, hne, hscan]
  rw [hroute]
  refine ⟨rfl, ?_, ?_⟩
  · simp [LRURouter.lastUsed?]
  · intro taskID execID hdiff
    by_cases ht : taskID = task.ID
    · subst ht
      have hx : execID ≠ e.GetID := by
        rcases hdiff with h1 | h1
        · exact absurd rfl h1
        · exact h1
      rw [LRURouter.lastUsed?_eq r]
      simp [LRURouter.lastUsed?, Function.update_noteq hx]
    · simp [LRURouter.lastUsed?, Function.update_noteq ht]

/-- The theorem for C9 at the test fixture: after one call exec-1 is recorded,
so the next call returns exec-2 although exec-1 precedes it. -/
theorem LRURouter.route_first_never_used_witness :
    (createTestExecutors.find? (fun x =>
        (((NewLRURouter.Route 5 (createTestTask "lru-task" LRU) createTestExecutors).2).lastUsed?
          (createTestTask "lru-task" LRU).ID x.GetID).isNone)
      = some (NewSimpleExecutor "exec-2" "http://localhost:8002" 0)) ∧
    (((NewLRURouter.Route 5 (createTestTask "lru-task" LRU) createTestExecutors).2).Route 9
        (createTestTask "lru-task" LRU) createTestExecutors).1
      = some (some (NewSimpleExecutor "exec-2" "http://localhost:8002" 0), none) :=
  ⟨by decide,
   (LRURouter.route_first_never_used
      ((NewLRURouter.Route 5 (createTestTask "lru-task" LRU) createTestExecutors).2) 9
      (createTestTask "lru-task" LRU) createTestExecutors
      (NewSimpleExecutor "exec-2" "http://localhost:8002" 0) (by decide)).1⟩

/-! ## LFU -/

theorem LFURouter.count_eq (r : LFURouter) (taskID execID : String) :
    r.count taskID execID =
      (((r.taskCounters taskID).getD (fun _ => none)) execID).getD 0 := by
  unfold LFURouter.count LFURouter.count?
  cases r.taskCounters taskID <;> rfl

theorem LFURouter.count?_eq (r : LFURouter) (taskID execID : String) :
    r.count? taskID execID = (r.taskCounters taskID).getD (fun _ => none) execID := by
  unfold LFURouter.count?
  cases r.taskCounters taskID <;> rfl

/-- Once a candidate is selected with a count that is not the sentinel, later
candidates that are not strictly below it never replace it. -/
theorem LFURouter.lfu_scan_tail (taskCounter : String → Option Int) (s : Executor) (m : Int)
    (hm : m ≠ -1) :
    ∀ post : List Executor, (∀ x ∈ post, m ≤ (taskCounter x.GetID).getD 0) →
      LFURouter.scan taskCounter post (some s) m = (some s, m) := by
  intro post
  induction post with
  | nil => intro _; rfl
  | cons x rest ih =>
    intro h
    have hx : m ≤ (taskCounter x.GetID).getD 0 := h x (List.mem_cons_self _ _)
    have hnot : ¬ (m = -1 ∨ (taskCounter x.GetID).getD 0 < m) := by
      rintro (h1 | h1)
      · exact hm h1
      · omega
    simp only [LFURouter.scan, hnot, if_false]
    exact ih (fun y hy => h y (List.mem_cons_of_mem _ hy))

/-- Candidates strictly above `e` that come before it do not survive `e`. -/
theorem LFURouter.lfu_scan_prefix (taskCounter : String → Option Int) (e : Executor)
    (post : List Executor) :
    ∀ (pre : List Executor) (selected : Option Executor) (m : Int),
      (∀ x ∈ pre, (taskCounter e.GetID).getD 0 < (taskCounter x.GetID).getD 0) →
      (m = -1 ∨ (taskCounter e.GetID).getD 0 < m) →
      LFURouter.scan taskCounter (pre ++ e :: post) selected m =
        LFURouter.scan taskCounter post (some e) ((taskCounter e.GetID).getD 0) := by
  intro pre
  induction pre with
  | nil =>
    intro selected m _ hm
    simp only [List.nil_append, LFURouter.scan, hm, if_true]
  | cons x rest ih =>
    intro selected m h hm
    have hx := h x (List.mem_cons_self _ _)
    have hrest : ∀ y ∈ rest,
        (taskCounter e.GetID).getD 0 < (taskCounter y.GetID).getD 0 :=
      fun y hy => h y (List.mem_cons_of_mem _ hy)
    simp only [List.cons_append, LFURouter.scan]
    split
    · exact ih _ _ hrest (Or.inr hx)
    · exact ih _ _ hrest hm

/-- The scan selects the first candidate of minimal count. -/
theorem LFURouter.scan_split (taskCounter : String → Option Int)
    (pre : List Executor) (e : Executor) (post : List Executor)
    (hpre : ∀ x ∈ pre, (taskCounter e.GetID).getD 0 < (taskCounter x.GetID).getD 0)
    (hpost : ∀ x ∈ post, (taskCounter e.GetID).getD 0 ≤ (taskCounter x.GetID).getD 0)
    (hne : (taskCounter e.GetID).getD 0 ≠ -1) :
    (LFURouter.scan taskCounter (pre ++ e :: post) none (-1)).1 = some e := by
  rw [LFURouter.lfu_scan_prefix taskCounter e post pre none (-1) hpre (Or.inl rfl),
    LFURouter.lfu_scan_tail taskCounter e _ hne post hpost]

/-- One `Route` call on a candidate list split at its first minimum. -/
theorem LFURouter.route_split (r : LFURouter) (task : Task)
    (pre : List Executor) (e : Executor) (post : List Executor)
    (hpre : ∀ x ∈ pre, r.count task.ID e.GetID < r.count task.ID x.GetID)
    (hpost : ∀ x ∈ post, r.count task.ID e.GetID ≤ r.count task.ID x.GetID)
    (hne : r.count task.ID e.GetID ≠ -1) :
    (r.Route task (pre ++ e :: post)).1 = some (some e, none) ∧
    (r.Route task (pre ++ e :: post)).2.count? task.ID e.GetID
      = some (r.count task.ID e.GetID + 1) ∧
    ∀ taskID execID : String, (taskID ≠ task.ID ∨ execID ≠ e.GetID) →
      (r.Route task (pre ++ e :: post)).2.count? taskID execID = r.count? taskID execID := by
  simp only [LFURouter.count_eq] at hpre hpost hne
  have hscan := LFURouter.scan_split _ pre e post hpre hpost hne
  have hlen : (pre ++ e :: post).length ≠ 0 := by simp
  have hroute : r.Route task (pre ++ e :: post) =
      (some (some e, none),
        ⟨Function.update r.taskCounters task.ID
          (some (Function.update ((r.taskCounters task.ID).getD (fun _ => none)) e.GetID
            (some ((((r.taskCounters task.ID).getD (fun _ => none)) e.GetID).getD 0 + 1))))⟩) := by
    simp only [LFURouter.Route, hlen, if_false, hscan]
  rw [hroute]
  refine ⟨rfl, ?_, ?_⟩
  · simp [LFURouter.count?, LFURouter.count_eq]
  · intro taskID execID hdiff
    by_cases ht : taskID = task.ID
    · subst ht
      have hx : execID ≠ e.GetID := by
        rcases hdiff with h1 | h1
        · exact absurd rfl h1
        · exact h1
      rw [LFURouter.count?_eq r]
      simp [LFURouter.count?, Function.update_noteq hx]
    · simp [LFURouter.count?, Function.update_noteq ht]

/-- Every non-empty list splits at the first position where a weight is
minimal. -/
theorem exists_first_min (f : Executor → Int) :
    ∀ executors : List Executor, executors ≠ [] →
      ∃ pre e post, executors = pre ++ e :: post ∧
        (∀ x ∈ pre, f e < f x) ∧ (∀ x ∈ post, f e ≤ f x) := by
  intro executors
  induction executors with
  | nil => intro h; exact absurd rfl h
  | cons x rest ih =>
    intro _
    by_cases hrest : rest = []
    · subst hrest
      exact ⟨[], x, [], rfl, by simp, by simp⟩
    · obtain ⟨pre, e, post, hsplit, hpre, hpost⟩ := ih hrest
      by_cases hle : f x ≤ f e
      · refine ⟨[], x, rest, rfl, by simp, ?_⟩
        intro y hy
        rw [hsplit] at hy
        rcases List.mem_append.mp hy with h1 | h1
        · have := hpre y h1
          omega
        · rcases List.mem_cons.mp h1 with h2 | h2
          · subst h2; exact hle
          · have := hpost y h2
            omega
      · refine ⟨x :: pre, e, post, by simp [hsplit], ?_, hpost⟩
        intro y hy
        rcases List.mem_cons.mp hy with h1 | h1
        · subst h1; omega
        · exact hpre y h1

/-- In a reachable LFU state every recorded count is at least 1. -/
theorem LFURouter.Reachable.count_pos {r : LFURouter} (hr : LFURouter.Reachable r) :
    ∀ (taskID execID : String) (c : Int), r.count? taskID execID = some c → 1 ≤ c := by
  induction hr with
  | fresh => intro _ _ c h; simp [LFURouter.count?, NewLFURouter] at h
  | route r task executors _ ih =>
    intro taskID execID c h
    by_cases hlen : executors.length = 0
    · simp only [LFURouter.Route, hlen, if_true] at h
      exact ih _ _ _ h
    · simp only [LFURouter.Route, hlen, if_false] at h
      split at h
      · rename_i e _
        by_cases ht : taskID = task.ID
        · rw [ht] at h
          by_cases hx : execID = e.GetID
          · rw [hx] at h
            simp only [LFURouter.count?, Function.update_same, Option.some_bind, Option.bind_some,
              Option.some.injEq] at h
            have hold := ih task.ID e.GetID
            rw [LFURouter.count?_eq] at hold
            cases hc : ((r.taskCounters task.ID).getD (fun _ => none)) e.GetID with
            | none => rw [hc] at h; simp at h; omega
            | some c0 =>
              have := hold c0 hc
              rw [hc] at h
              simp at h
              omega
          · simp only [LFURouter.count?, Function.update_same, Option.some_bind, Option.bind_some,
              Function.update_noteq hx] at h
            exact ih taskID execID c (by rw [ht, LFURouter.count?_eq]; exact h)
        · simp only [LFURouter.count?, Function.update_noteq ht] at h
          exact ih taskID execID c h
      · by_cases ht : taskID = task.ID
        · rw [ht] at h
          simp only [LFURouter.count?, Function.update_same, Option.some_bind] at h
          exact ih taskID execID c (by rw [ht, LFURouter.count?_eq]; exact h)
        · simp only [LFURouter.count?, Function.update_noteq ht] at h
          exact ih taskID execID c h

/-- In a reachable LFU state no count as read by the scan is negative. -/
theorem LFURouter.Reachable.count_nonneg {r : LFURouter} (hr : LFURouter.Reachable r)
    (taskID execID : String) : 0 ≤ r.count taskID execID := by
  unfold LFURouter.count
  cases h : r.count? taskID execID with
  | none => simp
  | some c =>
    have := hr.count_pos taskID execID c h
    simp
    omega

/-- Claim C7. In every LFU router state produced by `Route` calls from a fresh
router, for every task and every non-empty candidate list, Route returns the
first candidate in list order whose count for that task (0 when never recorded)
is minimal among the candidates: the list splits as `pre ++ e :: post` with
every candidate of `pre` strictly above `e` and every candidate of `post` not
below it. The count of `e` for that task grows by exactly 1 and every other
recorded count, of the task or of any other task, is left as it was. -/
theorem LFURouter.route_first_minimum (r : LFURouter) (hr : LFURouter.Reachable r)
    (task : Task) (executors : List Executor) (hne : executors ≠ []) :
    ∃ pre e post, executors = pre ++ e :: post ∧
      (∀ x ∈ pre, r.count task.ID e.GetID < r.count task.ID x.GetID) ∧
      (∀ x ∈ post, r.count task.ID e.GetID ≤ r.count task.ID x.GetID) ∧
      (r.Route task executors).1 = some (some e, none) ∧
      (r.Route task executors).2.count task.ID e.GetID = r.count task.ID e.GetID + 1 ∧
      ∀ taskID execID : String, (taskID ≠ task.ID ∨ execID ≠ e.GetID) →
        (r.Route task executors).2.count? taskID execID = r.count? taskID execID := by
  obtain ⟨pre, e, post, hsplit, hpre, hpost⟩ :=
    exists_first_min (fun x => r.count task.ID x.GetID) executors hne
  have hnon : r.count task.ID e.GetID ≠ -1 := by
    have := hr.count_nonneg task.ID e.GetID
    omega
  obtain ⟨h1, h2, h3⟩ := LFURouter.route_split r task pre e post hpre hpost hnon
  refine ⟨pre, e, post, hsplit, hpre, hpost, ?_, ?_, ?_⟩
  · rw [hsplit]; exact h1
  · rw [hsplit]; simp [LFURouter.count, h2]
  · rw [hsplit]; exact h3

/-- The theorem for C7 on the test: the LFU router after its first call for
task lfu-task, and the three test executors. -/
theorem LFURouter.route_first_minimum_witness :
    LFURouter.Reachable
      (NewLFURouter.Route (createTestTask "lfu-task" LFU) createTestExecutors).2 ∧
    createTestExecutors ≠ [] ∧
    ∃ pre e post, createTestExecutors = pre ++ e :: post ∧
      (∀ x ∈ pre,
        (NewLFURouter.Route (createTestTask "lfu-task" LFU) createTestExecutors).2.count
            (createTestTask "lfu-task" LFU).ID e.GetID
          < (NewLFURouter.Route (createTestTask "lfu-task" LFU) createTestExecutors).2.count
            (createTestTask "lfu-task" LFU).ID x.GetID) ∧
      (∀ x ∈ post,
        (NewLFURouter.Route (createTestTask "lfu-task" LFU) createTestExecutors).2.count
            (createTestTask "lfu-task" LFU).ID e.GetID
          ≤ (NewLFURouter.Route (createTestTask "lfu-task" LFU) createTestExecutors).2.count
            (createTestTask "lfu-task" LFU).ID x.GetID) ∧
      ((NewLFURouter.Route (createTestTask "lfu-task" LFU) createTestExecutors).2.Route
          (createTestTask "lfu-task" LFU) createTestExecutors).1 = some (some e, none) ∧
      ((NewLFURouter.Route (createTestTask "lfu-task" LFU) createTestExecutors).2.Route
          (createTestTask "lfu-task" LFU) createTestExecutors).2.count
            (createTestTask "lfu-task" LFU).ID e.GetID
        = (NewLFURouter.Route (createTestTask "lfu-task" LFU) createTestExecutors).2.count
            (createTestTask "lfu-task" LFU).ID e.GetID + 1 ∧
      ∀ taskID execID : String,
        (taskID ≠ (createTestTask "lfu-task" LFU).ID ∨ execID ≠ e.GetID) →
        ((NewLFURouter.Route (createTestTask "lfu-task" LFU) createTestExecutors).2.Route
          (createTestTask "lfu-task" LFU) createTestExecutors).2.count? taskID execID
        = (NewLFURouter.Route (createTestTask "lfu-task" LFU) createTestExecutors).2.count?
            taskID execID :=
  ⟨LFURouter.Reachable.route _ _ _ LFURouter.Reachable.fresh, by decide,
    LFURouter.route_first_minimum
      (NewLFURouter.Route (createTestTask "lfu-task" LFU) createTestExecutors).2
      (LFURouter.Reachable.route _ _ _ LFURouter.Reachable.fresh)
      (createTestTask "lfu-task" LFU) createTestExecutors (by decide)⟩

/-- Candidates at different positions of a list with pairwise distinct IDs
have different IDs. -/
theorem getID_ne_of_nodup (executors : List Executor)
    (hnodup : (executors.map Executor.GetID).Nodup) (j k : Nat)
    (hj : j < executors.length) (hk : k < executors.length) (hjk : j ≠ k) :
    executors[j].GetID ≠ executors[k].GetID := by
  intro h
  have hj1 : j < (executors.map Executor.GetID).length := by simpa using hj
  have hk1 : k < (executors.map Executor.GetID).length := by simpa using hk
  have h2 : (executors.map Executor.GetID)[j] = (executors.map Executor.GetID)[k] := by
    simpa using h
  exact hjk ((List.Nodup.getElem_inj_iff hnodup).mp h2)

/-- One call of the first round: with the first `k` candidates at count 1 and
the others never recorded, Route returns candidate `k` and records it. -/
theorem LFURouter.round_step (s : LFURouter) (task : Task) (executors : List Executor)
    (hnodup : (executors.map Executor.GetID).Nodup) (k : Nat) (hk : k < executors.length)
    (hinv : ∀ (j : Nat) (hj : j < executors.length),
      s.count? task.ID executors[j].GetID = if j < k then some 1 else none) :
    (s.Route task executors).1 = some (some executors[k], none) ∧
    ∀ (j : Nat) (hj : j < executors.length),
      (s.Route task executors).2.count? task.ID executors[j].GetID
        = if j < k + 1 then some 1 else none := by
  have hsplit : executors = executors.take k ++ executors[k] :: executors.drop (k + 1) := by
    rw [← List.drop_eq_getElem_cons hk, List.take_append_drop]
  have hk0 : s.count task.ID executors[k].GetID = 0 := by
    simp [LFURouter.count, hinv k hk]
  have hpre : ∀ x ∈ executors.take k,
      s.count task.ID executors[k].GetID < s.count task.ID x.GetID := by
    intro x hx
    obtain ⟨i, hi, rfl⟩ := List.mem_take_iff_getElem.mp hx
    have hik : i < k := (lt_min_iff.mp hi).1
    rw [hk0]
    simp [LFURouter.count, hinv i (lt_min_iff.mp hi).2, hik]
  have hpost : ∀ x ∈ executors.drop (k + 1),
      s.count task.ID executors[k].GetID ≤ s.count task.ID x.GetID := by
    intro x hx
    obtain ⟨i, hi, rfl⟩ := List.mem_drop_iff_getElem.mp hx
    rw [hk0]
    have hlt : ¬ (k + 1 + i < k) := by omega
    simp [LFURouter.count, hinv (k + 1 + i) (by omega), hlt]
  have hne : s.count task.ID executors[k].GetID ≠ -1 := by rw [hk0]; decide
  obtain ⟨h1, h2, h3⟩ := LFURouter.route_split s task _ _ _ hpre hpost hne
  rw [← hsplit] at h1 h2 h3
  refine ⟨h1, ?_⟩
  intro j hj
  by_cases hjk : j = k
  · subst hjk
    rw [h2, hk0]
    simp
  · rw [h3 _ _ (Or.inr (getID_ne_of_nodup executors hnodup j k hj hk hjk)), hinv j hj]
    have hiff : j < k + 1 ↔ j < k := by omega
    simp [hiff]

/-- The counts during the first round of consecutive calls. -/
theorem LFURouter.after_counts (r : LFURouter) (task : Task) (executors : List Executor)
    (hnodup : (executors.map Executor.GetID).Nodup)
    (hfresh : ∀ e ∈ executors, r.count? task.ID e.GetID = none) :
    ∀ k : Nat, k ≤ executors.length → ∀ (j : Nat) (hj : j < executors.length),
      (r.after task executors k).count? task.ID executors[j].GetID
        = if j < k then some 1 else none := by
  intro k
  induction k with
  | zero =>
    intro _ j hj
    simp [LFURouter.after, hfresh _ (List.getElem_mem hj)]
  | succ k ih =>
    intro hk j hj
    exact (LFURouter.round_step (r.after task executors k) task executors hnodup k
      (by omega) (ih (by omega))).2 j hj

/-- Claim C8. For a task none of whose candidates has a recorded count, and a
list of N >= 1 candidates with pairwise distinct IDs, the first N consecutive
Route calls return the candidates one after the other, each exactly once (the
results of the first N calls are the candidate list itself), each with count 0
just before it is selected; call N+1 returns the first candidate of the list;
for N >= 2 the first two calls return different executors. -/
theorem LFURouter.first_round (r : LFURouter) (task : Task) (executors : List Executor)
    (hne : executors ≠ []) (hnodup : (executors.map Executor.GetID).Nodup)
    (hfresh : ∀ e ∈ executors, r.count? task.ID e.GetID = none) :
    (List.range executors.length).map (r.nth task executors)
      = executors.map (fun e => some (some e, none)) ∧
    (∀ (k : Nat) (hk : k < executors.length),
      (r.after task executors k).count task.ID executors[k].GetID = 0 ∧
      r.nth task executors k = some (some executors[k], none)) ∧
    r.nth task executors executors.length = some (some (executors.head hne), none) ∧
    (2 ≤ executors.length → r.nth task executors 0 ≠ r.nth task executors 1) := by
  have hcounts := LFURouter.after_counts r task executors hnodup hfresh
  have hall : ∀ (k : Nat) (hk : k < executors.length),
      (r.after task executors k).count task.ID executors[k].GetID = 0 ∧
      r.nth task executors k = some (some executors[k], none) := by
    intro k hk
    refine ⟨?_, ?_⟩
    · simp [LFURouter.count, hcounts k (by omega) k hk]
    · exact (LFURouter.round_step (r.after task executors k) task executors hnodup k hk
        (hcounts k (by omega))).1
  refine ⟨?_, hall, ?_, ?_⟩
  · apply List.ext_getElem
    · simp
    · intro k h1 h2
      have hk : k < executors.length := by simpa using h1
      simp [(hall k hk).2]
  · -- every candidate stands at count 1: the first one is the first minimum
    obtain ⟨x, rest, hx⟩ := List.exists_cons_of_ne_nil hne
    have hfull : ∀ y ∈ executors,
        (r.after task executors executors.length).count task.ID y.GetID = 1 := by
      intro y hy
      obtain ⟨j, hj, rfl⟩ := List.getElem_of_mem hy
      simp [LFURouter.count, hcounts executors.length (le_refl _) j hj, hj]
    have hx1 := hfull x (by rw [hx]; exact List.mem_cons_self _ _)
    have hroute := (LFURouter.route_split (r.after task executors executors.length) task
      [] x rest (by simp)
      (by
        intro y hy
        rw [hx1, hfull y (by rw [hx]; exact List.mem_cons_of_mem _ hy)])
      (by rw [hx1]; decide)).1
    simp only [List.nil_append] at hroute
    subst hx
    exact hroute
  · intro h2 heq
    rw [(hall 0 (by omega)).2, (hall 1 (by omega)).2] at heq
    have hexec : executors[0] = executors[1] := by simpa using heq
    exact getID_ne_of_nodup executors hnodup 0 1 (by omega) (by omega) (by decide)
      (by rw [hexec])

/-- The theorem for C8 on the test: a fresh LFU router and the three test
executors. -/
theorem LFURouter.first_round_witness :
    createTestExecutors ≠ [] ∧
    (createTestExecutors.map Executor.GetID).Nodup ∧
    (∀ e ∈ createTestExecutors,
      NewLFURouter.count? (createTestTask "lfu-task" LFU).ID e.GetID = none) ∧
    (List.range 3).map (NewLFURouter.nth (createTestTask "lfu-task" LFU) createTestExecutors)
      = createTestExecutors.map (fun e => some (some e, none)) ∧
    NewLFURouter.nth (createTestTask "lfu-task" LFU) createTestExecutors 3
      = some (some exec1, none) ∧
    NewLFURouter.nth (createTestTask "lfu-task" LFU) createTestExecutors 0
      ≠ NewLFURouter.nth (createTestTask "lfu-task" LFU) createTestExecutors 1 :=
  ⟨by decide, by decide, fun _ _ => rfl,
    (LFURouter.first_round NewLFURouter (createTestTask "lfu-task" LFU) createTestExecutors
      (by decide) (by decide) (fun _ _ => rfl)).1,
    (LFURouter.first_round NewLFURouter (createTestTask "lfu-task" LFU) createTestExecutors
      (by decide) (by decide) (fun _ _ => rfl)).2.2.1,
    (LFURouter.first_round NewLFURouter (createTestTask "lfu-task" LFU) createTestExecutors
      (by decide) (by decide) (fun _ _ => rfl)).2.2.2 (by decide)⟩

/-! ## Round robin: indexing -/

/-- The index computation of both round-robin routers on a counter that is not
negative: the candidate at position `n % N`. -/
theorem index?_goMod (executors : List Executor) (hne : executors ≠ []) (n : Nat) :
    index? executors (goMod (n : Int) executors.length)
      = some (executors.get ⟨n % executors.length,
          Nat.mod_lt _ (List.length_pos.mpr hne)⟩) := by
  have hlt : n % executors.length < executors.length :=
    Nat.mod_lt _ (List.length_pos.mpr hne)
  have hmod : goMod (n : Int) executors.length = ((n % executors.length : Nat) : Int) := by
    unfold goMod
    exact (Int.ofNat_tmod n executors.length).symm
  rw [hmod]
  unfold index?
  rw [if_pos (Int.natCast_nonneg _), Int.toNat_ofNat, List.getElem?_eq_getElem hlt]
  rfl

/-- Two consecutive counter values fall on different positions of a list of
at least two candidates. -/
theorem succ_mod_ne (a N : Nat) (hN : 2 ≤ N) : (a + 1) % N ≠ a % N := by
  intro h
  have h1 : Nat.ModEq N (a + 1) (a + 0) := by simpa [Nat.ModEq] using h
  have h2 : Nat.ModEq N 1 0 := Nat.ModEq.add_left_cancel' a h1
  have h3 : N ∣ 1 := (Nat.modEq_zero_iff_dvd).mp h2
  have := Nat.le_of_dvd (by decide) h3
  omega

/-! ## App round robin -/

/-- One call of the app router from a counter that is not negative. -/
theorem RoundRobinAppRouter.route_nat (n : Nat) (task : Task) (executors : List Executor)
    (hne : executors ≠ []) :
    RoundRobinAppRouter.Route ⟨(n : Int)⟩ task executors =
      (some (some (executors.get ⟨nextCount 0 n % executors.length,
          Nat.mod_lt _ (List.length_pos.mpr hne)⟩), none),
        ⟨((nextCount 0 n : Nat) : Int)⟩) := by
  have hlen : executors.length ≠ 0 := by
    intro h; exact hne (List.length_eq_zero.mp h)
  have hcount : (if (n : Int) + 1 > 1000000 then (0 : Int) else (n : Int) + 1)
      = ((nextCount 0 n : Nat) : Int) := by
    unfold nextCount
    by_cases h : n + 1 > 1000000
    · have h1 : (n : Int) + 1 > 1000000 := by omega
      simp [h, h1]
    · have h1 : ¬ ((n : Int) + 1 > 1000000) := by omega
      simp only [h, h1, if_false]
      push_cast
      rfl
  simp only [RoundRobinAppRouter.Route, hlen, if_false, hcount,
    index?_goMod executors hne]

/-- The reachable app round-robin counters are those in `[0, 1000000]`. -/
theorem RoundRobinAppRouter.Reachable.bounds {r : RoundRobinAppRouter}
    (hr : RoundRobinAppRouter.Reachable r) :
    ∃ n : Nat, n ≤ 1000000 ∧ r = ⟨(n : Int)⟩ := by
  induction hr with
  | fresh => exact ⟨0, by decide, rfl⟩
  | route r task executors _ ih =>
    obtain ⟨n, hn, rfl⟩ := ih
    by_cases hne : executors = []
    · subst hne
      exact ⟨n, hn, rfl⟩
    · refine ⟨nextCount 0 n, ?_, ?_⟩
      · unfold nextCount
        split <;> omega
      · rw [RoundRobinAppRouter.route_nat n task executors hne]

/-- Every counter value in `[0, 1000000]` is reached. -/
theorem RoundRobinAppRouter.reachable_of_le (n : Nat) (hn : n ≤ 1000000) :
    RoundRobinAppRouter.Reachable ⟨(n : Int)⟩ := by
  induction n with
  | zero => exact RoundRobinAppRouter.Reachable.fresh
  | succ k ih =>
    have hk := RoundRobinAppRouter.Reachable.route _ (createTestTask "t" RoundRobinApp)
      twoExecutors (ih (by omega))
    rw [RoundRobinAppRouter.route_nat k _ twoExecutors (by decide)] at hk
    have hnext : nextCount 0 k = k + 1 := by
      unfold nextCount
      have : ¬ (k + 1 > 1000000) := by omega
      simp [this]
    simpa [hnext] using hk

/-- Positions of two successive calls differ, except across the reset when the
list length divides 1000000. -/
theorem nextCount_mod_ne (n N : Nat) (hN : 2 ≤ N)
    (hwrap : ¬ (N ∣ 1000000 ∧ n = 1000000)) (hn : n ≤ 1000000) :
    nextCount 0 n % N ≠ n % N := by
  unfold nextCount
  by_cases h : n + 1 > 1000000
  · have hn1 : n = 1000000 := by omega
    subst hn1
    simp only [h, if_true, Nat.zero_mod]
    intro h0
    exact hwrap ⟨Nat.dvd_of_mod_eq_zero h0.symm, rfl⟩
  · simp only [h, if_false]
    exact succ_mod_ne n N hN

/-- Claim C5, as amended. From every reachable counter state of the app router,
for any two tasks and a list of N >= 2 candidates with pairwise distinct IDs,
the three calls T1, T2, T1 each return a candidate, calls 1 and 2 return
different executors and so do calls 2 and 3, unless N divides 1000000 and the
counter stands at 999998 or 999999 before the first call. Every call moves the
shared counter one position on, except from 1000000, where it goes back to 0. -/
theorem RoundRobinAppRouter.interleaved_calls (r : RoundRobinAppRouter)
    (hr : RoundRobinAppRouter.Reachable r) (task1 task2 : Task)
    (executors : List Executor) (hN : 2 ≤ executors.length)
    (hnodup : (executors.map Executor.GetID).Nodup)
    (hwrap : ¬ (executors.length ∣ 1000000 ∧
      (r.globalCounter = 999998 ∨ r.globalCounter = 999999))) :
    (∃ e1 e2 e3 : Executor,
      (r.Route task1 executors).1 = some (some e1, none) ∧
      ((r.Route task1 executors).2.Route task2 executors).1 = some (some e2, none) ∧
      (((r.Route task1 executors).2.Route task2 executors).2.Route task1 executors).1
        = some (some e3, none) ∧
      e1.GetID ≠ e2.GetID ∧ e2.GetID ≠ e3.GetID) ∧
    ∀ task : Task, (r.Route task executors).2.globalCounter
      = if r.globalCounter = 1000000 then 0 else r.globalCounter + 1 := by
  obtain ⟨n, hn, rfl⟩ := hr.bounds
  have hne : executors ≠ [] := by
    intro h; subst h; simp at hN
  have hpos : 0 < executors.length := by omega
  have hb : ∀ m : Nat, m ≤ 1000000 → nextCount 0 m ≤ 1000000 := by
    intro m hm
    unfold nextCount
    split <;> omega
  have hnext : ∀ m : Nat, m ≤ 1000000 → (nextCount 0 m = 1000000 ↔ m = 999999) := by
    intro m hm
    unfold nextCount
    split <;> omega
  constructor
  · refine ⟨executors.get ⟨nextCount 0 n % executors.length, Nat.mod_lt _ hpos⟩,
      executors.get ⟨nextCount 0 (nextCount 0 n) % executors.length, Nat.mod_lt _ hpos⟩,
      executors.get ⟨nextCount 0 (nextCount 0 (nextCount 0 n)) % executors.length,
        Nat.mod_lt _ hpos⟩, ?_, ?_, ?_, ?_, ?_⟩
    · rw [RoundRobinAppRouter.route_nat n task1 executors hne]
    · rw [RoundRobinAppRouter.route_nat n task1 executors hne,
        RoundRobinAppRouter.route_nat _ task2 executors hne]
    · rw [RoundRobinAppRouter.route_nat n task1 executors hne,
        RoundRobinAppRouter.route_nat _ task2 executors hne,
        RoundRobinAppRouter.route_nat _ task1 executors hne]
    · simp only [List.get_eq_getElem]
      apply getID_ne_of_nodup executors hnodup
      refine (nextCount_mod_ne (nextCount 0 n) executors.length hN ?_ (hb n hn)).symm
      rintro ⟨hdvd, h1⟩
      have h2 : n = 999999 := (hnext n hn).mp h1
      exact hwrap ⟨hdvd, Or.inr (by simp [h2])⟩
    · simp only [List.get_eq_getElem]
      apply getID_ne_of_nodup executors hnodup
      refine (nextCount_mod_ne (nextCount 0 (nextCount 0 n)) executors.length hN ?_
        (hb _ (hb n hn))).symm
      rintro ⟨hdvd, h1⟩
      have h2 : nextCount 0 n = 999999 := (hnext _ (hb n hn)).mp h1
      have h3 : n = 999998 := by
        unfold nextCount at h2
        split at h2 <;> omega
      exact hwrap ⟨hdvd, Or.inl (by simp [h3])⟩
  · intro task
    rw [RoundRobinAppRouter.route_nat n task executors hne]
    unfold nextCount
    by_cases h : n + 1 > 1000000
    · have h1 : (n : Int) = 1000000 := by omega
      simp [h, h1]
    · have h1 : ¬ ((n : Int) = 1000000) := by omega
      simp [h, h1]

/-- The theorem for C5 on the test: a fresh router, tasks task-1 and task-2,
the three test executors. -/
theorem RoundRobinAppRouter.interleaved_calls_witness :
    RoundRobinAppRouter.Reachable NewRoundRobinAppRouter ∧
    2 ≤ createTestExecutors.length ∧
    (createTestExecutors.map Executor.GetID).Nodup ∧
    ¬ (createTestExecutors.length ∣ 1000000 ∧
      (NewRoundRobinAppRouter.globalCounter = 999998 ∨
        NewRoundRobinAppRouter.globalCounter = 999999)) ∧
    ∃ e1 e2 e3 : Executor,
      (NewRoundRobinAppRouter.Route (createTestTask "task-1" RoundRobinApp)
        createTestExecutors).1 = some (some e1, none) ∧
      ((NewRoundRobinAppRouter.Route (createTestTask "task-1" RoundRobinApp)
        createTestExecutors).2.Route (createTestTask "task-2" RoundRobinApp)
        createTestExecutors).1 = some (some e2, none) ∧
      (((NewRoundRobinAppRouter.Route (createTestTask "task-1" RoundRobinApp)
        createTestExecutors).2.Route (createTestTask "task-2" RoundRobinApp)
        createTestExecutors).2.Route (createTestTask "task-1" RoundRobinApp)
        createTestExecutors).1 = some (some e3, none) ∧
      e1.GetID ≠ e2.GetID ∧ e2.GetID ≠ e3.GetID :=
  ⟨RoundRobinAppRouter.Reachable.fresh, by decide, by decide, by decide,
    (RoundRobinAppRouter.interleaved_calls NewRoundRobinAppRouter
      RoundRobinAppRouter.Reachable.fresh (createTestTask "task-1" RoundRobinApp)
      (createTestTask "task-2" RoundRobinApp) createTestExecutors (by decide) (by decide)
      (by decide)).1⟩

/-- Claim C5 fails as stated: the counter value 999999 is reachable, and from
it, with two candidates of distinct IDs and two distinct tasks, call 1 (counter
1000000, position 0) and call 2 (counter reset to 0, position 0) return the
same executor. -/
theorem RoundRobinAppRouter.same_executor_across_reset :
    RoundRobinAppRouter.Reachable ⟨999999⟩ ∧
    2 ≤ twoExecutors.length ∧
    (twoExecutors.map Executor.GetID).Nodup ∧
    createTestTask "task-1" RoundRobinApp ≠ createTestTask "task-2" RoundRobinApp ∧
    (RoundRobinAppRouter.Route ⟨999999⟩ (createTestTask "task-1" RoundRobinApp)
      twoExecutors).1 = some (some exec1, none) ∧
    ((RoundRobinAppRouter.Route ⟨999999⟩ (createTestTask "task-1" RoundRobinApp)
      twoExecutors).2.Route (createTestTask "task-2" RoundRobinApp) twoExecutors).1
      = some (some exec1, none) :=
  ⟨RoundRobinAppRouter.reachable_of_le 999999 (by decide), by decide, by decide, by decide,
    by decide, by decide⟩

/-! ## App round robin against task round robin -/

/-- Claim C6, as amended. `c` is an `int64` counter value below the largest
one, so that the increment does not wrap. From a counter value `c` below
1000000 the app router and the task router (its counter for the task equal to
`c`) return the same result and leave the same counter value, on every
candidate list. From 1000000 on, with N >= 1 candidates, the task router moves
its counter to the fresh draw `r` in [0,100) and returns the candidate at
position `r mod N`, the app router moves its counter to zero and returns the
candidate at position 0: the two leave the same counter value only when `r` is
0, and, the candidates being pairwise distinct, return the same candidate only
when `r mod N` is 0. -/
theorem roundRobin_app_vs_task (c : Int) (task : Task) (executors : List Executor)
    (rt : RoundRobinTaskRouter) (g : Rand) (hc : rt.taskCounters task.ID = some c) :
    (-9223372036854775808 ≤ c → c < 1000000 →
      (RoundRobinAppRouter.Route ⟨c⟩ task executors).1 = (rt.Route g task executors).1 ∧
      some (RoundRobinAppRouter.Route ⟨c⟩ task executors).2.globalCounter
        = (rt.Route g task executors).2.1.taskCounters task.ID) ∧
    (1000000 ≤ c → c < 9223372036854775807 → executors ≠ [] →
      (g.Intn 100).1 < 100 ∧
      (rt.Route g task executors).1
        = some (executors[(g.Intn 100).1 % executors.length]?, none) ∧
      (rt.Route g task executors).2.1.taskCounters task.ID = some ((g.Intn 100).1 : Int) ∧
      (RoundRobinAppRouter.Route ⟨c⟩ task executors).1 = some (executors[0]?, none) ∧
      (RoundRobinAppRouter.Route ⟨c⟩ task executors).2.globalCounter = 0 ∧
      (some (RoundRobinAppRouter.Route ⟨c⟩ task executors).2.globalCounter
          = (rt.Route g task executors).2.1.taskCounters task.ID
        ↔ (g.Intn 100).1 = 0) ∧
      (executors.Nodup →
        ((RoundRobinAppRouter.Route ⟨c⟩ task executors).1 = (rt.Route g task executors).1
          ↔ (g.Intn 100).1 % executors.length = 0))) := by
  constructor
  · intro _ hlt
    by_cases hlen : executors.length = 0
    · simp [RoundRobinAppRouter.Route, RoundRobinTaskRouter.Route, hlen, hc]
    · have h1 : ¬ (c + 1 > 1000000) := by omega
      simp only [RoundRobinAppRouter.Route, RoundRobinTaskRouter.Route, hlen, if_false, hc, h1]
      cases index? executors (goMod (c + 1) executors.length) <;> simp
  · intro hge _ hne
    have hlen : executors.length ≠ 0 := by
      intro h; exact hne (List.length_eq_zero.mp h)
    have hpos : 0 < executors.length := Nat.pos_of_ne_zero hlen
    have h1 : c + 1 > 1000000 := by omega
    have hidx := index?_goMod executors hne (g.Intn 100).1
    have hidx0 := index?_goMod executors hne 0
    have htask : (rt.Route g task executors).1
        = some (executors[(g.Intn 100).1 % executors.length]?, none) := by
      simp only [RoundRobinTaskRouter.Route, hlen, if_false, hc, h1, if_true, hidx]
      rw [List.getElem?_eq_getElem (Nat.mod_lt _ hpos)]
      rfl
    have htaskc : (rt.Route g task executors).2.1.taskCounters task.ID
        = some ((g.Intn 100).1 : Int) := by
      simp only [RoundRobinTaskRouter.Route, hlen, if_false, hc, h1, if_true, hidx]
      simp
    have happ : (RoundRobinAppRouter.Route ⟨c⟩ task executors).1
        = some (executors[0]?, none) := by
      simp only [RoundRobinAppRouter.Route, hlen, if_false, h1, if_true]
      have h0 : index? executors (goMod 0 executors.length) = executors[0]? := by
        have := hidx0
        simp only [Nat.cast_zero, Nat.zero_mod] at this
        rw [this, List.getElem?_eq_getElem hpos]
        rfl
      rw [h0]
      cases hx : executors[0]? with
      | none =>
        rw [List.getElem?_eq_getElem hpos] at hx
        cases hx
      | some e => rfl
    have happc : (RoundRobinAppRouter.Route ⟨c⟩ task executors).2.globalCounter = 0 := by
      simp only [RoundRobinAppRouter.Route, hlen, if_false, h1, if_true]
      cases index? executors (goMod 0 executors.length) <;> rfl
    refine ⟨Nat.mod_lt _ (by decide), htask, htaskc, happ, happc, ?_, ?_⟩
    · rw [happc, htaskc]
      constructor
      · intro h
        have h2 : (0 : Int) = ((g.Intn 100).1 : Int) := Option.some.inj h
        exact_mod_cast h2.symm
      · intro h
        rw [h]
        rfl
    · intro hnodup
      have hk : (g.Intn 100).1 % executors.length < executors.length := Nat.mod_lt _ hpos
      rw [happ, htask, List.getElem?_eq_getElem hpos, List.getElem?_eq_getElem hk]
      constructor
      · intro h
        have h2 : executors[0] = executors[(g.Intn 100).1 % executors.length] := by
          have h3 := Option.some.inj h
          exact Option.some.inj (congrArg Prod.fst h3)
        exact ((hnodup.getElem_inj_iff).mp h2).symm
      · intro h
        simp only [h]

/-- The theorem for C6 on the test executors: at the counter value 5 the two
routers agree; at the counter value 1000000 with the draw 7 they leave
different counter values and return different candidates. -/
theorem roundRobin_app_vs_task_witness :
    ((RoundRobinAppRouter.Route ⟨5⟩ (createTestTask "t" RoundRobinTask)
        createTestExecutors).1
      = (RoundRobinTaskRouter.Route ⟨fun _ => some 5⟩ (Rand.const 7)
          (createTestTask "t" RoundRobinTask) createTestExecutors).1 ∧
    some (RoundRobinAppRouter.Route ⟨5⟩ (createTestTask "t" RoundRobinTask)
        createTestExecutors).2.globalCounter
      = (RoundRobinTaskRouter.Route ⟨fun _ => some 5⟩ (Rand.const 7)
          (createTestTask "t" RoundRobinTask) createTestExecutors).2.1.taskCounters
          (createTestTask "t" RoundRobinTask).ID) ∧
    (¬ (some (RoundRobinAppRouter.Route ⟨1000000⟩ (createTestTask "t" RoundRobinTask)
        createTestExecutors).2.globalCounter
      = (RoundRobinTaskRouter.Route ⟨fun _ => some 1000000⟩ (Rand.const 7)
          (createTestTask "t" RoundRobinTask) createTestExecutors).2.1.taskCounters
          (createTestTask "t" RoundRobinTask).ID)) ∧
    (¬ ((RoundRobinAppRouter.Route ⟨1000000⟩ (createTestTask "t" RoundRobinTask)
        createTestExecutors).1
      = (RoundRobinTaskRouter.Route ⟨fun _ => some 1000000⟩ (Rand.const 7)
          (createTestTask "t" RoundRobinTask) createTestExecutors).1)) :=
  ⟨(roundRobin_app_vs_task 5 (createTestTask "t" RoundRobinTask) createTestExecutors
      ⟨fun _ => some 5⟩ (Rand.const 7) rfl).1 (by decide) (by decide),
    fun h => absurd
      (((roundRobin_app_vs_task 1000000 (createTestTask "t" RoundRobinTask) createTestExecutors
        ⟨fun _ => some 1000000⟩ (Rand.const 7) rfl).2 (by decide) (by decide)
        (by decide)).2.2.2.2.2.1.mp h) (by decide),
    fun h => absurd
      ((((roundRobin_app_vs_task 1000000 (createTestTask "t" RoundRobinTask) createTestExecutors
        ⟨fun _ => some 1000000⟩ (Rand.const 7) rfl).2 (by decide) (by decide)
        (by decide)).2.2.2.2.2.2 (by decide)).mp h) (by decide)⟩

/-- Claim C6 fails as stated: at the counter value 1000000, with the three test
executors and the draw 7, the task router resets to 7 and returns the candidate
at position 1, the app router resets to 0 and returns the candidate at
position 0. -/
theorem roundRobin_reset_differs :
    (Rand.const 7).Intn 100 = (7, Rand.const 7) ∧
    (RoundRobinTaskRouter.Route ⟨fun _ => some 1000000⟩ (Rand.const 7)
      (createTestTask "t" RoundRobinTask) createTestExecutors).1 = some (some exec2, none) ∧
    (RoundRobinTaskRouter.Route ⟨fun _ => some 1000000⟩ (Rand.const 7)
      (createTestTask "t" RoundRobinTask) createTestExecutors).2.1.taskCounters
        (createTestTask "t" RoundRobinTask).ID = some 7 ∧
    (RoundRobinAppRouter.Route ⟨1000000⟩ (createTestTask "t" RoundRobinTask)
      createTestExecutors).1 = some (some exec1, none) ∧
    (RoundRobinAppRouter.Route ⟨1000000⟩ (createTestTask "t" RoundRobinTask)
      createTestExecutors).2.globalCounter = 0 :=
  ⟨rfl, by decide, by decide, by decide, by decide⟩

/-! ## Task round robin -/

/-- One call of the task router for a task whose counter exists and is not
negative. -/
theorem RoundRobinTaskRouter.route_some (r : RoundRobinTaskRouter) (g : Rand) (task : Task)
    (executors : List Executor) (hne : executors ≠ []) (n : Nat)
    (hc : r.taskCounters task.ID = some (n : Int)) :
    r.Route g task executors =
      (some (some (executors.get ⟨nextCount (g.Intn 100).1 n % executors.length,
          Nat.mod_lt _ (List.length_pos.mpr hne)⟩), none),
        ⟨Function.update r.taskCounters task.ID
          (some ((nextCount (g.Intn 100).1 n : Nat) : Int))⟩,
        if n + 1 > 1000000 then (g.Intn 100).2 else g) := by
  have hlen : executors.length ≠ 0 := by
    intro h; exact hne (List.length_eq_zero.mp h)
  by_cases h : n + 1 > 1000000
  · have h1 : (n : Int) + 1 > 1000000 := by omega
    have hnext : nextCount (g.Intn 100).1 n = (g.Intn 100).1 := by
      unfold nextCount; simp [h]
    simp only [RoundRobinTaskRouter.Route, hlen, if_false, hc, h1, if_true, h, hnext,
      index?_goMod executors hne]
  · have hnext : nextCount (g.Intn 100).1 n = n + 1 := by
      unfold nextCount; simp [h]
    have hcast : (n : Int) + 1 = ((n + 1 : Nat) : Int) := by push_cast; rfl
    have h2 : ¬ (((n + 1 : Nat) : Int) > 1000000) := by omega
    simp only [RoundRobinTaskRouter.Route, hlen, if_false, hc, h, hnext, hcast, h2,
      index?_goMod executors hne]

/-- The first call of the task router for a task: the counter starts at the
draw and is incremented once. -/
theorem RoundRobinTaskRouter.route_none (r : RoundRobinTaskRouter) (g : Rand) (task : Task)
    (executors : List Executor) (hne : executors ≠ [])
    (hc : r.taskCounters task.ID = none) :
    r.Route g task executors =
      (some (some (executors.get ⟨((g.Intn 100).1 + 1) % executors.length,
          Nat.mod_lt _ (List.length_pos.mpr hne)⟩), none),
        ⟨Function.update r.taskCounters task.ID (some (((g.Intn 100).1 + 1 : Nat) : Int))⟩,
        (g.Intn 100).2) := by
  have hlen : executors.length ≠ 0 := by
    intro h; exact hne (List.length_eq_zero.mp h)
  have ho : (g.Intn 100).1 < 100 := Nat.mod_lt _ (by decide)
  have hcast : ((g.Intn 100).1 : Int) + 1 = (((g.Intn 100).1 + 1 : Nat) : Int) := by
    push_cast; rfl
  have h2 : ¬ ((((g.Intn 100).1 + 1 : Nat) : Int) > 1000000) := by omega
  simp only [RoundRobinTaskRouter.Route, hlen, if_false, hc, hcast, h2,
    index?_goMod executors hne]

/-- The counter of the task and the generator during a run of consecutive
calls that starts with the first use of the task, up to the reset. -/
theorem RoundRobinTaskRouter.after_counter (r : RoundRobinTaskRouter) (g : Rand) (task : Task)
    (executors : List Executor) (hne : executors ≠ [])
    (hnew : r.taskCounters task.ID = none) :
    ∀ n : Nat, (g.Intn 100).1 + (n + 1) ≤ 1000000 →
      (r.after g task executors (n + 1)).1.taskCounters task.ID
        = some (((g.Intn 100).1 + (n + 1) : Nat) : Int) ∧
      (r.after g task executors (n + 1)).2 = (g.Intn 100).2 := by
  intro n
  induction n with
  | zero =>
    intro _
    simp only [RoundRobinTaskRouter.after,
      RoundRobinTaskRouter.route_none r g task executors hne hnew]
    simp
  | succ n ih =>
    intro hb
    obtain ⟨h1, h2⟩ := ih (by omega)
    have hstep := RoundRobinTaskRouter.route_some (r.after g task executors (n + 1)).1
      (r.after g task executors (n + 1)).2 task executors hne _ h1
    have hnext : ∀ reset : Nat,
        nextCount reset ((g.Intn 100).1 + (n + 1)) = (g.Intn 100).1 + (n + 1 + 1) := by
      intro reset
      unfold nextCount
      have : ¬ ((g.Intn 100).1 + (n + 1) + 1 > 1000000) := by omega
      simp only [this, if_false]
      omega
    have hnot : ¬ ((g.Intn 100).1 + (n + 1) + 1 > 1000000) := by omega
    rw [RoundRobinTaskRouter.after, hstep]
    simp only [hnext, hnot, if_false, Function.update_same, h2, and_self]

/-- The result of call `k + 1` of a run that starts with the first use of the
task, up to the reset. -/
theorem RoundRobinTaskRouter.nth_eq (r : RoundRobinTaskRouter) (g : Rand) (task : Task)
    (executors : List Executor) (hne : executors ≠ [])
    (hnew : r.taskCounters task.ID = none) (k : Nat)
    (hk : (g.Intn 100).1 + (k + 1) ≤ 1000000) :
    r.nth g task executors k
      = some (some (executors.get ⟨((g.Intn 100).1 + (k + 1)) % executors.length,
          Nat.mod_lt _ (List.length_pos.mpr hne)⟩), none) := by
  cases k with
  | zero =>
    simp only [RoundRobinTaskRouter.nth, RoundRobinTaskRouter.after,
      RoundRobinTaskRouter.route_none r g task executors hne hnew]
  | succ n =>
    obtain ⟨h1, _⟩ := RoundRobinTaskRouter.after_counter r g task executors hne hnew n
      (by omega)
    have hstep := RoundRobinTaskRouter.route_some (r.after g task executors (n + 1)).1
      (r.after g task executors (n + 1)).2 task executors hne _ h1
    have hnext : ∀ reset : Nat,
        nextCount reset ((g.Intn 100).1 + (n + 1)) = (g.Intn 100).1 + (n + 1 + 1) := by
      intro reset
      unfold nextCount
      have : ¬ ((g.Intn 100).1 + (n + 1) + 1 > 1000000) := by omega
      simp only [this, if_false]
      omega
    simp only [RoundRobinTaskRouter.nth, hstep, hnext]

/-- Claim C3, as amended. For a task the router has no counter for, whose
counter is therefore initialised by the first call to the draw `o` in [0,100),
and a fixed list of N >= 1 candidates, call number k of a run of consecutive
calls for that task returns the candidate at position `(o + k) mod N`, for
every k >= 1 with `o + k <= 1000000` (the statement writes k as `k + 1`). -/
theorem RoundRobinTaskRouter.kth_call (r : RoundRobinTaskRouter) (g : Rand) (task : Task)
    (executors : List Executor) (hne : executors ≠ [])
    (hnew : r.taskCounters task.ID = none) (o : Nat) (ho : (g.Intn 100).1 = o)
    (k : Nat) (hk : o + (k + 1) ≤ 1000000) :
    o < 100 ∧
    r.nth g task executors k
      = some (some (executors.get ⟨(o + (k + 1)) % executors.length,
          Nat.mod_lt _ (List.length_pos.mpr hne)⟩), none) := by
  subst ho
  exact ⟨Nat.mod_lt _ (by decide),
    RoundRobinTaskRouter.nth_eq r g task executors hne hnew k hk⟩

/-- The theorem for C3 on the test: a fresh router, the generator that draws 7,
the three test executors, call number 3. -/
theorem RoundRobinTaskRouter.kth_call_witness :
    createTestExecutors ≠ [] ∧
    NewRoundRobinTaskRouter.taskCounters (createTestTask "test-task" RoundRobinTask).ID = none ∧
    ((Rand.const 7).Intn 100).1 = 7 ∧
    7 + (2 + 1) ≤ 1000000 ∧
    7 < 100 ∧
    NewRoundRobinTaskRouter.nth (Rand.const 7) (createTestTask "test-task" RoundRobinTask)
        createTestExecutors 2
      = some (some (createTestExecutors.get ⟨(7 + (2 + 1)) % createTestExecutors.length,
          Nat.mod_lt _ (List.length_pos.mpr (by decide))⟩), none) :=
  ⟨by decide, rfl, rfl, by decide,
    RoundRobinTaskRouter.kth_call NewRoundRobinTaskRouter (Rand.const 7)
      (createTestTask "test-task" RoundRobinTask) createTestExecutors (by decide) rfl 7 rfl 2
      (by decide)⟩

/-- The call that takes the counter past 1000000 returns the candidate at the
position of the fresh draw. -/
theorem RoundRobinTaskRouter.nth_at_reset (r : RoundRobinTaskRouter) (g : Rand) (task : Task)
    (executors : List Executor) (hne : executors ≠ [])
    (hnew : r.taskCounters task.ID = none) (n : Nat)
    (hn : (g.Intn 100).1 + (n + 1) = 1000000) :
    r.nth g task executors (n + 1)
      = some (some (executors.get ⟨((g.Intn 100).2.Intn 100).1 % executors.length,
          Nat.mod_lt _ (List.length_pos.mpr hne)⟩), none) := by
  obtain ⟨h1, h2⟩ := RoundRobinTaskRouter.after_counter r g task executors hne hnew n
    (by omega)
  rw [hn] at h1
  have hstep := RoundRobinTaskRouter.route_some (r.after g task executors (n + 1)).1
    (r.after g task executors (n + 1)).2 task executors hne _ h1
  have hnext : ∀ reset : Nat, nextCount reset 1000000 = reset := by
    intro reset
    unfold nextCount
    simp
  rw [h2] at hstep
  simp only [RoundRobinTaskRouter.nth, h2, hstep, hnext]

/-- Claim C3 fails as stated: for a fresh router, the generator that draws 7
(so `o = 7`) and the three test executors, call number 999994 increments the
counter to 1000001, resets it to the draw 7 and returns the candidate at
position `7 mod 3 = 1`, not the one at position `(7 + 999994) mod 3 = 2`. -/
theorem RoundRobinTaskRouter.kth_call_after_reset :
    ((Rand.const 7).Intn 100).1 = 7 ∧
    NewRoundRobinTaskRouter.nth (Rand.const 7) (createTestTask "test-task" RoundRobinTask)
      createTestExecutors 999993 = some (some exec2, none) ∧
    createTestExecutors[(7 + 999994) % createTestExecutors.length]? = some exec3 ∧
    exec2 ≠ exec3 := by
  refine ⟨rfl, ?_, by decide, by decide⟩
  have hcall := RoundRobinTaskRouter.nth_at_reset NewRoundRobinTaskRouter (Rand.const 7)
    (createTestTask "test-task" RoundRobinTask) createTestExecutors (by decide) rfl 999992
    (by decide)
  have hnum : (999993 : Nat) = 999992 + 1 := by norm_num
  rw [hnum, hcall]
  rfl

/-- For every position `j` of a list of length `N` and every start `a`, one of
the `N` values `a`, `a + 1`, ... falls on `j`. -/
theorem exists_offset_mod (a j N : Nat) (hj : j < N) :
    ∃ k, k < N ∧ (a + k) % N = j := by
  have hN : 0 < N := by omega
  refine ⟨(j + (N - a % N)) % N, Nat.mod_lt _ hN, ?_⟩
  have hr : a % N < N := Nat.mod_lt _ hN
  have hdiv : N * (a / N) + a % N = a := Nat.div_add_mod a N
  have hmul : N * (a / N + 1) = N * (a / N) + N := by ring
  have hsum : a + (j + (N - a % N)) = j + N * (a / N + 1) := by omega
  rw [Nat.add_mod_mod, hsum, Nat.add_mul_mod_self_left, Nat.mod_eq_of_lt hj]

/-- Claim C4, as amended. For a fresh task round-robin router, a fixed task and
a fixed list of N >= 1 candidates such that `o + N <= 1000000` for the first
draw `o` (in particular whenever `N <= 999901`), after any number of
consecutive Route calls for that task that is a positive multiple `m * N` of N,
every candidate has been returned at least once. -/
theorem RoundRobinTaskRouter.every_candidate_visited (g : Rand) (task : Task)
    (executors : List Executor) (hne : executors ≠ [])
    (hbound : (g.Intn 100).1 + executors.length ≤ 1000000) (m : Nat) (hm : 1 ≤ m)
    (e : Executor) (he : e ∈ executors) :
    ∃ k, k < m * executors.length ∧
      NewRoundRobinTaskRouter.nth g task executors k = some (some e, none) := by
  obtain ⟨j, hj, rfl⟩ := List.getElem_of_mem he
  obtain ⟨k, hk, hmod⟩ := exists_offset_mod ((g.Intn 100).1 + 1) j executors.length hj
  refine ⟨k, ?_, ?_⟩
  · calc k < executors.length := hk
      _ = 1 * executors.length := (Nat.one_mul _).symm
      _ ≤ m * executors.length := Nat.mul_le_mul_right _ hm
  · rw [RoundRobinTaskRouter.nth_eq NewRoundRobinTaskRouter g task executors hne rfl k
      (by omega)]
    have hidx : ((g.Intn 100).1 + (k + 1)) % executors.length = j := by
      rw [← hmod]; congr 1; omega
    simp only [List.get_eq_getElem, hidx]

/-- The theorem for C4 on the test: nine calls over the three test executors
return exec-3 at least once. -/
theorem RoundRobinTaskRouter.every_candidate_visited_witness :
    createTestExecutors ≠ [] ∧
    ((Rand.const 7).Intn 100).1 + createTestExecutors.length ≤ 1000000 ∧
    1 ≤ 3 ∧ exec3 ∈ createTestExecutors ∧
    ∃ k, k < 3 * createTestExecutors.length ∧
      NewRoundRobinTaskRouter.nth (Rand.const 7) (createTestTask "test-task" RoundRobinTask)
        createTestExecutors k = some (some exec3, none) :=
  ⟨by decide, by decide, by decide, by decide,
    RoundRobinTaskRouter.every_candidate_visited (Rand.const 7)
      (createTestTask "test-task" RoundRobinTask) createTestExecutors (by decide) (by decide)
      3 (by decide) exec3 (by decide)⟩

/-! ### A pool too large for one pass below the reset -/

theorem numberedExecutors_length (n : Nat) : (numberedExecutors n).length = n := by
  simp [numberedExecutors]

theorem numberedExecutors_getElem (n i : Nat) (h : i < (numberedExecutors n).length) :
    (numberedExecutors n)[i] = numberedExecutor i := by
  simp [numberedExecutors]

theorem numberedExecutor_getID_injective :
    Function.Injective (fun i => (numberedExecutor i).GetID) := by
  intro i j h
  have hlen := congrArg String.length h
  simp [numberedExecutor, NewSimpleExecutor, Executor.GetID, String.length] at hlen
  exact hlen

theorem numberedExecutors_nodup (n : Nat) :
    ((numberedExecutors n).map Executor.GetID).Nodup := by
  have hmap : (numberedExecutors n).map Executor.GetID
      = (List.range n).map (fun i => (numberedExecutor i).GetID) := by
    simp [numberedExecutors, List.map_map, Function.comp_def]
  rw [hmap]
  exact (List.nodup_range n).map numberedExecutor_getID_injective

/-- With the generator that always draws 7, the counter of the task stays in
`[7, 1000000]` once it exists, and the generator stays the same. -/
theorem RoundRobinTaskRouter.after_const (task : Task) (executors : List Executor)
    (hne : executors ≠ []) :
    ∀ n : Nat,
      (NewRoundRobinTaskRouter.after (Rand.const 7) task executors n).2 = Rand.const 7 ∧
      ((NewRoundRobinTaskRouter.after (Rand.const 7) task executors n).1.taskCounters task.ID
          = none ∨
        ∃ c : Nat, 7 ≤ c ∧ c ≤ 1000000 ∧
          (NewRoundRobinTaskRouter.after (Rand.const 7) task executors n).1.taskCounters task.ID
            = some (c : Int)) := by
  intro n
  induction n with
  | zero => exact ⟨rfl, Or.inl rfl⟩
  | succ n ih =>
    obtain ⟨hg, hc⟩ := ih
    rcases hc with hnone | ⟨c, h7, hle, hsome⟩
    · have hstep := RoundRobinTaskRouter.route_none _
        (NewRoundRobinTaskRouter.after (Rand.const 7) task executors n).2 task executors
        hne hnone
      rw [hg] at hstep
      rw [RoundRobinTaskRouter.after, hg, hstep]
      refine ⟨rfl, Or.inr ⟨8, by decide, by decide, ?_⟩⟩
      simp only [Function.update_same]
      rfl
    · have hstep := RoundRobinTaskRouter.route_some _
        (NewRoundRobinTaskRouter.after (Rand.const 7) task executors n).2 task executors
        hne c hsome
      rw [hg] at hstep
      rw [RoundRobinTaskRouter.after, hg, hstep]
      refine ⟨?_, Or.inr ⟨nextCount ((Rand.const 7).Intn 100).1 c, ?_, ?_, ?_⟩⟩
      · split <;> rfl
      · have h7r : ((Rand.const 7).Intn 100).1 = 7 := rfl
        rw [h7r]; unfold nextCount; split <;> omega
      · have h7r : ((Rand.const 7).Intn 100).1 = 7 := rfl
        rw [h7r]; unfold nextCount; split <;> omega
      · simp only [Function.update_same]

/-- With the generator that always draws 7, every call returns the candidate
at the position of a counter value in `[7, 1000000]`. -/
theorem RoundRobinTaskRouter.nth_const (task : Task) (executors : List Executor)
    (hne : executors ≠ []) (k : Nat) :
    ∃ c : Nat, 7 ≤ c ∧ c ≤ 1000000 ∧
      NewRoundRobinTaskRouter.nth (Rand.const 7) task executors k
        = some (some (executors.get ⟨c % executors.length,
            Nat.mod_lt _ (List.length_pos.mpr hne)⟩), none) := by
  obtain ⟨hg, hc⟩ := RoundRobinTaskRouter.after_const task executors hne k
  have h7r : ((Rand.const 7).Intn 100).1 = 7 := rfl
  rcases hc with hnone | ⟨c, h7, hle, hsome⟩
  · have hstep := RoundRobinTaskRouter.route_none _
      (NewRoundRobinTaskRouter.after (Rand.const 7) task executors k).2 task executors
      hne hnone
    rw [hg] at hstep
    refine ⟨8, by decide, by decide, ?_⟩
    rw [RoundRobinTaskRouter.nth, hg, hstep]
    rfl
  · have hstep := RoundRobinTaskRouter.route_some _
      (NewRoundRobinTaskRouter.after (Rand.const 7) task executors k).2 task executors
      hne c hsome
    rw [hg] at hstep
    refine ⟨nextCount ((Rand.const 7).Intn 100).1 c, ?_, ?_, ?_⟩
    · rw [h7r]; unfold nextCount; split <;> omega
    · rw [h7r]; unfold nextCount; split <;> omega
    · rw [RoundRobinTaskRouter.nth, hg, hstep]

/-- Claim C4 fails as stated: with a list of 1000001 candidates of pairwise
distinct IDs and the generator that draws 7, the counter is reset before the
first pass over the list is complete, and the first candidate of the list is
not returned by any call of a fresh router, so not within any multiple of
1000001 calls either. -/
theorem RoundRobinTaskRouter.first_candidate_never_visited :
    (numberedExecutors 1000001).length = 1000001 ∧
    ((numberedExecutors 1000001).map Executor.GetID).Nodup ∧
    numberedExecutor 0 ∈ numberedExecutors 1000001 ∧
    ∀ k : Nat,
      NewRoundRobinTaskRouter.nth (Rand.const 7) (createTestTask "test-task" RoundRobinTask)
        (numberedExecutors 1000001) k ≠ some (some (numberedExecutor 0), none) := by
  have hlen := numberedExecutors_length 1000001
  have hne : numberedExecutors 1000001 ≠ [] := by
    intro h
    rw [h] at hlen
    simp at hlen
  have h0 : 0 < (numberedExecutors 1000001).length := by rw [hlen]; norm_num
  refine ⟨hlen, numberedExecutors_nodup _, ?_, ?_⟩
  · rw [← numberedExecutors_getElem 1000001 0 h0]
    exact List.getElem_mem h0
  · intro k hk
    obtain ⟨c, h7, hle, hnth⟩ := RoundRobinTaskRouter.nth_const
      (createTestTask "test-task" RoundRobinTask) (numberedExecutors 1000001) hne k
    rw [hnth] at hk
    have hmod : c % (numberedExecutors 1000001).length = c := by
      rw [hlen]; exact Nat.mod_eq_of_lt (by omega)
    have hexec : (numberedExecutors 1000001).get
        ⟨c % (numberedExecutors 1000001).length,
          Nat.mod_lt _ (List.length_pos.mpr hne)⟩ = numberedExecutor 0 := by
      simpa using hk
    rw [List.get_eq_getElem, numberedExecutors_getElem] at hexec
    have hid : c % (numberedExecutors 1000001).length = 0 :=
      numberedExecutor_getID_injective (congrArg Executor.GetID hexec)
    rw [hmod] at hid
    omega

/-! ## LRU: every candidate recorded -/

/-- Candidates recorded not before the current oldest time leave the selection
as it is. -/
theorem LRURouter.lru_scan_tail (taskUsage : String → Option Int) :
    ∀ (post : List Executor) (selected : Option Executor) (oldestTime : Int),
      (∀ x ∈ post, ∃ t, taskUsage x.GetID = some t ∧ oldestTime ≤ t) →
      LRURouter.scan taskUsage post selected oldestTime = selected := by
  intro post
  induction post with
  | nil => intro _ _ _; rfl
  | cons x rest ih =>
    intro selected oldestTime h
    obtain ⟨t, ht, hle⟩ := h x (List.mem_cons_self _ _)
    have hnot : ¬ (t < oldestTime) := by omega
    simp only [LRURouter.scan, ht, hnot, if_false]
    exact ih _ _ (fun y hy => h y (List.mem_cons_of_mem _ hy))

/-- Recorded candidates strictly newer than `e` that come before it do not
survive `e`, when `e` is older than the current oldest time. -/
theorem LRURouter.lru_scan_prefix (taskUsage : String → Option Int) (e : Executor) (te : Int)
    (he : taskUsage e.GetID = some te) (post : List Executor) :
    ∀ (pre : List Executor) (selected : Option Executor) (oldestTime : Int),
      (∀ x ∈ pre, ∃ t, taskUsage x.GetID = some t ∧ te < t) →
      te < oldestTime →
      LRURouter.scan taskUsage (pre ++ e :: post) selected oldestTime =
        LRURouter.scan taskUsage post (some e) te := by
  intro pre
  induction pre with
  | nil =>
    intro selected oldestTime _ hlt
    simp only [List.nil_append, LRURouter.scan, he, hlt, if_true]
  | cons x rest ih =>
    intro selected oldestTime h hlt
    obtain ⟨t, ht, htlt⟩ := h x (List.mem_cons_self _ _)
    have hrest : ∀ y ∈ rest, ∃ t, taskUsage y.GetID = some t ∧ te < t :=
      fun y hy => h y (List.mem_cons_of_mem _ hy)
    simp only [List.cons_append, LRURouter.scan, ht]
    split
    · exact ih _ _ hrest htlt
    · exact ih _ _ hrest hlt

/-- When every candidate is recorded and the oldest recorded timestamp lies
before the current time, Route returns the first candidate of smallest
timestamp, sets its timestamp to the current time and leaves every other
timestamp as it was. -/
theorem LRURouter.route_oldest (r : LRURouter) (now : Int) (task : Task)
    (pre : List Executor) (e : Executor) (post : List Executor) (te : Int)
    (he : r.lastUsed? task.ID e.GetID = some te)
    (hpre : ∀ x ∈ pre, ∃ t, r.lastUsed? task.ID x.GetID = some t ∧ te < t)
    (hpost : ∀ x ∈ post, ∃ t, r.lastUsed? task.ID x.GetID = some t ∧ te ≤ t)
    (hnow : te < now) :
    (r.Route now task (pre ++ e :: post)).1 = some (some e, none) ∧
    (r.Route now task (pre ++ e :: post)).2.lastUsed? task.ID e.GetID = some now ∧
    ∀ taskID execID : String, (taskID ≠ task.ID ∨ execID ≠ e.GetID) →
      (r.Route now task (pre ++ e :: post)).2.lastUsed? taskID execID
        = r.lastUsed? taskID execID := by
  simp only [LRURouter.lastUsed?_eq] at he hpre hpost
  have hscan : LRURouter.scan ((r.taskLastUsed task.ID).getD (fun _ => none))
      (pre ++ e :: post) none now = some e := by
    rw [LRURouter.lru_scan_prefix _ e te he post pre none now hpre hnow,
      LRURouter.lru_scan_tail _ post (some e) te hpost]
  have hlen : (pre ++ e :: post).length ≠ 0 := by simp
  have hroute : r.Route now task (pre ++ e :: post) =
      (some (some e, none),
        ⟨Function.update r.taskLastUsed task.ID
          (some (Function.update ((r.taskLastUsed task.ID).getD (fun _ => none))
            e.GetID (some now)))⟩) := by
    simp only [LRURouter.Route, hlen, if_false, hscan]
  rw [hroute]
  refine ⟨rfl, ?_, ?_⟩
  · simp [LRURouter.lastUsed?]
  · intro taskID execID hdiff
    by_cases ht : taskID = task.ID
    · rw [ht]
      have hx : execID ≠ e.GetID := by
        rcases hdiff with h1 | h1
        · exact absurd ht h1
        · exact h1
      rw [LRURouter.lastUsed?_eq r]
      simp [LRURouter.lastUsed?, Function.update_noteq hx]
    · simp [LRURouter.lastUsed?, Function.update_noteq ht]

/-- When every candidate is recorded and no recorded timestamp lies before the
current time, Route returns neither an executor nor an error, and records
nothing. -/
theorem LRURouter.route_none_before_now (r : LRURouter) (now : Int) (task : Task)
    (executors : List Executor) (hne : executors ≠ [])
    (hall : ∀ x ∈ executors, ∃ t, r.lastUsed? task.ID x.GetID = some t ∧ now ≤ t) :
    (r.Route now task executors).1 = some (none, none) ∧
    ∀ taskID execID : String,
      (r.Route now task executors).2.lastUsed? taskID execID = r.lastUsed? taskID execID := by
  simp only [LRURouter.lastUsed?_eq] at hall
  have hscan := LRURouter.lru_scan_tail _ executors none now hall
  have hlen : executors.length ≠ 0 := by
    intro h; exact hne (List.length_eq_zero.mp h)
  have hroute : r.Route now task executors =
      (some (none, none),
        ⟨Function.update r.taskLastUsed task.ID
          (some ((r.taskLastUsed task.ID).getD (fun _ => none)))⟩) := by
    simp only [LRURouter.Route, hlen, if_false, hscan]
  rw [hroute]
  refine ⟨rfl, ?_⟩
  intro taskID execID
  by_cases ht : taskID = task.ID
  · rw [ht, LRURouter.lastUsed?_eq r]
    simp [LRURouter.lastUsed?]
  · simp [LRURouter.lastUsed?, Function.update_noteq ht]

/-- Claim C10 against the code at a failing input. After two calls at clock
reading 5 over the two-executor pool both candidates are recorded with
timestamp 5; a third call at the same clock reading returns no executor and no
error, and leaves both timestamps at 5, where the claim has it return exec-1,
the first candidate of smallest timestamp. -/
theorem LRURouter.route_same_clock_returns_nil :
    (((NewLRURouter.Route 5 (createTestTask "lru-task" LRU) twoExecutors).2.Route 5
      (createTestTask "lru-task" LRU) twoExecutors).2.lastUsed? "lru-task" "exec-1"
        = some 5) ∧
    (((NewLRURouter.Route 5 (createTestTask "lru-task" LRU) twoExecutors).2.Route 5
      (createTestTask "lru-task" LRU) twoExecutors).2.lastUsed? "lru-task" "exec-2"
        = some 5) ∧
    ((((NewLRURouter.Route 5 (createTestTask "lru-task" LRU) twoExecutors).2.Route 5
      (createTestTask "lru-task" LRU) twoExecutors).2.Route 5
      (createTestTask "lru-task" LRU) twoExecutors).1 = some (none, none)) ∧
    ((((NewLRURouter.Route 5 (createTestTask "lru-task" LRU) twoExecutors).2.Route 5
      (createTestTask "lru-task" LRU) twoExecutors).2.Route 6
      (createTestTask "lru-task" LRU) twoExecutors).1 = some (some exec1, none)) := by
  decide

/-! ## The strategy dispatcher -/

/-- The LFU scan of a non-empty list always selects a candidate of the list. -/
theorem LFURouter.scan_mem (taskCounter : String → Option Int) :
    ∀ (executors : List Executor) (selected : Option Executor) (m : Int),
      (LFURouter.scan taskCounter executors selected m).1 = selected ∨
      ∃ e, e ∈ executors ∧ (LFURouter.scan taskCounter executors selected m).1 = some e := by
  intro executors
  induction executors with
  | nil => intro _ _; exact Or.inl rfl
  | cons x rest ih =>
    intro selected m
    simp only [LFURouter.scan]
    split
    · rcases ih (some x) ((taskCounter x.GetID).getD 0) with h | ⟨e, he, h⟩
      · exact Or.inr ⟨x, List.mem_cons_self _ _, h⟩
      · exact Or.inr ⟨e, List.mem_cons_of_mem _ he, h⟩
    · rcases ih selected m with h | ⟨e, he, h⟩
      · exact Or.inl h
      · exact Or.inr ⟨e, List.mem_cons_of_mem _ he, h⟩

/-- LFU routing over a non-empty list returns a candidate of the list, in every
state. -/
theorem LFURouter.lfu_route_mem (r : LFURouter) (task : Task) (executors : List Executor)
    (hne : executors ≠ []) :
    ∃ e, e ∈ executors ∧ (r.Route task executors).1 = some (some e, none) := by
  have hlen : executors.length ≠ 0 := by
    intro h; exact hne (List.length_eq_zero.mp h)
  obtain ⟨x, rest, rfl⟩ := List.exists_cons_of_ne_nil hne
  have hsel : ∃ e, e ∈ x :: rest ∧
      (LFURouter.scan ((r.taskCounters task.ID).getD (fun _ => none)) (x :: rest)
        none (-1)).1 = some e := by
    simp only [LFURouter.scan, true_or, if_true]
    rcases LFURouter.scan_mem ((r.taskCounters task.ID).getD (fun _ => none)) rest (some x)
      ((((r.taskCounters task.ID).getD (fun _ => none)) x.GetID).getD 0) with h | ⟨e, he, h⟩
    · exact ⟨x, List.mem_cons_self _ _, h⟩
    · exact ⟨e, List.mem_cons_of_mem _ he, h⟩
  obtain ⟨e, he, hscan⟩ := hsel
  refine ⟨e, he, ?_⟩
  simp only [LFURouter.Route, hlen, if_false, hscan]

/-- Random routing over a non-empty list returns a candidate of the list. -/
theorem RandomRouter.random_route_mem (r : RandomRouter) (task : Task) (executors : List Executor)
    (hne : executors ≠ []) :
    ∃ e, e ∈ executors ∧ (r.Route task executors).1 = some (some e, none) := by
  have hlen : executors.length ≠ 0 := by
    intro h; exact hne (List.length_eq_zero.mp h)
  have hlt : (r.rnd.Intn executors.length).1 < executors.length :=
    Nat.mod_lt _ (Nat.pos_of_ne_zero hlen)
  have hidx : index? executors ((r.rnd.Intn executors.length).1 : Int)
      = some (executors.get ⟨(r.rnd.Intn executors.length).1, hlt⟩) := by
    unfold index?
    rw [if_pos (Int.natCast_nonneg _), Int.toNat_ofNat, List.getElem?_eq_getElem hlt]
    rfl
  refine ⟨_, List.get_mem executors _ hlt, ?_⟩
  simp only [RandomRouter.Route, hlen, if_false, hidx]

/-- Task round-robin routing over a non-empty list returns a candidate of the
list when no counter is negative, and keeps the counters that way. -/
theorem RoundRobinTaskRouter.task_route_mem (r : RoundRobinTaskRouter) (g : Rand) (task : Task)
    (executors : List Executor)
    (hwf : ∀ (t : String) (c : Int), r.taskCounters t = some c → 0 ≤ c) :
    (executors ≠ [] →
      ∃ e, e ∈ executors ∧ (r.Route g task executors).1 = some (some e, none)) ∧
    ∀ (t : String) (c : Int), (r.Route g task executors).2.1.taskCounters t = some c → 0 ≤ c := by
  by_cases hne : executors = []
  · subst hne
    exact ⟨fun h => absurd rfl h, hwf⟩
  · cases hc : r.taskCounters task.ID with
    | none =>
      have hstep := RoundRobinTaskRouter.route_none r g task executors hne hc
      rw [hstep]
      refine ⟨fun _ => ⟨_, List.get_mem executors _ _, rfl⟩, ?_⟩
      intro t c h
      by_cases ht : t = task.ID
      · rw [ht] at h
        simp only [Function.update_same, Option.some.injEq] at h
        omega
      · simp only [Function.update_noteq ht] at h
        exact hwf t c h
    | some c0 =>
      have h0 := hwf task.ID c0 hc
      have hcast : r.taskCounters task.ID = some ((c0.toNat : Nat) : Int) := by
        rw [hc, Int.toNat_of_nonneg h0]
      have hstep := RoundRobinTaskRouter.route_some r g task executors hne c0.toNat hcast
      rw [hstep]
      refine ⟨fun _ => ⟨_, List.get_mem executors _ _, rfl⟩, ?_⟩
      intro t c h
      by_cases ht : t = task.ID
      · rw [ht] at h
        simp only [Function.update_same, Option.some.injEq] at h
        omega
      · simp only [Function.update_noteq ht] at h
        exact hwf t c h

/-- App round-robin routing over a non-empty list returns a candidate of the
list when the counter is not negative, and keeps the counter that way. -/
theorem RoundRobinAppRouter.app_route_mem (r : RoundRobinAppRouter) (task : Task)
    (executors : List Executor) (hwf : 0 ≤ r.globalCounter) :
    (executors ≠ [] →
      ∃ e, e ∈ executors ∧ (r.Route task executors).1 = some (some e, none)) ∧
    0 ≤ (r.Route task executors).2.globalCounter := by
  by_cases hne : executors = []
  · subst hne
    exact ⟨fun h => absurd rfl h, hwf⟩
  · have hcast : r = ⟨((r.globalCounter.toNat : Nat) : Int)⟩ := by
      rw [Int.toNat_of_nonneg hwf]
    rw [hcast, RoundRobinAppRouter.route_nat _ task executors hne]
    exact ⟨fun _ => ⟨_, List.get_mem executors _ _, rfl⟩, Int.natCast_nonneg _⟩

/-- A strategy instance other than an LRU router, with no negative counter,
returns a candidate of a non-empty list; every instance keeps its kind and its
counters stay non-negative. -/
theorem Router.route_spec (rt : Router) (hwf : rt.CountersNonneg) (g : Rand) (now : Int)
    (task : Task) (executors : List Executor) :
    (rt.isLRU = false → executors ≠ [] →
      ∃ e, e ∈ executors ∧ (rt.Route g now task executors).1 = some (some e, none)) ∧
    (rt.Route g now task executors).2.1.CountersNonneg ∧
    (rt.Route g now task executors).2.1.isLRU = rt.isLRU := by
  cases rt with
  | roundRobinTask r =>
    have h := RoundRobinTaskRouter.task_route_mem r g task executors hwf
    exact ⟨fun _ hne => h.1 hne, h.2, rfl⟩
  | roundRobinApp r =>
    have h := RoundRobinAppRouter.app_route_mem r task executors hwf
    exact ⟨fun _ hne => h.1 hne, h.2, rfl⟩
  | random r =>
    exact ⟨fun _ hne => RandomRouter.random_route_mem r task executors hne, trivial, rfl⟩
  | lfu r =>
    exact ⟨fun _ hne => LFURouter.lfu_route_mem r task executors hne, trivial, rfl⟩
  | lru r =>
    exact ⟨fun h => by simp [Router.isLRU] at h, trivial, rfl⟩

/-- The factory builds instances without negative counters, and an LRU router
only for the LRU strategy. -/
theorem Factory.createRouter_spec (strategy : RouteStrategy) (seeded : Rand) :
    (Factory.CreateRouter strategy seeded).CountersNonneg ∧
    ((Factory.CreateRouter strategy seeded).isLRU = true → strategy = LRU) := by
  unfold Factory.CreateRouter
  split
  · exact ⟨by intro t c h; simp [NewRoundRobinTaskRouter] at h, by simp [Router.isLRU]⟩
  · split
    · exact ⟨le_refl _, by simp [Router.isLRU]⟩
    · split
      · exact ⟨trivial, by simp [Router.isLRU]⟩
      · split
        · exact ⟨trivial, by simp [Router.isLRU]⟩
        · split
          · rename_i h
            exact ⟨trivial, fun _ => h⟩
          · exact ⟨le_refl _, by simp [Router.isLRU]⟩

/-- In a reachable state of the dispatcher every cached instance has
non-negative counters, and an LRU router is cached only under the LRU
strategy. -/
theorem MultiStrategyRouter.Reachable.cached {msr : MultiStrategyRouter}
    (hr : MultiStrategyRouter.Reachable msr) :
    ∀ (s : RouteStrategy) (rt : Router), msr.routers s = some rt →
      rt.CountersNonneg ∧ (rt.isLRU = true → s = LRU) := by
  induction hr with
  | fresh => intro s rt h; simp [NewMultiStrategyRouter] at h
  | route msr g seeded now task executors _ ih =>
    intro s rt h
    by_cases hs : s = task.Strategy
    · rw [hs] at h
      simp only [MultiStrategyRouter.Route, Function.update_same, Option.some.injEq] at h
      rw [hs, ← h]
      cases hc : msr.routers task.Strategy with
      | none =>
        simp only []
        obtain ⟨h1, h2⟩ := Factory.createRouter_spec task.Strategy seeded
        obtain ⟨_, h3, h4⟩ := Router.route_spec _ h1 g now task executors
        exact ⟨h3, fun h5 => h2 (by rw [← h4]; exact h5)⟩
      | some rt0 =>
        simp only []
        obtain ⟨h1, h2⟩ := ih task.Strategy rt0 hc
        obtain ⟨_, h3, h4⟩ := Router.route_spec rt0 h1 g now task executors
        exact ⟨h3, fun h5 => h2 (by rw [← h4]; exact h5)⟩
    · simp only [MultiStrategyRouter.Route, Function.update_noteq hs] at h
      exact ih s rt h

/-- In every reachable state of the dispatcher, for a task of any strategy
other than LRU and a non-empty candidate list, Route returns no error and an
executor of the candidate list. -/
theorem MultiStrategyRouter.dispatch_route_mem (msr : MultiStrategyRouter)
    (hr : MultiStrategyRouter.Reachable msr) (g seeded : Rand) (now : Int) (task : Task)
    (executors : List Executor) (hne : executors ≠ []) (hs : task.Strategy ≠ LRU) :
    ∃ e, e ∈ executors ∧
      (msr.Route g seeded now task executors).1 = some (some e, none) := by
  cases hc : msr.routers task.Strategy with
  | none =>
    obtain ⟨h1, h2⟩ := Factory.createRouter_spec task.Strategy seeded
    have hk : (Factory.CreateRouter task.Strategy seeded).isLRU = false := by
      cases hb : (Factory.CreateRouter task.Strategy seeded).isLRU with
      | false => rfl
      | true => exact absurd (h2 hb) hs
    obtain ⟨h3, _, _⟩ := Router.route_spec _ h1 g now task executors
    simpa only [MultiStrategyRouter.Route, hc] using h3 hk hne
  | some rt0 =>
    obtain ⟨h1, h2⟩ := hr.cached task.Strategy rt0 hc
    have hk : rt0.isLRU = false := by
      cases hb : rt0.isLRU with
      | false => rfl
      | true => exact absurd (h2 hb) hs
    obtain ⟨h3, _, _⟩ := Router.route_spec rt0 h1 g now task executors
    simpa only [MultiStrategyRouter.Route, hc] using h3 hk hne

/-- Claim C1 against the code at a failing input. A fresh dispatcher routes an
LRU task over the single candidate exec-1 at clock reading 5 and returns
exec-1; routing the same task again at the same clock reading returns no error
and a nil executor, where the claim (and the test of the dispatcher) has a
non-nil executor of the candidate list. -/
theorem MultiStrategyRouter.lru_same_clock_returns_nil :
    (NewMultiStrategyRouter.Route (Rand.const 7) (Rand.const 3) 5
      (createTestTask "multi-task" LRU) [exec1]).1 = some (some exec1, none) ∧
    ((NewMultiStrategyRouter.Route (Rand.const 7) (Rand.const 3) 5
      (createTestTask "multi-task" LRU) [exec1]).2.1.Route (Rand.const 7) (Rand.const 3) 5
      (createTestTask "multi-task" LRU) [exec1]).1 = some (none, none) := by
  constructor <;> rfl

/-! ## LRU: the first round -/

/-- One LRU call on a list whose first never-recorded candidate is `e`: the
result, the new timestamp of `e`, and the frame. -/
theorem LRURouter.route_find (r : LRURouter) (now : Int) (task : Task)
    (executors : List Executor) (e : Executor)
    (h : executors.find? (fun x => (r.lastUsed? task.ID x.GetID).isNone) = some e) :
    (r.Route now task executors).1 = some (some e, none) ∧
    (r.Route now task executors).2.lastUsed? task.ID e.GetID = some now ∧
    ∀ taskID execID : String, (taskID ≠ task.ID ∨ execID ≠ e.GetID) →
      (r.Route now task executors).2.lastUsed? taskID execID = r.lastUsed? taskID execID := by
  have hne : executors.length ≠ 0 := by
    intro h0
    rw [List.length_eq_zero] at h0
    simp [h0] at h
  have hfind : executors.find?
      (fun x => (((r.taskLastUsed task.ID).getD (fun _ => none)) x.GetID).isNone) = some e := by
    simpa [LRURouter.lastUsed?_eq] using h
  have hscan := LRURouter.scan_find _ e executors none now hfind
  have hroute : r.Route now task executors =
      (some (some e, none),
        ⟨Function.update r.taskLastUsed task.ID
          (some (Function.update ((r.taskLastUsed task.ID).getD (fun _ => none))
            e.GetID (some now)))⟩) := by
    simp [LRURouter.Route, hne, hscan]
  rw [hroute]
  refine ⟨rfl, ?_, ?_⟩
  · simp [LRURouter.lastUsed?]
  · intro taskID execID hdiff
    by_cases ht : taskID = task.ID
    · rw [ht]
      have hx : execID ≠ e.GetID := by
        rcases hdiff with h1 | h1
        · exact absurd ht h1
        · exact h1
      rw [LRURouter.lastUsed?_eq r]
      simp [LRURouter.lastUsed?, Function.update_noteq hx]
    · simp [LRURouter.lastUsed?, Function.update_noteq ht]

/-- The first candidate satisfying `p` is the one at position `k` when it
satisfies `p` and no candidate before it does. -/
theorem find?_eq_getElem_of_prefix (p : Executor → Bool) (executors : List Executor)
    (k : Nat) (hk : k < executors.length)
    (hbefore : ∀ (j : Nat) (hj : j < executors.length), j < k → p executors[j] = false)
    (hat : p executors[k] = true) :
    executors.find? p = some executors[k] := by
  induction executors generalizing k with
  | nil => simp at hk
  | cons x rest ih =>
    cases k with
    | zero =>
      have hx : p x = true := by simpa using hat
      simp [List.find?, hx]
    | succ n =>
      have hx : p x = false := by
        have := hbefore 0 (by simp) (by omega)
        simpa using this
      have hn : n < rest.length := by simpa using hk
      have hrest := ih n hn
        (fun j hj hjn => by
          have := hbefore (j + 1) (by simpa using hj) (by omega)
          simpa using this)
        (by simpa using hat)
      simpa [List.find?, hx] using hrest

/-- One call of the first LRU round: with exactly the first `k` candidates
recorded, Route returns candidate `k` and records it. -/
theorem LRURouter.lru_round_step (s : LRURouter) (now : Int) (task : Task)
    (executors : List Executor) (hnodup : (executors.map Executor.GetID).Nodup)
    (k : Nat) (hk : k < executors.length)
    (hinv : ∀ (j : Nat) (hj : j < executors.length),
      (s.lastUsed? task.ID executors[j].GetID).isSome = decide (j < k)) :
    (s.Route now task executors).1 = some (some executors[k], none) ∧
    ∀ (j : Nat) (hj : j < executors.length),
      ((s.Route now task executors).2.lastUsed? task.ID executors[j].GetID).isSome
        = decide (j < k + 1) := by
  have hfind : executors.find? (fun x => (s.lastUsed? task.ID x.GetID).isNone)
      = some executors[k] := by
    apply find?_eq_getElem_of_prefix _ executors k hk
    · intro j hj hjk
      have := hinv j hj
      simp only [hjk, decide_True] at this
      simp [Option.isNone_iff_eq_none, Option.isSome_iff_exists] at this ⊢
      obtain ⟨t, ht⟩ := this
      simp [ht]
    · have := hinv k hk
      simp only [lt_irrefl, decide_False] at this
      cases hx : s.lastUsed? task.ID executors[k].GetID with
      | none => rfl
      | some t => simp [hx] at this
  obtain ⟨h1, h2, h3⟩ := LRURouter.route_find s now task executors executors[k] hfind
  refine ⟨h1, ?_⟩
  intro j hj
  by_cases hjk : j = k
  · subst hjk
    simp [h2]
  · rw [h3 _ _ (Or.inr (getID_ne_of_nodup executors hnodup j k hj hk hjk)), hinv j hj]
    have hiff : j < k + 1 ↔ j < k := by omega
    simp [hiff]

/-- The recorded candidates during the first LRU round. -/
theorem LRURouter.after_recorded (r : LRURouter) (clock : Nat → Int) (task : Task)
    (executors : List Executor) (hnodup : (executors.map Executor.GetID).Nodup)
    (hfresh : ∀ e ∈ executors, r.lastUsed? task.ID e.GetID = none) :
    ∀ k : Nat, k ≤ executors.length → ∀ (j : Nat) (hj : j < executors.length),
      ((r.after clock task executors k).lastUsed? task.ID executors[j].GetID).isSome
        = decide (j < k) := by
  intro k
  induction k with
  | zero =>
    intro _ j hj
    simp [LRURouter.after, hfresh _ (List.getElem_mem hj)]
  | succ k ih =>
    intro hk j hj
    exact (LRURouter.lru_round_step (r.after clock task executors k) (clock k) task executors
      hnodup k (by omega) (ih (by omega))).2 j hj

/-- Claim C11. For an LRU router that has no candidate recorded for the task
(in particular a fresh router and a task never routed before) and a fixed list
of candidates with pairwise distinct IDs, call number `k + 1` of the first N
consecutive calls returns the candidate at position `k` of the list, whatever
the clock readings of the calls are; so the first call returns the first
candidate and, for N >= 2, the second call returns a different executor. -/
theorem LRURouter.first_round_in_order (r : LRURouter) (clock : Nat → Int) (task : Task)
    (executors : List Executor) (hnodup : (executors.map Executor.GetID).Nodup)
    (hfresh : ∀ e ∈ executors, r.lastUsed? task.ID e.GetID = none) :
    (∀ (k : Nat) (hk : k < executors.length),
      r.nth clock task executors k = some (some executors[k], none)) ∧
    (2 ≤ executors.length →
      r.nth clock task executors 0 = some (executors.head?, none) ∧
      r.nth clock task executors 0 ≠ r.nth clock task executors 1) := by
  have hall : ∀ (k : Nat) (hk : k < executors.length),
      r.nth clock task executors k = some (some executors[k], none) := by
    intro k hk
    exact (LRURouter.lru_round_step (r.after clock task executors k) (clock k) task executors
      hnodup k hk (LRURouter.after_recorded r clock task executors hnodup hfresh k
        (by omega))).1
  refine ⟨hall, ?_⟩
  intro h2
  constructor
  · rw [hall 0 (by omega)]
    cases executors with
    | nil => simp at h2
    | cons x rest => rfl
  · intro heq
    rw [hall 0 (by omega), hall 1 (by omega)] at heq
    have hexec : executors[0] = executors[1] := by simpa using heq
    exact getID_ne_of_nodup executors hnodup 0 1 (by omega) (by omega) (by decide)
      (by rw [hexec])

/-- The theorem for C11 on the test: a fresh LRU router, the three test
executors, and a clock that stands still at 5. -/
theorem LRURouter.first_round_in_order_witness :
    (createTestExecutors.map Executor.GetID).Nodup ∧
    (∀ e ∈ createTestExecutors,
      NewLRURouter.lastUsed? (createTestTask "lru-task" LRU).ID e.GetID = none) ∧
    (∀ (k : Nat) (hk : k < createTestExecutors.length),
      NewLRURouter.nth (fun _ => 5) (createTestTask "lru-task" LRU) createTestExecutors k
        = some (some createTestExecutors[k], none)) ∧
    NewLRURouter.nth (fun _ => 5) (createTestTask "lru-task" LRU) createTestExecutors 0
      ≠ NewLRURouter.nth (fun _ => 5) (createTestTask "lru-task" LRU) createTestExecutors 1 :=
  ⟨by decide, fun _ _ => rfl,
    (LRURouter.first_round_in_order NewLRURouter (fun _ => 5) (createTestTask "lru-task" LRU)
      createTestExecutors (by decide) (fun _ _ => rfl)).1,
    ((LRURouter.first_round_in_order NewLRURouter (fun _ => 5) (createTestTask "lru-task" LRU)
      createTestExecutors (by decide) (fun _ _ => rfl)).2 (by decide)).2⟩

/-! ## The strategy dispatcher against dedicated instances -/

/-- Only a task round-robin instance reads or advances the global generator;
every instance keeps its kind. -/
theorem Router.route_generator (rt : Router) (g1 g2 : Rand) (now : Int) (task : Task)
    (executors : List Executor) :
    (rt.Route g1 now task executors).2.1.isRoundRobinTask = rt.isRoundRobinTask ∧
    (rt.isRoundRobinTask = false →
      (rt.Route g1 now task executors).1 = (rt.Route g2 now task executors).1 ∧
      (rt.Route g1 now task executors).2.1 = (rt.Route g2 now task executors).2.1 ∧
      (rt.Route g1 now task executors).2.2 = g1) := by
  cases rt with
  | roundRobinTask r => exact ⟨rfl, fun h => by simp [Router.isRoundRobinTask] at h⟩
  | roundRobinApp r => exact ⟨rfl, fun _ => ⟨rfl, rfl, rfl⟩⟩
  | random r => exact ⟨rfl, fun _ => ⟨rfl, rfl, rfl⟩⟩
  | lfu r => exact ⟨rfl, fun _ => ⟨rfl, rfl, rfl⟩⟩
  | lru r => exact ⟨rfl, fun _ => ⟨rfl, rfl, rfl⟩⟩

/-- The factory builds a task round-robin router only for that strategy. -/
theorem Factory.createRouter_isRoundRobinTask (strategy : RouteStrategy) (seeded : Rand) :
    (Factory.CreateRouter strategy seeded).isRoundRobinTask = true →
      strategy = RoundRobinTask := by
  unfold Factory.CreateRouter
  split
  · rename_i h; exact fun _ => h
  · split
    · simp [Router.isRoundRobinTask]
    · split
      · simp [Router.isRoundRobinTask]
      · split
        · simp [Router.isRoundRobinTask]
        · split
          · simp [Router.isRoundRobinTask]
          · simp [Router.isRoundRobinTask]

/-- The dispatcher and a dedicated instance of strategy `s` agree on the calls
of that strategy, from any dispatcher state that caches the instance under `s`
and caches task round-robin routers only under their own strategy. -/
theorem MultiStrategyRouter.run_dedicated_gen (s : RouteStrategy) :
    ∀ (calls : List RouteCall) (msr : MultiStrategyRouter) (g1 g2 : Rand),
      (∀ (k : RouteStrategy) (rt : Router), msr.routers k = some rt →
        rt.isRoundRobinTask = true → k = RoundRobinTask) →
      (s = RoundRobinTask → g1 = g2) →
      resultsOfKind s (msr.run g1 calls).1 calls
        = Router.dedicated s (msr.routers s) g2
            (calls.filter (fun c => decide (c.task.Strategy = s))) := by
  intro calls
  induction calls with
  | nil => intro _ _ _ _ _; rfl
  | cons c cs ih =>
    intro msr g1 g2 hkind hg
    -- the instance the dispatcher uses for this call
    have hrt : ∀ rt : Router,
        rt = (match msr.routers c.task.Strategy with
          | some rt => rt
          | none => Factory.CreateRouter c.task.Strategy c.seeded) →
        (rt.isRoundRobinTask = true → c.task.Strategy = RoundRobinTask) := by
      intro rt hdef
      cases hc : msr.routers c.task.Strategy with
      | none =>
        rw [hc] at hdef
        rw [hdef]
        exact Factory.createRouter_isRoundRobinTask _ _
      | some rt0 =>
        rw [hc] at hdef
        rw [hdef]
        exact hkind _ rt0 hc
    have hkind1 : ∀ (k : RouteStrategy) (rt : Router),
        (msr.Route g1 c.seeded c.now c.task c.executors).2.1.routers k = some rt →
        rt.isRoundRobinTask = true → k = RoundRobinTask := by
      intro k rt hk hrr
      by_cases hks : k = c.task.Strategy
      · rw [hks] at hk
        simp only [MultiStrategyRouter.Route, Function.update_same, Option.some.injEq] at hk
        rw [← hk, (Router.route_generator _ g1 g1 c.now c.task c.executors).1] at hrr
        rw [hks]
        exact hrt _ rfl hrr
      · simp only [MultiStrategyRouter.Route, Function.update_noteq hks] at hk
        exact hkind k rt hk hrr
    by_cases hs : c.task.Strategy = s
    · -- a call of strategy `s`
      have hfilter : (c :: cs).filter (fun c => decide (c.task.Strategy = s))
          = c :: cs.filter (fun c => decide (c.task.Strategy = s)) := by
        simp [List.filter, hs]
      have hsame : (match msr.routers c.task.Strategy with
          | some rt => rt
          | none => Factory.CreateRouter c.task.Strategy c.seeded)
          = (msr.routers s).getD (Factory.CreateRouter s c.seeded) := by
        rw [hs]
        cases msr.routers s <;> rfl
      have hout : (msr.Route g1 c.seeded c.now c.task c.executors).1
            = (((msr.routers s).getD (Factory.CreateRouter s c.seeded)).Route g2 c.now c.task
                c.executors).1 ∧
          (msr.Route g1 c.seeded c.now c.task c.executors).2.1.routers s
            = some (((msr.routers s).getD (Factory.CreateRouter s c.seeded)).Route g2 c.now
                c.task c.executors).2.1 ∧
          (s = RoundRobinTask →
            (msr.Route g1 c.seeded c.now c.task c.executors).2.2
              = (((msr.routers s).getD (Factory.CreateRouter s c.seeded)).Route g2 c.now
                  c.task c.executors).2.2) := by
        simp only [MultiStrategyRouter.Route, hsame]
        rw [hs]
        simp only [Function.update_same]
        by_cases hrr : s = RoundRobinTask
        · rw [hg hrr]
          exact ⟨rfl, rfl, fun _ => rfl⟩
        · have hnot : ((msr.routers s).getD (Factory.CreateRouter s c.seeded)).isRoundRobinTask
              = false := by
            cases hb : ((msr.routers s).getD (Factory.CreateRouter s c.seeded)).isRoundRobinTask
              with
            | false => rfl
            | true =>
              have := hrt _ hsame.symm hb
              rw [hs] at this
              exact absurd this hrr
          obtain ⟨h1, h2, _⟩ := (Router.route_generator _ g1 g2 c.now c.task c.executors).2 hnot
          exact ⟨h1, by rw [h2], fun h => absurd h hrr⟩
      obtain ⟨h1, h2, h3⟩ := hout
      have hrec := ih (msr.Route g1 c.seeded c.now c.task c.executors).2.1
        (msr.Route g1 c.seeded c.now c.task c.executors).2.2
        (((msr.routers s).getD (Factory.CreateRouter s c.seeded)).Route g2 c.now c.task
          c.executors).2.2 hkind1 h3
      rw [hfilter]
      simp only [MultiStrategyRouter.run, resultsOfKind, List.zip_cons_cons, List.filterMap_cons,
        hs, if_true, Router.dedicated]
      rw [h1]
      congr 1
      rw [← h2]
      exact hrec
    · -- a call of another strategy
      have hfilter : (c :: cs).filter (fun c => decide (c.task.Strategy = s))
          = cs.filter (fun c => decide (c.task.Strategy = s)) := by
        simp [List.filter, hs]
      have hne : s ≠ c.task.Strategy := fun h => hs h.symm
      have hsame : (msr.Route g1 c.seeded c.now c.task c.executors).2.1.routers s
          = msr.routers s := by
        simp only [MultiStrategyRouter.Route, Function.update_noteq hne]
      have hgen : s = RoundRobinTask →
          (msr.Route g1 c.seeded c.now c.task c.executors).2.2 = g2 := by
        intro hrr
        have hnot : (match msr.routers c.task.Strategy with
            | some rt => rt
            | none => Factory.CreateRouter c.task.Strategy c.seeded).isRoundRobinTask
              = false := by
          cases hb : (match msr.routers c.task.Strategy with
            | some rt => rt
            | none => Factory.CreateRouter c.task.Strategy c.seeded).isRoundRobinTask with
          | false => rfl
          | true =>
            have := hrt _ rfl hb
            rw [← hrr] at this
            exact absurd this hs
        have := ((Router.route_generator _ g1 g1 c.now c.task c.executors).2 hnot).2.2
        simp only [MultiStrategyRouter.Route]
        rw [this]
        exact hg hrr
      have hrec := ih (msr.Route g1 c.seeded c.now c.task c.executors).2.1
        (msr.Route g1 c.seeded c.now c.task c.executors).2.2 g2 hkind1 hgen
      rw [hfilter]
      simp only [MultiStrategyRouter.run, resultsOfKind, List.zip_cons_cons, List.filterMap_cons,
        hs, if_false]
      rw [← hsame]
      exact hrec

/-- The strategies with a cached instance after a run are the cached ones
before it and those of the calls. -/
theorem MultiStrategyRouter.run_cached (s : RouteStrategy) :
    ∀ (calls : List RouteCall) (msr : MultiStrategyRouter) (g : Rand),
      ((msr.run g calls).2.1.routers s).isSome = true ↔
        ((msr.routers s).isSome = true ∨ ∃ c ∈ calls, c.task.Strategy = s) := by
  intro calls
  induction calls with
  | nil => intro msr g; simp [MultiStrategyRouter.run]
  | cons c cs ih =>
    intro msr g
    simp only [MultiStrategyRouter.run]
    rw [ih]
    by_cases hs : s = c.task.Strategy
    · simp [MultiStrategyRouter.Route, hs]
    · have hs2 : ¬ c.task.Strategy = s := fun h => hs h.symm
      simp [MultiStrategyRouter.Route, Function.update_noteq hs, hs2]

/-- Claim C12. For every sequence of Route calls on a fresh dispatcher and
every strategy value `s`: the results of the calls whose task carries `s`
are, in order, the results a single dedicated instance of that strategy
returns when fed exactly those calls (the instance being the one the factory
builds at the first of them), whatever calls of other strategies come in
between; and the dispatcher caches an instance under `s` exactly when some
call carried `s`. -/
theorem MultiStrategyRouter.run_refines_dedicated (g : Rand) (calls : List RouteCall)
    (s : RouteStrategy) :
    resultsOfKind s (NewMultiStrategyRouter.run g calls).1 calls
      = Router.dedicated s none g (calls.filter (fun c => decide (c.task.Strategy = s))) ∧
    (((NewMultiStrategyRouter.run g calls).2.1.routers s).isSome = true ↔
      ∃ c ∈ calls, c.task.Strategy = s) := by
  constructor
  · exact MultiStrategyRouter.run_dedicated_gen s calls NewMultiStrategyRouter g g
      (fun k rt h => by simp [NewMultiStrategyRouter] at h) (fun _ => rfl)
  · rw [MultiStrategyRouter.run_cached]
    simp [NewMultiStrategyRouter]

/-! ## Maps kept as entry lists -/

theorem mapGet_nil {α : Type} (k : String) : mapGet ([] : List (String × α)) k = none := rfl

theorem mapGet_cons {α : Type} (kv : String × α) (m : List (String × α)) (k : String) :
    mapGet (kv :: m) k = if kv.1 = k then some kv.2 else mapGet m k := by
  unfold mapGet
  by_cases h : kv.1 = k
  · simp [List.find?, h]
  · simp [List.find?, h]

/-- Reading after `delete(m, k)`. -/
theorem mapGet_mapDelete {α : Type} (m : List (String × α)) (k k1 : String) :
    mapGet (mapDelete m k) k1 = if k1 = k then none else mapGet m k1 := by
  induction m with
  | nil => simp [mapDelete, mapGet_nil]
  | cons kv rest ih =>
    unfold mapDelete at ih ⊢
    by_cases hkv : kv.1 = k
    · have hfilter : List.filter (fun kv => decide (kv.1 ≠ k)) (kv :: rest)
          = List.filter (fun kv => decide (kv.1 ≠ k)) rest := by
        simp [List.filter, hkv]
      rw [hfilter, ih, mapGet_cons]
      by_cases hk1 : k1 = k
      · simp [hk1]
      · have : ¬ kv.1 = k1 := by rw [hkv]; exact fun h => hk1 h.symm
        simp [hk1, this]
    · have hfilter : List.filter (fun kv => decide (kv.1 ≠ k)) (kv :: rest)
          = kv :: List.filter (fun kv => decide (kv.1 ≠ k)) rest := by
        simp [List.filter, hkv]
      rw [hfilter, mapGet_cons, ih, mapGet_cons]
      by_cases hk1 : k1 = k
      · have : ¬ kv.1 = k1 := by rw [hk1]; exact hkv
        simp [hk1, hkv]
      · simp [hk1]

/-- Reading after `m[k] = v` on a map without the key `k`. -/
theorem mapGet_mapSet_of_none {α : Type} (m : List (String × α)) (k k1 : String) (v : α)
    (h : mapGet m k = none) :
    mapGet (mapSet m k v) k1 = if k1 = k then some v else mapGet m k1 := by
  have hset : mapSet m k v = m ++ [(k, v)] := by
    unfold mapSet
    simp [h]
  rw [hset]
  clear hset
  induction m with
  | nil =>
    simp only [List.nil_append, mapGet_cons, mapGet_nil]
    by_cases hk : k = k1
    · simp [hk]
    · have : ¬ k1 = k := fun h1 => hk h1.symm
      simp [hk, this]
  | cons kv rest ih =>
    rw [mapGet_cons] at h
    by_cases hkv : kv.1 = k
    · simp [hkv] at h
    · simp only [hkv, if_false] at h
      simp only [List.cons_append, mapGet_cons, ih h]
      by_cases hk1 : kv.1 = k1
      · have : ¬ k1 = k := by rw [← hk1]; exact hkv
        simp [hk1, this]
      · simp [hk1]

/-! ## AddTask and RemoveTask -/

/-- What a call of AddTask that returns no error has done: the task object
carries the configured default strategy if its strategy was 0 and its own
strategy otherwise, status Pending and the creation time; the registry maps the
task ID to the task. -/
theorem TaskScheduler.addTask_ok (w : World) (cronErr : String → Option String) (now : Int)
    (task : Ptr) (hnew : mapGet w.ts.tasks (w.taskMem task).ID = none)
    (hcron : (w.taskMem task).Cron = "" ∨ cronErr (w.taskMem task).Cron = none) :
    (TaskScheduler.AddTask w cronErr now task).1 = none ∧
    (TaskScheduler.AddTask w cronErr now task).2.taskMem task =
      { w.taskMem task with
        Strategy := if (w.taskMem task).Strategy = 0 then w.ts.config.DefaultStrategy
          else (w.taskMem task).Strategy,
        Status := TaskStatus.TaskStatusPending,
        CreatedAt := now } ∧
    (∀ k : String, mapGet (TaskScheduler.AddTask w cronErr now task).2.ts.tasks k
      = if k = (w.taskMem task).ID then some task else mapGet w.ts.tasks k) := by
  have hval : TaskScheduler.AddTask w cronErr now task =
      (none,
        { w with
          taskMem := Function.update w.taskMem task
            { w.taskMem task with
              Strategy := if (w.taskMem task).Strategy = 0 then w.ts.config.DefaultStrategy
                else (w.taskMem task).Strategy,
              Status := TaskStatus.TaskStatusPending,
              CreatedAt := now },
          ts := { w.ts with
            cron := if (w.taskMem task).Cron = "" then w.ts.cron
              else ⟨w.ts.cron.entries ++ [((w.taskMem task).Cron, task)], w.ts.cron.running⟩,
            tasks := mapSet w.ts.tasks (w.taskMem task).ID task } }) := by
    by_cases hc : (w.taskMem task).Cron = ""
    · simp [TaskScheduler.AddTask, hnew, hc]
    · have hv : cronErr (w.taskMem task).Cron = none := by
        rcases hcron with h | h
        · exact absurd h hc
        · exact h
      simp [TaskScheduler.AddTask, hnew, hc, hv]
  rw [hval]
  refine ⟨rfl, ?_, ?_⟩
  · simp
  · intro k
    exact mapGet_mapSet_of_none _ _ _ _ hnew

/-- Claim C14. AddTask with a task whose ID is already in the registry returns
the error and leaves the whole program state as it was: the stored task and
the rejected task object keep all their fields, the registry holds the same
entries and the cron scheduler the same entries (no trigger is registered). -/
theorem TaskScheduler.addTask_duplicate (w : World) (cronErr : String → Option String) (now : Int)
    (task : Ptr) (h : (mapGet w.ts.tasks (w.taskMem task).ID).isSome = true) :
    TaskScheduler.AddTask w cronErr now task
      = (some ("task " ++ (w.taskMem task).ID ++ " already exists"), w) := by
  simp only [TaskScheduler.AddTask, h, if_true]

/-- Claim C15. RemoveTask returns an error exactly when no task with that ID
is registered, and then leaves the program state unchanged. Otherwise it
removes that entry and no other from the registry, sets the status of the
removed task object to Stopped when it was Running and leaves it as it was
otherwise, touches no other task object, and the ID is free again: a later
AddTask of a task with the same ID returns no error and registers it, for every
task AddTask accepts on a registry without that ID (its trigger expression is
empty or accepted by the cron parser). -/
theorem TaskScheduler.removeTask_spec (w : World) (taskID : String) :
    ((TaskScheduler.RemoveTask w taskID).1.isSome = true ↔ mapGet w.ts.tasks taskID = none) ∧
    (mapGet w.ts.tasks taskID = none → (TaskScheduler.RemoveTask w taskID).2 = w) ∧
    (∀ task : Ptr, mapGet w.ts.tasks taskID = some task →
      (∀ k : String, mapGet (TaskScheduler.RemoveTask w taskID).2.ts.tasks k
        = if k = taskID then none else mapGet w.ts.tasks k) ∧
      (TaskScheduler.RemoveTask w taskID).2.taskMem task
        = (if (w.taskMem task).Status = TaskStatus.TaskStatusRunning then
            { w.taskMem task with Status := TaskStatus.TaskStatusStopped }
          else w.taskMem task) ∧
      (∀ q : Ptr, q ≠ task → (TaskScheduler.RemoveTask w taskID).2.taskMem q = w.taskMem q) ∧
      (∀ (cronErr : String → Option String) (now : Int) (q : Ptr),
        ((TaskScheduler.RemoveTask w taskID).2.taskMem q).ID = taskID →
        (((TaskScheduler.RemoveTask w taskID).2.taskMem q).Cron = "" ∨
          cronErr ((TaskScheduler.RemoveTask w taskID).2.taskMem q).Cron = none) →
        (TaskScheduler.AddTask (TaskScheduler.RemoveTask w taskID).2 cronErr now q).1 = none ∧
        mapGet (TaskScheduler.AddTask (TaskScheduler.RemoveTask w taskID).2
          cronErr now q).2.ts.tasks taskID = some q)) := by
  refine ⟨?_, ?_, ?_⟩
  · cases h : mapGet w.ts.tasks taskID with
    | none => simp [TaskScheduler.RemoveTask, h]
    | some task => simp [TaskScheduler.RemoveTask, h]
  · intro h
    simp [TaskScheduler.RemoveTask, h]
  · intro task h
    have hmap : ∀ k : String, mapGet (TaskScheduler.RemoveTask w taskID).2.ts.tasks k
        = if k = taskID then none else mapGet w.ts.tasks k := by
      intro k
      simp only [TaskScheduler.RemoveTask, h]
      exact mapGet_mapDelete _ _ _
    refine ⟨hmap, ?_, ?_, ?_⟩
    · simp only [TaskScheduler.RemoveTask, h]
      split
      · simp
      · rfl
    · intro q hq
      simp only [TaskScheduler.RemoveTask, h]
      split
      · simp [Function.update_noteq hq]
      · rfl
    · intro cronErr now q hid hcron
      have hnone : mapGet (TaskScheduler.RemoveTask w taskID).2.ts.tasks
          ((TaskScheduler.RemoveTask w taskID).2.taskMem q).ID = none := by
        rw [hid, hmap]
        simp
      obtain ⟨h1, _, h3⟩ := TaskScheduler.addTask_ok (TaskScheduler.RemoveTask w taskID).2
        cronErr now q hnone hcron
      refine ⟨h1, ?_⟩
      rw [h3, hid]
      simp

/-! ## The dispatch procedure -/

/-- Claim C17. For a task whose status is Running or Stopped the dispatch
procedure returns with the whole program state as it was: the task object, the
strategy dispatcher with its cached instances, the executor objects and the set
of goroutines (no executor is invoked); so dispatch never moves a task out of
Stopped. -/
theorem TaskScheduler.executeTask_skip (w : World) (env : Env) (task : Ptr)
    (h : (w.taskMem task).Status = TaskStatus.TaskStatusRunning ∨
      (w.taskMem task).Status = TaskStatus.TaskStatusStopped) :
    TaskScheduler.executeTask w env task = w := by
  rcases h with h | h
  · simp [TaskScheduler.executeTask, h]
  · simp [TaskScheduler.executeTask, h]

/-- The healthy executors of a registry without a healthy executor, in any
iteration order. -/
theorem Manager.getExecutors_nil (em : Manager) (execMem : Ptr → Executor) (env : Env)
    (hvalid : env.Valid)
    (hnone : ∀ kv ∈ em.executors, (execMem kv.2).IsHealthy = false) :
    em.GetExecutors execMem env.order = [] := by
  unfold Manager.GetExecutors
  have hfilter : (env.order em.executors).filter (fun kv => (execMem kv.2).IsHealthy) = [] := by
    rw [List.filter_eq_nil_iff]
    intro kv hkv
    have hmem : kv ∈ em.executors := (hvalid em.executors).mem_iff.mp hkv
    simp [hnone kv hmem]
  rw [hfilter]
  rfl

/-- Claim C19. For a task whose status is neither Running nor Stopped, the
dispatch procedure run while no registered executor is healthy (in whatever
order the registry is iterated) sets the status of the task to Failed and
changes nothing else: the dispatcher and its cached strategy instances, the
generator, the executor objects and the set of goroutines are as before (no
routing, no executor invoked); the procedure has no result to report an error
with. -/
theorem TaskScheduler.executeTask_no_executor (w : World) (env : Env) (task : Ptr)
    (hvalid : env.Valid)
    (h1 : (w.taskMem task).Status ≠ TaskStatus.TaskStatusRunning)
    (h2 : (w.taskMem task).Status ≠ TaskStatus.TaskStatusStopped)
    (hnone : ∀ kv ∈ w.ts.executorManager.executors, (w.execMem kv.2).IsHealthy = false) :
    TaskScheduler.executeTask w env task =
      { w with
        taskMem := Function.update w.taskMem task
          { w.taskMem task with Status := TaskStatus.TaskStatusFailed } } := by
  have hnil := Manager.getExecutors_nil w.ts.executorManager w.execMem env hvalid hnone
  simp [TaskScheduler.executeTask, h1, h2, TaskScheduler.GetExecutors, hnil]

/-- The dispatch procedure does not read the task registry: on two program
states that differ in the registry only, it makes the same changes. -/
theorem TaskScheduler.executeTask_ignores_registry (w : World) (env : Env) (task : Ptr)
    (tasks : List (String × Ptr)) :
    TaskScheduler.executeTask { w with ts := { w.ts with tasks := tasks } } env task
      = { TaskScheduler.executeTask w env task with
          ts := { (TaskScheduler.executeTask w env task).ts with tasks := tasks } } := by
  unfold TaskScheduler.executeTask
  simp only [TaskScheduler.GetExecutors]
  split
  · rfl
  · split
    · rfl
    · split
      · rfl
      · split <;> rfl

/-! ## The scheduler on the fixtures -/

/-- Claim C13 against the code at a failing input. With the configured default
app round robin, as in `cmd/scheduler/main.go`, the task order-timeout-check
explicitly assigned task round robin is added without error and stored with
app round robin: its strategy is the value 0, which AddTask takes for unset. -/
theorem TaskScheduler.addTask_roundRobinTask_replaced :
    (demoWorld.taskMem 0).Strategy = RoundRobinTask ∧
    demoWorld.ts.config.DefaultStrategy = RoundRobinApp ∧
    (TaskScheduler.AddTask demoWorld cronSixFields 10 0).1 = none ∧
    mapGet (TaskScheduler.AddTask demoWorld cronSixFields 10 0).2.ts.tasks
      "order-timeout-check" = some 0 ∧
    ((TaskScheduler.AddTask demoWorld cronSixFields 10 0).2.taskMem 0).Strategy
      = RoundRobinApp := by
  decide

/-- The theorem for C14 on the fixture: with the hello-world task registered, a
second task object with the ID hello-world is rejected. -/
theorem TaskScheduler.addTask_duplicate_witness :
    (mapGet helloWorld.ts.tasks (helloWorld.taskMem 3).ID).isSome = true ∧
    TaskScheduler.AddTask helloWorld cronSixFields 99 3
      = (some ("task " ++ (helloWorld.taskMem 3).ID ++ " already exists"), helloWorld) :=
  ⟨by decide, TaskScheduler.addTask_duplicate helloWorld cronSixFields 99 3 (by decide)⟩

/-- The theorem for C15 on the fixture: the hello-world task is removed and
added again. -/
theorem TaskScheduler.removeTask_spec_witness :
    mapGet helloWorld.ts.tasks "hello-world" = some 1 ∧
    ((TaskScheduler.RemoveTask helloWorld "hello-world").2.taskMem 1).ID = "hello-world" ∧
    (TaskScheduler.AddTask (TaskScheduler.RemoveTask helloWorld "hello-world").2
      cronSixFields 20 1).1 = none ∧
    mapGet (TaskScheduler.AddTask (TaskScheduler.RemoveTask helloWorld "hello-world").2
      cronSixFields 20 1).2.ts.tasks "hello-world" = some 1 :=
  ⟨by decide, by decide,
    ((TaskScheduler.removeTask_spec helloWorld "hello-world").2.2 1 (by decide)).2.2.2
      cronSixFields 20 1 (by decide) (Or.inr (by decide))⟩

/-- AddTask of a task whose ID is not registered and whose trigger expression
the cron parser rejects: the error carries the task ID and the error of the
parser, nothing is registered and no cron entry is added. This holds whether or
not a task with that ID was registered and removed before. -/
theorem TaskScheduler.addTask_cron_rejected (w : World) (cronErr : String → Option String)
    (now : Int) (task : Ptr) (err : String)
    (hnew : mapGet w.ts.tasks (w.taskMem task).ID = none)
    (hcron : (w.taskMem task).Cron ≠ "")
    (herr : cronErr (w.taskMem task).Cron = some err) :
    (TaskScheduler.AddTask w cronErr now task).1
      = some ("failed to add cron job for task " ++ (w.taskMem task).ID ++ ": " ++ err) ∧
    (TaskScheduler.AddTask w cronErr now task).2.ts.tasks = w.ts.tasks ∧
    (TaskScheduler.AddTask w cronErr now task).2.ts.cron = w.ts.cron := by
  simp [TaskScheduler.AddTask, hnew, hcron, herr]

/-- The rejected trigger expression on the fixture, after the hello-world task
has been removed and with no removal before: in both states AddTask of the task
object with the ID hello-world and the trigger expression "every ten seconds"
returns the error of the cron registration and registers nothing. -/
theorem TaskScheduler.addTask_malformed_on_fixture :
    (TaskScheduler.AddTask (TaskScheduler.RemoveTask helloWorld "hello-world").2
      cronSixFields 20 3).1
      = some ("failed to add cron job for task hello-world: "
          ++ "expected exactly 6 fields, found 3: [every ten seconds]") ∧
    mapGet (TaskScheduler.AddTask (TaskScheduler.RemoveTask helloWorld "hello-world").2
      cronSixFields 20 3).2.ts.tasks "hello-world" = none ∧
    (TaskScheduler.AddTask (TaskScheduler.AddExecutor demoWorld 0).2 cronSixFields 20 3).1
      = some ("failed to add cron job for task hello-world: "
          ++ "expected exactly 6 fields, found 3: [every ten seconds]") := by
  decide

/-- Claim C16 against the code at a failing input. The hello-world task, which
has a trigger expression, is added, the scheduler is started and the task,
still Pending, is removed: the registry no longer holds it but the cron entry
with its callback remains. The next fire of that entry at clock reading 30
routes the task (the dispatcher now caches an app round-robin instance) and
spawns a goroutine for it on exec-1; run to completion, the goroutine invokes
exec-1 and leaves the task Pending for the next fire. The dispatch procedure
never looks the task up in the registry. -/
theorem TaskScheduler.fire_after_removeTask :
    (TaskScheduler.RemoveTask (TaskScheduler.Start helloWorld).2 "hello-world").1 = none ∧
    mapGet (TaskScheduler.RemoveTask (TaskScheduler.Start helloWorld).2
      "hello-world").2.ts.tasks "hello-world" = none ∧
    (TaskScheduler.RemoveTask (TaskScheduler.Start helloWorld).2
      "hello-world").2.ts.cron = ⟨[("0 */10 * * * *", 1)], true⟩ ∧
    ((TaskScheduler.RemoveTask (TaskScheduler.Start helloWorld).2
      "hello-world").2.ts.router.routers RoundRobinApp).isSome = false ∧
    (TaskScheduler.fire (TaskScheduler.RemoveTask (TaskScheduler.Start helloWorld).2
      "hello-world").2 (demoEnv 30) 0).goroutines = [⟨1, some 0, Phase.spawned⟩] ∧
    ((TaskScheduler.fire (TaskScheduler.RemoveTask (TaskScheduler.Start helloWorld).2
      "hello-world").2 (demoEnv 30) 0).ts.router.routers RoundRobinApp).isSome = true ∧
    ((TaskScheduler.stepGoroutine (TaskScheduler.stepGoroutine (TaskScheduler.stepGoroutine
      (TaskScheduler.fire (TaskScheduler.RemoveTask (TaskScheduler.Start helloWorld).2
        "hello-world").2 (demoEnv 30) 0) 31 0) 32 0) 33 0).execMem 0).usageCount = 1 ∧
    ((TaskScheduler.stepGoroutine (TaskScheduler.stepGoroutine (TaskScheduler.stepGoroutine
      (TaskScheduler.fire (TaskScheduler.RemoveTask (TaskScheduler.Start helloWorld).2
        "hello-world").2 (demoEnv 30) 0) 31 0) 32 0) 33 0).taskMem 1).Status
      = TaskStatus.TaskStatusPending := by
  decide

/-- The theorem for C17 on the fixture: the manual task, dispatched once and
set to Running by its goroutine, is dispatched again. -/
theorem TaskScheduler.executeTask_skip_witness :
    ((TaskScheduler.stepGoroutine (TaskScheduler.executeTask manualWorld (demoEnv 20) 2)
        21 0).taskMem 2).Status = TaskStatus.TaskStatusRunning ∧
    TaskScheduler.executeTask
        (TaskScheduler.stepGoroutine (TaskScheduler.executeTask manualWorld (demoEnv 20) 2) 21 0)
        (demoEnv 22) 2
      = TaskScheduler.stepGoroutine (TaskScheduler.executeTask manualWorld (demoEnv 20) 2) 21 0 :=
  ⟨by decide,
    TaskScheduler.executeTask_skip
      (TaskScheduler.stepGoroutine (TaskScheduler.executeTask manualWorld (demoEnv 20) 2) 21 0)
      (demoEnv 22) 2 (Or.inl (by decide))⟩

/-- Claim C18 against the code at a failing input. The manual task is Pending
and exec-1 and exec-2 are healthy. When the dispatch procedure returns after
its successful route the task is still Pending and its last-run time is not
stamped: both assignments are made by the spawned goroutine. A second dispatch
issued before that goroutine has started is therefore not skipped and spawns a
second goroutine for the same task; once both have started, the task has two
executions in flight, and both invoke an executor. -/
theorem TaskScheduler.dispatch_twice_before_start :
    (manualWorld.taskMem 2).Status = TaskStatus.TaskStatusPending ∧
    (TaskScheduler.executeTask manualWorld (demoEnv 20) 2).goroutines
      = [⟨2, some 1, Phase.spawned⟩] ∧
    ((TaskScheduler.executeTask manualWorld (demoEnv 20) 2).taskMem 2).Status
      = TaskStatus.TaskStatusPending ∧
    ((TaskScheduler.executeTask manualWorld (demoEnv 20) 2).taskMem 2).LastRunTime = 0 ∧
    (TaskScheduler.executeTask (TaskScheduler.executeTask manualWorld (demoEnv 20) 2)
      (demoEnv 21) 2).goroutines = [⟨2, some 1, Phase.spawned⟩, ⟨2, some 0, Phase.spawned⟩] ∧
    (TaskScheduler.stepGoroutine (TaskScheduler.stepGoroutine
      (TaskScheduler.executeTask (TaskScheduler.executeTask manualWorld (demoEnv 20) 2)
        (demoEnv 21) 2) 22 0) 23 1).goroutines
      = [⟨2, some 1, Phase.started⟩, ⟨2, some 0, Phase.started⟩] ∧
    ((TaskScheduler.stepGoroutine (TaskScheduler.stepGoroutine (TaskScheduler.stepGoroutine
      (TaskScheduler.stepGoroutine
        (TaskScheduler.executeTask (TaskScheduler.executeTask manualWorld (demoEnv 20) 2)
          (demoEnv 21) 2) 22 0) 23 1) 24 0) 25 1).execMem 1).usageCount = 1 ∧
    ((TaskScheduler.stepGoroutine (TaskScheduler.stepGoroutine (TaskScheduler.stepGoroutine
      (TaskScheduler.stepGoroutine
        (TaskScheduler.executeTask (TaskScheduler.executeTask manualWorld (demoEnv 20) 2)
          (demoEnv 21) 2) 22 0) 23 1) 24 0) 25 1).execMem 0).usageCount = 1 := by
  decide

/-- The theorem for C19 on the fixture: the manual task is added to a
scheduler without executors and dispatched. -/
theorem TaskScheduler.executeTask_no_executor_witness :
    (demoEnv 20).Valid ∧
    ((TaskScheduler.AddTask demoWorld cronSixFields 10 2).2.taskMem 2).Status
      ≠ TaskStatus.TaskStatusRunning ∧
    ((TaskScheduler.AddTask demoWorld cronSixFields 10 2).2.taskMem 2).Status
      ≠ TaskStatus.TaskStatusStopped ∧
    (∀ kv ∈ (TaskScheduler.AddTask demoWorld cronSixFields 10 2).2.ts.executorManager.executors,
      ((TaskScheduler.AddTask demoWorld cronSixFields 10 2).2.execMem kv.2).IsHealthy = false) ∧
    TaskScheduler.executeTask (TaskScheduler.AddTask demoWorld cronSixFields 10 2).2
        (demoEnv 20) 2 =
      { (TaskScheduler.AddTask demoWorld cronSixFields 10 2).2 with
        taskMem := Function.update (TaskScheduler.AddTask demoWorld cronSixFields 10 2).2.taskMem 2
          { (TaskScheduler.AddTask demoWorld cronSixFields 10 2).2.taskMem 2 with
            Status := TaskStatus.TaskStatusFailed } } :=
  ⟨fun l => List.Perm.refl l, by decide, by decide, by decide,
    TaskScheduler.executeTask_no_executor (TaskScheduler.AddTask demoWorld cronSixFields 10 2).2
      (demoEnv 20) 2 (fun l => List.Perm.refl l) (by decide) (by decide) (by decide)⟩

/-! ## Two dispatches run to completion -/

/-- A dispatch that finds a healthy executor and a task of a strategy other
than LRU, in a reachable state of the dispatcher, spawns one goroutine on a
healthy executor and changes only the dispatcher and the generator besides. -/
theorem TaskScheduler.executeTask_spawn (w : World) (env : Env) (task : Ptr)
    (hvalid : env.Valid)
    (hreach : MultiStrategyRouter.Reachable w.ts.router)
    (h1 : (w.taskMem task).Status ≠ TaskStatus.TaskStatusRunning)
    (h2 : (w.taskMem task).Status ≠ TaskStatus.TaskStatusStopped)
    (hstrategy : (w.taskMem task).Strategy ≠ LRU)
    (hhealthy : ∃ kv ∈ w.ts.executorManager.executors, (w.execMem kv.2).IsHealthy = true) :
    ∃ (q : Ptr) (rt : MultiStrategyRouter) (g1 : Rand),
      (w.execMem q).IsHealthy = true ∧
      MultiStrategyRouter.Reachable rt ∧
      TaskScheduler.executeTask w env task =
        { w with
          ts := { w.ts with router := rt },
          rng := g1,
          goroutines := w.goroutines ++ [⟨task, some q, Phase.spawned⟩] } := by
  obtain ⟨kv, hkv, hkvh⟩ := hhealthy
  have hmem : kv.2 ∈ TaskScheduler.GetExecutors w env.order := by
    unfold TaskScheduler.GetExecutors Manager.GetExecutors
    refine List.mem_map.mpr ⟨kv, ?_, rfl⟩
    exact List.mem_filter.mpr ⟨(hvalid _).mem_iff.mpr hkv, hkvh⟩
  have hall : ∀ q ∈ TaskScheduler.GetExecutors w env.order, (w.execMem q).IsHealthy = true := by
    intro q hq
    unfold TaskScheduler.GetExecutors Manager.GetExecutors at hq
    obtain ⟨kv1, hkv1, rfl⟩ := List.mem_map.mp hq
    exact (List.mem_filter.mp hkv1).2
  have hlen : (TaskScheduler.GetExecutors w env.order).length ≠ 0 := by
    intro h0
    rw [List.length_eq_zero] at h0
    rw [h0] at hmem
    simp at hmem
  have hvals : (TaskScheduler.GetExecutors w env.order).map w.execMem ≠ [] := by
    intro h0
    have := congrArg List.length h0
    simp at this
    exact hlen (by simpa using this)
  obtain ⟨e, he, hroute⟩ := MultiStrategyRouter.dispatch_route_mem w.ts.router hreach w.rng
    env.seeded env.now (w.taskMem task) _ hvals hstrategy
  obtain ⟨q0, hq0, hq0e⟩ := List.mem_map.mp he
  have hfind : ∃ q, (TaskScheduler.GetExecutors w env.order).find?
      (fun q => decide (w.execMem q = e)) = some q := by
    cases hf : (TaskScheduler.GetExecutors w env.order).find?
        (fun q => decide (w.execMem q = e)) with
    | some q => exact ⟨q, rfl⟩
    | none =>
      have := List.find?_eq_none.mp hf q0 hq0
      simp [hq0e] at this
  obtain ⟨q, hq⟩ := hfind
  refine ⟨q, (w.ts.router.Route w.rng env.seeded env.now (w.taskMem task)
      ((TaskScheduler.GetExecutors w env.order).map w.execMem)).2.1,
    (w.ts.router.Route w.rng env.seeded env.now (w.taskMem task)
      ((TaskScheduler.GetExecutors w env.order).map w.execMem)).2.2,
    hall q (List.mem_of_find?_eq_some hq),
    MultiStrategyRouter.Reachable.route _ _ _ _ _ _ hreach, ?_⟩
  simp only [TaskScheduler.executeTask, h1, h2, if_false, hlen, hroute, Option.bind_some,
    Option.some_bind, hq]

/-- One dispatch run to completion, from a state without goroutines in flight,
of a task without trigger expression: the status stays as it was when the
dispatch procedure returns, is Running after the first step of the goroutine
and Completed after the second and the third; the final state again has no
goroutine in flight, a reachable dispatcher, the same registry and the same
health flags, and the task keeps its trigger expression and strategy. -/
theorem TaskScheduler.dispatch_round (w : World) (env : Env) (t1 t2 t3 : Int) (task : Ptr)
    (hvalid : env.Valid)
    (hreach : MultiStrategyRouter.Reachable w.ts.router)
    (hgo : w.goroutines = [])
    (h1 : (w.taskMem task).Status ≠ TaskStatus.TaskStatusRunning)
    (h2 : (w.taskMem task).Status ≠ TaskStatus.TaskStatusStopped)
    (hcron : (w.taskMem task).Cron = "")
    (hstrategy : (w.taskMem task).Strategy ≠ LRU)
    (hhealthy : ∃ kv ∈ w.ts.executorManager.executors, (w.execMem kv.2).IsHealthy = true) :
    statusTrace task (dispatchTrace w env t1 t2 t3 task)
      = [(w.taskMem task).Status, TaskStatus.TaskStatusRunning,
          TaskStatus.TaskStatusCompleted, TaskStatus.TaskStatusCompleted] ∧
    (dispatchToCompletion w env t1 t2 t3 task).goroutines = [] ∧
    MultiStrategyRouter.Reachable (dispatchToCompletion w env t1 t2 t3 task).ts.router ∧
    ((dispatchToCompletion w env t1 t2 t3 task).taskMem task).Cron = "" ∧
    ((dispatchToCompletion w env t1 t2 t3 task).taskMem task).Strategy
      = (w.taskMem task).Strategy ∧
    (dispatchToCompletion w env t1 t2 t3 task).ts.executorManager = w.ts.executorManager ∧
    (∀ p : Ptr, ((dispatchToCompletion w env t1 t2 t3 task).execMem p).IsHealthy
      = (w.execMem p).IsHealthy) := by
  obtain ⟨q, rt, g1, hq, hrt, hexec⟩ := TaskScheduler.executeTask_spawn w env task hvalid hreach
    h1 h2 hstrategy hhealthy
  have hq1 : (w.execMem q).isHealthy = true := hq
  unfold statusTrace dispatchTrace dispatchToCompletion
  rw [hexec, hgo]
  refine ⟨?_, ?_, ?_, ?_, ?_, ?_, ?_⟩
  · simp [TaskScheduler.stepGoroutine, Executor.Execute, Executor.IsHealthy, hq1, hcron]
  · simp [TaskScheduler.stepGoroutine, Executor.Execute, Executor.IsHealthy, hq1, hcron]
  · simpa [TaskScheduler.stepGoroutine, Executor.Execute, Executor.IsHealthy, hq1, hcron]
      using hrt
  · simp [TaskScheduler.stepGoroutine, Executor.Execute, Executor.IsHealthy, hq1, hcron]
  · simp [TaskScheduler.stepGoroutine, Executor.Execute, Executor.IsHealthy, hq1, hcron]
  · simp [TaskScheduler.stepGoroutine, Executor.Execute, Executor.IsHealthy, hq1, hcron]
  · intro p
    by_cases hp : p = q
    · subst hp
      simp [TaskScheduler.stepGoroutine, Executor.Execute, Executor.IsHealthy, hq1, hcron]
    · simp [TaskScheduler.stepGoroutine, Executor.Execute, Executor.IsHealthy, hq1, hcron,
        Function.update_noteq hp]

/-- AddTask touches neither the dispatcher, nor the executors and their
registry, nor the goroutines, nor the generator. -/
theorem TaskScheduler.addTask_frame (w : World) (cronErr : String → Option String) (now : Int)
    (task : Ptr) :
    (TaskScheduler.AddTask w cronErr now task).2.ts.router = w.ts.router ∧
    (TaskScheduler.AddTask w cronErr now task).2.ts.executorManager = w.ts.executorManager ∧
    (TaskScheduler.AddTask w cronErr now task).2.execMem = w.execMem ∧
    (TaskScheduler.AddTask w cronErr now task).2.goroutines = w.goroutines ∧
    (TaskScheduler.AddTask w cronErr now task).2.rng = w.rng := by
  unfold TaskScheduler.AddTask
  split
  · exact ⟨rfl, rfl, rfl, rfl, rfl⟩
  · simp only []
    split
    · split
      · exact ⟨rfl, rfl, rfl, rfl, rfl⟩
      · exact ⟨rfl, rfl, rfl, rfl, rfl⟩
    · exact ⟨rfl, rfl, rfl, rfl, rfl⟩

/-- Claim C20, as amended. In a scheduler with a healthy executor registered
(two in the claim), no goroutine in flight and a reachable dispatcher, a task
with app round robin and no trigger expression is added without error and is
Pending. Two dispatches of it, each run to completion, in whatever order the
executor map is iterated and at whatever clock readings, take its status
through Pending, Running, Completed, Running, Completed: it is still Pending
when the first dispatch returns, Running and then Completed while the first
goroutine runs, still Completed (not Pending) when that goroutine has ended
and when the second dispatch returns, and Running and then Completed again
while the second goroutine runs. -/
theorem TaskScheduler.two_dispatches_statuses (w : World) (cronErr : String → Option String)
    (now : Int) (env1 env2 : Env) (t1 t2 t3 t4 t5 t6 : Int) (task : Ptr)
    (hv1 : env1.Valid) (hv2 : env2.Valid)
    (hreach : MultiStrategyRouter.Reachable w.ts.router)
    (hgo : w.goroutines = [])
    (hnew : mapGet w.ts.tasks (w.taskMem task).ID = none)
    (hcron : (w.taskMem task).Cron = "")
    (happ : (w.taskMem task).Strategy = RoundRobinApp)
    (hhealthy : ∃ kv ∈ w.ts.executorManager.executors, (w.execMem kv.2).IsHealthy = true) :
    (TaskScheduler.AddTask w cronErr now task).1 = none ∧
    ((TaskScheduler.AddTask w cronErr now task).2.taskMem task).Status
      = TaskStatus.TaskStatusPending ∧
    statusTrace task
        (dispatchTrace (TaskScheduler.AddTask w cronErr now task).2 env1 t1 t2 t3 task)
      = [TaskStatus.TaskStatusPending, TaskStatus.TaskStatusRunning,
          TaskStatus.TaskStatusCompleted, TaskStatus.TaskStatusCompleted] ∧
    statusTrace task
        (dispatchTrace
          (dispatchToCompletion (TaskScheduler.AddTask w cronErr now task).2 env1 t1 t2 t3 task)
          env2 t4 t5 t6 task)
      = [TaskStatus.TaskStatusCompleted, TaskStatus.TaskStatusRunning,
          TaskStatus.TaskStatusCompleted, TaskStatus.TaskStatusCompleted] := by
  obtain ⟨hok, hmem, _⟩ := TaskScheduler.addTask_ok w cronErr now task hnew (Or.inl hcron)
  obtain ⟨hf1, hf2, hf3, hf4, _⟩ := TaskScheduler.addTask_frame w cronErr now task
  have hstatus : ((TaskScheduler.AddTask w cronErr now task).2.taskMem task).Status
      = TaskStatus.TaskStatusPending := by rw [hmem]
  have hcron1 : ((TaskScheduler.AddTask w cronErr now task).2.taskMem task).Cron = "" := by
    rw [hmem]; exact hcron
  have hstr1 : ((TaskScheduler.AddTask w cronErr now task).2.taskMem task).Strategy
      = RoundRobinApp := by
    rw [hmem]
    simp [happ]
  have hround1 := TaskScheduler.dispatch_round (TaskScheduler.AddTask w cronErr now task).2
    env1 t1 t2 t3 task hv1 (by rw [hf1]; exact hreach) (by rw [hf4]; exact hgo)
    (by rw [hstatus]; decide) (by rw [hstatus]; decide) hcron1 (by rw [hstr1]; decide)
    (by rw [hf2, hf3]; exact hhealthy)
  obtain ⟨htrace1, hgo1, hreach1, hcron2, hstr2, hem, hhealth⟩ := hround1
  have hlast : ((dispatchToCompletion (TaskScheduler.AddTask w cronErr now task).2 env1
      t1 t2 t3 task).taskMem task).Status = TaskStatus.TaskStatusCompleted := by
    have := htrace1
    simp only [statusTrace, dispatchTrace, List.map_cons, List.map_nil, List.cons.injEq] at this
    exact this.2.2.2.1
  have hround2 := TaskScheduler.dispatch_round
    (dispatchToCompletion (TaskScheduler.AddTask w cronErr now task).2 env1 t1 t2 t3 task)
    env2 t4 t5 t6 task hv2 hreach1 hgo1 (by rw [hlast]; decide) (by rw [hlast]; decide) hcron2
    (by rw [hstr2, hstr1]; decide)
    (by
      obtain ⟨kv, hkv, hkvh⟩ := hhealthy
      refine ⟨kv, by rw [hem, hf2]; exact hkv, ?_⟩
      rw [hhealth, hf3]
      exact hkvh)
  refine ⟨hok, hstatus, ?_, ?_⟩
  · rw [htrace1, hstatus]
  · rw [hround2.1, hlast]

/-- The theorem for C20 on the fixture: exec-1 and exec-2 registered, the
manual task added at clock reading 10 and dispatched at 20 and at 30. -/
theorem TaskScheduler.two_dispatches_statuses_witness :
    (demoEnv 20).Valid ∧ (demoEnv 30).Valid ∧
    MultiStrategyRouter.Reachable twoExecutorWorld.ts.router ∧
    twoExecutorWorld.goroutines = [] ∧
    mapGet twoExecutorWorld.ts.tasks (twoExecutorWorld.taskMem 2).ID = none ∧
    (twoExecutorWorld.taskMem 2).Cron = "" ∧
    (twoExecutorWorld.taskMem 2).Strategy = RoundRobinApp ∧
    (∃ kv ∈ twoExecutorWorld.ts.executorManager.executors,
      (twoExecutorWorld.execMem kv.2).IsHealthy = true) ∧
    statusTrace 2
        (dispatchTrace (TaskScheduler.AddTask twoExecutorWorld cronSixFields 10 2).2
          (demoEnv 20) 21 22 23 2)
      = [TaskStatus.TaskStatusPending, TaskStatus.TaskStatusRunning,
          TaskStatus.TaskStatusCompleted, TaskStatus.TaskStatusCompleted] ∧
    statusTrace 2
        (dispatchTrace
          (dispatchToCompletion (TaskScheduler.AddTask twoExecutorWorld cronSixFields 10 2).2
            (demoEnv 20) 21 22 23 2)
          (demoEnv 30) 31 32 33 2)
      = [TaskStatus.TaskStatusCompleted, TaskStatus.TaskStatusRunning,
          TaskStatus.TaskStatusCompleted, TaskStatus.TaskStatusCompleted] :=
  ⟨fun l => List.Perm.refl l, fun l => List.Perm.refl l, MultiStrategyRouter.Reachable.fresh,
    rfl, by decide, by decide, by decide, ⟨("exec-1", 0), by decide, by decide⟩,
    (TaskScheduler.two_dispatches_statuses twoExecutorWorld cronSixFields 10 (demoEnv 20)
      (demoEnv 30) 21 22 23 31 32 33 2 (fun l => List.Perm.refl l) (fun l => List.Perm.refl l)
      MultiStrategyRouter.Reachable.fresh rfl (by decide) (by decide) (by decide)
      ⟨("exec-1", 0), by decide, by decide⟩).2.2⟩

/-- Claim C20 fails as stated: with exec-1 and exec-2 healthy and the manual
task added with app round robin and no trigger expression, the status after
the first execution has completed is Completed, not Pending, and it is still
Completed when the second dispatch begins; the statuses along the two
dispatches are Pending, Running, Completed, Completed and then Completed,
Running, Completed, Completed. -/
theorem TaskScheduler.completed_not_reset_without_trigger :
    TaskScheduler.GetExecutors manualWorld (fun l => l) = [0, 1] ∧
    (manualWorld.execMem 0).IsHealthy = true ∧ (manualWorld.execMem 1).IsHealthy = true ∧
    (manualWorld.taskMem 2).Strategy = RoundRobinApp ∧
    (manualWorld.taskMem 2).Cron = "" ∧
    (manualWorld.taskMem 2).Status = TaskStatus.TaskStatusPending ∧
    statusTrace 2 (dispatchTrace manualWorld (demoEnv 20) 21 22 23 2)
      = [TaskStatus.TaskStatusPending, TaskStatus.TaskStatusRunning,
          TaskStatus.TaskStatusCompleted, TaskStatus.TaskStatusCompleted] ∧
    ((dispatchToCompletion manualWorld (demoEnv 20) 21 22 23 2).taskMem 2).Status
      ≠ TaskStatus.TaskStatusPending ∧
    (dispatchToCompletion manualWorld (demoEnv 20) 21 22 23 2).goroutines = [] ∧
    statusTrace 2
        (dispatchTrace (dispatchToCompletion manualWorld (demoEnv 20) 21 22 23 2)
          (demoEnv 30) 31 32 33 2)
      = [TaskStatus.TaskStatusCompleted, TaskStatus.TaskStatusRunning,
          TaskStatus.TaskStatusCompleted, TaskStatus.TaskStatusCompleted] := by
  decide

/-! ## LFU: balance of the counts -/

/-- One LFU call on a list whose first `k` candidates stand one above the
level `q` of the others: Route returns candidate `k`, raises its count by one
and leaves the counts of the other candidates as they were. -/
theorem LFURouter.balanced_step (s : LFURouter) (task : Task) (executors : List Executor)
    (hnodup : (executors.map Executor.GetID).Nodup) (q : Int) (hq : 0 ≤ q)
    (k : Nat) (hk : k < executors.length)
    (hinv : ∀ (j : Nat) (hj : j < executors.length),
      s.count task.ID executors[j].GetID = q + (if j < k then 1 else 0)) :
    (s.Route task executors).1 = some (some executors[k], none) ∧
    (s.Route task executors).2.count task.ID executors[k].GetID = q + 1 ∧
    ∀ (j : Nat) (hj : j < executors.length), j ≠ k →
      (s.Route task executors).2.count task.ID executors[j].GetID
        = s.count task.ID executors[j].GetID := by
  have hsplit : executors = executors.take k ++ executors[k] :: executors.drop (k + 1) := by
    rw [← List.drop_eq_getElem_cons hk, List.take_append_drop]
  have hk0 : s.count task.ID executors[k].GetID = q := by
    rw [hinv k hk]; simp
  have hpre : ∀ x ∈ executors.take k,
      s.count task.ID executors[k].GetID < s.count task.ID x.GetID := by
    intro x hx
    obtain ⟨i, hi, rfl⟩ := List.mem_take_iff_getElem.mp hx
    have hik : i < k := (lt_min_iff.mp hi).1
    rw [hk0, hinv i (lt_min_iff.mp hi).2]
    simp [hik]
  have hpost : ∀ x ∈ executors.drop (k + 1),
      s.count task.ID executors[k].GetID ≤ s.count task.ID x.GetID := by
    intro x hx
    obtain ⟨i, hi, rfl⟩ := List.mem_drop_iff_getElem.mp hx
    rw [hk0, hinv (k + 1 + i) (by omega)]
    have hlt : ¬ (k + 1 + i < k) := by omega
    simp [hlt]
  have hne : s.count task.ID executors[k].GetID ≠ -1 := by rw [hk0]; omega
  obtain ⟨h1, h2, h3⟩ := LFURouter.route_split s task _ _ _ hpre hpost hne
  rw [← hsplit] at h1 h2 h3
  refine ⟨h1, ?_, ?_⟩
  · show ((s.Route task executors).2.count? task.ID executors[k].GetID).getD 0 = q + 1
    rw [h2, hk0]
    rfl
  · intro j hj hjk
    unfold LFURouter.count
    rw [h3 _ _ (Or.inr (getID_ne_of_nodup executors hnodup j k hj hk hjk))]

/-- Raising one entry of a list by one raises the sum by one. -/
theorem sum_map_step (c1 c2 : Executor → Int) (executors : List Executor)
    (k : Nat) (hk : k < executors.length)
    (hat : c2 executors[k] = c1 executors[k] + 1)
    (hother : ∀ (j : Nat) (hj : j < executors.length), j ≠ k →
      c2 executors[j] = c1 executors[j]) :
    (executors.map c2).sum = (executors.map c1).sum + 1 := by
  have hsplit : executors = executors.take k ++ executors[k] :: executors.drop (k + 1) := by
    rw [← List.drop_eq_getElem_cons hk, List.take_append_drop]
  have hpre : (executors.take k).map c2 = (executors.take k).map c1 := by
    apply List.map_congr_left
    intro x hx
    obtain ⟨i, hi, rfl⟩ := List.mem_take_iff_getElem.mp hx
    have hik : i < k := (lt_min_iff.mp hi).1
    exact hother i (lt_min_iff.mp hi).2 (by omega)
  have hpost : (executors.drop (k + 1)).map c2 = (executors.drop (k + 1)).map c1 := by
    apply List.map_congr_left
    intro x hx
    obtain ⟨i, hi, rfl⟩ := List.mem_drop_iff_getElem.mp hx
    exact hother (k + 1 + i) (by omega) (by omega)
  rw [hsplit]
  simp only [List.map_append, List.map_cons, List.sum_append, List.sum_cons, hpre, hpost]
  rw [hat]
  ring

/-- The counts after `n` consecutive LFU calls for a task none of whose
candidates was recorded: `n / N` for every candidate, and one more for the
first `n % N` candidates; their sum is `n`. -/
theorem LFURouter.after_balanced (r : LFURouter) (task : Task) (executors : List Executor)
    (hne : executors ≠ []) (hnodup : (executors.map Executor.GetID).Nodup)
    (hfresh : ∀ e ∈ executors, r.count? task.ID e.GetID = none) :
    ∀ n : Nat,
      (∀ (j : Nat) (hj : j < executors.length),
        (r.after task executors n).count task.ID executors[j].GetID
          = ((n / executors.length : Nat) : Int)
            + (if j < n % executors.length then 1 else 0)) ∧
      (executors.map (fun e => (r.after task executors n).count task.ID e.GetID)).sum
        = (n : Int) := by
  have hpos : 0 < executors.length := List.length_pos.mpr hne
  intro n
  induction n with
  | zero =>
    constructor
    · intro j hj
      simp [LFURouter.after, LFURouter.count, hfresh _ (List.getElem_mem hj)]
    · have hzero : executors.map (fun e => (r.after task executors 0).count task.ID e.GetID)
          = executors.map (fun _ => (0 : Int)) := by
        apply List.map_congr_left
        intro e he
        simp [LFURouter.after, LFURouter.count, hfresh e he]
      rw [hzero]
      simp
  | succ n ih =>
    obtain ⟨hcounts, hsum⟩ := ih
    have hk : n % executors.length < executors.length := Nat.mod_lt _ hpos
    obtain ⟨_, hat, hother⟩ := LFURouter.balanced_step (r.after task executors n) task
      executors hnodup ((n / executors.length : Nat) : Int) (Int.natCast_nonneg _)
      (n % executors.length) hk hcounts
    have hdm : executors.length * (n / executors.length) + n % executors.length = n :=
      Nat.div_add_mod n executors.length
    constructor
    · intro j hj
      show ((r.after task executors n).Route task executors).2.count task.ID executors[j].GetID
        = _
      by_cases hwrap : n % executors.length + 1 < executors.length
      · have hdiv : (n + 1) / executors.length = n / executors.length ∧
            (n + 1) % executors.length = n % executors.length + 1 :=
          (Nat.div_mod_unique hpos).mpr ⟨by omega, hwrap⟩
        rw [hdiv.1, hdiv.2]
        by_cases hjk : j = n % executors.length
        · subst hjk
          rw [hat]
          simp
        · rw [hother j hj hjk, hcounts j hj]
          have hiff : j < n % executors.length + 1 ↔ j < n % executors.length := by omega
          simp [hiff]
      · have hlast : n % executors.length + 1 = executors.length := by omega
        have hmul : executors.length * (n / executors.length + 1)
            = executors.length * (n / executors.length) + executors.length := by ring
        have hdiv : (n + 1) / executors.length = n / executors.length + 1 ∧
            (n + 1) % executors.length = 0 :=
          (Nat.div_mod_unique hpos).mpr ⟨by omega, hpos⟩
        rw [hdiv.1, hdiv.2]
        by_cases hjk : j = n % executors.length
        · subst hjk
          rw [hat]
          simp
        · rw [hother j hj hjk, hcounts j hj]
          have hlt : j < n % executors.length := by omega
          simp [hlt]
    · have hstep := sum_map_step
        (fun e => (r.after task executors n).count task.ID e.GetID)
        (fun e => (r.after task executors (n + 1)).count task.ID e.GetID)
        executors (n % executors.length) hk
        (by
          show ((r.after task executors n).Route task executors).2.count task.ID _
            = (r.after task executors n).count task.ID _ + 1
          rw [hat, hcounts _ hk]
          simp)
        (fun j hj hjk => hother j hj hjk)
      rw [hstep, hsum]
      push_cast
      ring

/-- Claim C26, as amended. For an LFU router, a task none of whose candidates
has a recorded count, and a fixed non-empty candidate list with pairwise
distinct IDs, after any number `n` of consecutive Route calls for that task the
counts of any two candidates differ by at most 1 and the counts of all
candidates sum to `n`. -/
theorem LFURouter.counts_balanced (r : LFURouter) (task : Task) (executors : List Executor)
    (hne : executors ≠ []) (hnodup : (executors.map Executor.GetID).Nodup)
    (hfresh : ∀ e ∈ executors, r.count? task.ID e.GetID = none) (n : Nat) :
    (∀ x ∈ executors, ∀ y ∈ executors,
      (r.after task executors n).count task.ID x.GetID
        - (r.after task executors n).count task.ID y.GetID ≤ 1) ∧
    (executors.map (fun e => (r.after task executors n).count task.ID e.GetID)).sum
      = (n : Int) := by
  obtain ⟨hcounts, hsum⟩ := LFURouter.after_balanced r task executors hne hnodup hfresh n
  refine ⟨?_, hsum⟩
  intro x hx y hy
  obtain ⟨i, hi, rfl⟩ := List.getElem_of_mem hx
  obtain ⟨j, hj, rfl⟩ := List.getElem_of_mem hy
  rw [hcounts i hi, hcounts j hj]
  split <;> split <;> omega

/-- The theorem for C26 on the test: a fresh LFU router, the three test
executors, seven calls. -/
theorem LFURouter.counts_balanced_witness :
    createTestExecutors ≠ [] ∧
    (createTestExecutors.map Executor.GetID).Nodup ∧
    (∀ e ∈ createTestExecutors,
      NewLFURouter.count? (createTestTask "lfu-task" LFU).ID e.GetID = none) ∧
    (∀ x ∈ createTestExecutors, ∀ y ∈ createTestExecutors,
      (NewLFURouter.after (createTestTask "lfu-task" LFU) createTestExecutors 7).count
          (createTestTask "lfu-task" LFU).ID x.GetID
        - (NewLFURouter.after (createTestTask "lfu-task" LFU) createTestExecutors 7).count
          (createTestTask "lfu-task" LFU).ID y.GetID ≤ 1) ∧
    (createTestExecutors.map (fun e =>
      (NewLFURouter.after (createTestTask "lfu-task" LFU) createTestExecutors 7).count
        (createTestTask "lfu-task" LFU).ID e.GetID)).sum = ((7 : Nat) : Int) :=
  ⟨by decide, by decide, fun _ _ => rfl,
    LFURouter.counts_balanced NewLFURouter (createTestTask "lfu-task" LFU) createTestExecutors
      (by decide) (by decide) (fun _ _ => rfl) 7⟩

/-- Claim C26 fails as stated: the empty candidate list has pairwise distinct
IDs, the call for it returns the error and records nothing, so after one call
the counts of all candidates sum to 0, not to the number of calls made. -/
theorem LFURouter.counts_of_empty_list :
    ((([] : List Executor).map Executor.GetID).Nodup) ∧
    NewLFURouter.nth (createTestTask "lfu-task" LFU) [] 0
      = some (none, some "no available executors") ∧
    (([] : List Executor).map (fun e =>
      (NewLFURouter.after (createTestTask "lfu-task" LFU) [] 1).count
        (createTestTask "lfu-task" LFU).ID e.GetID)).sum = 0 ∧
    ((0 : Int) ≠ ((1 : Nat) : Int)) := by
  refine ⟨List.nodup_nil, rfl, rfl, by decide⟩

/-! ## Start and Stop -/

/-- The loop of Stop over the registered tasks, object by object: a task object
is set to Stopped when it is registered and Running, and is left as it was
otherwise. The result depends on the set of entries only, not on the order in
which the map is iterated. -/
theorem stop_loop_spec (l : List (String × Ptr)) :
    ∀ (mem : Ptr → Task) (p : Ptr),
      ((∃ kv ∈ l, kv.2 = p) → (mem p).Status = TaskStatus.TaskStatusRunning →
        (l.foldl
          (fun mem kv =>
            if (mem kv.2).Status = TaskStatus.TaskStatusRunning then
              Function.update mem kv.2 { mem kv.2 with Status := TaskStatus.TaskStatusStopped }
            else mem)
          mem) p = { mem p with Status := TaskStatus.TaskStatusStopped }) ∧
      (¬ ((∃ kv ∈ l, kv.2 = p) ∧ (mem p).Status = TaskStatus.TaskStatusRunning) →
        (l.foldl
          (fun mem kv =>
            if (mem kv.2).Status = TaskStatus.TaskStatusRunning then
              Function.update mem kv.2 { mem kv.2 with Status := TaskStatus.TaskStatusStopped }
            else mem)
          mem) p = mem p) := by
  induction l with
  | nil =>
    intro mem p
    exact ⟨fun h => by simp at h, fun _ => rfl⟩
  | cons kv rest ih =>
    intro mem p
    by_cases hrun : (mem kv.2).Status = TaskStatus.TaskStatusRunning
    · simp only [List.foldl_cons, hrun, if_true]
      by_cases hkv : kv.2 = p
      · -- the object of this entry: it is set to Stopped now and never again
        have hnow := (ih (Function.update mem kv.2
          { mem kv.2 with Status := TaskStatus.TaskStatusStopped }) p).2
          (by
            rintro ⟨_, h2⟩
            rw [← hkv, Function.update_same] at h2
            cases h2)
        rw [hnow, ← hkv, Function.update_same]
        exact ⟨fun _ _ => rfl, fun hnot => absurd ⟨⟨kv, List.mem_cons_self _ _, rfl⟩, hrun⟩ hnot⟩
      · have hp : p ≠ kv.2 := fun h => hkv h.symm
        obtain ⟨ih1, ih2⟩ := ih (Function.update mem kv.2
          { mem kv.2 with Status := TaskStatus.TaskStatusStopped }) p
        rw [Function.update_noteq hp] at ih1 ih2
        constructor
        · rintro ⟨kv1, hkv1, hkv1p⟩ hrunp
          rcases List.mem_cons.mp hkv1 with h | h
          · exact absurd (h ▸ hkv1p) hkv
          · exact ih1 ⟨kv1, h, hkv1p⟩ hrunp
        · intro hnot
          exact ih2 (fun ⟨⟨kv1, hkv1, hkv1p⟩, hrunp⟩ =>
            hnot ⟨⟨kv1, List.mem_cons_of_mem _ hkv1, hkv1p⟩, hrunp⟩)
    · simp only [List.foldl_cons, hrun, if_false]
      obtain ⟨ih1, ih2⟩ := ih mem p
      constructor
      · rintro ⟨kv1, hkv1, hkv1p⟩ hrunp
        rcases List.mem_cons.mp hkv1 with h | h
        · rw [h] at hkv1p
          rw [hkv1p] at hrun
          exact absurd hrunp hrun
        · exact ih1 ⟨kv1, h, hkv1p⟩ hrunp
      · intro hnot
        exact ih2 (fun ⟨⟨kv1, hkv1, hkv1p⟩, hrunp⟩ =>
          hnot ⟨⟨kv1, List.mem_cons_of_mem _ hkv1, hkv1p⟩, hrunp⟩)

/-- Claim C21. Start returns an error exactly when the scheduler is started,
Stop exactly when it is not, and a failing call leaves the program state as it
was. A successful Start marks the scheduler and its cron scheduler started. A
successful Stop marks them stopped, keeps the registry, sets the status of
every registered task object that was Running to Stopped, leaves every other
task object as it was, and leaves no registered task in status Running. -/
theorem TaskScheduler.start_stop_spec (w : World) :
    ((TaskScheduler.Start w).1.isSome = true ↔ w.ts.running = true) ∧
    (w.ts.running = true → (TaskScheduler.Start w).2 = w) ∧
    (w.ts.running = false →
      (TaskScheduler.Start w).2.ts.running = true ∧
      (TaskScheduler.Start w).2.ts.cron.running = true) ∧
    ((TaskScheduler.Stop w).1.isSome = true ↔ w.ts.running = false) ∧
    (w.ts.running = false → (TaskScheduler.Stop w).2 = w) ∧
    (w.ts.running = true →
      (TaskScheduler.Stop w).2.ts.running = false ∧
      (TaskScheduler.Stop w).2.ts.cron.running = false ∧
      (TaskScheduler.Stop w).2.ts.tasks = w.ts.tasks ∧
      (∀ p : Ptr, (∃ kv ∈ w.ts.tasks, kv.2 = p) →
        (w.taskMem p).Status = TaskStatus.TaskStatusRunning →
        (TaskScheduler.Stop w).2.taskMem p
          = { w.taskMem p with Status := TaskStatus.TaskStatusStopped }) ∧
      (∀ p : Ptr, ¬ ((∃ kv ∈ w.ts.tasks, kv.2 = p) ∧
          (w.taskMem p).Status = TaskStatus.TaskStatusRunning) →
        (TaskScheduler.Stop w).2.taskMem p = w.taskMem p) ∧
      (∀ kv ∈ (TaskScheduler.Stop w).2.ts.tasks,
        ((TaskScheduler.Stop w).2.taskMem kv.2).Status ≠ TaskStatus.TaskStatusRunning)) := by
  refine ⟨?_, ?_, ?_, ?_, ?_, ?_⟩
  · cases h : w.ts.running <;> simp [TaskScheduler.Start, h]
  · intro h
    simp [TaskScheduler.Start, h]
  · intro h
    simp [TaskScheduler.Start, h]
  · cases h : w.ts.running <;> simp [TaskScheduler.Stop, h]
  · intro h
    simp [TaskScheduler.Stop, h]
  · intro h
    have hmem : ∀ p : Ptr,
        ((∃ kv ∈ w.ts.tasks, kv.2 = p) →
          (w.taskMem p).Status = TaskStatus.TaskStatusRunning →
          (TaskScheduler.Stop w).2.taskMem p
            = { w.taskMem p with Status := TaskStatus.TaskStatusStopped }) ∧
        (¬ ((∃ kv ∈ w.ts.tasks, kv.2 = p) ∧
            (w.taskMem p).Status = TaskStatus.TaskStatusRunning) →
          (TaskScheduler.Stop w).2.taskMem p = w.taskMem p) := by
      intro p
      simp only [TaskScheduler.Stop, h, Bool.true_eq_false, if_false]
      exact stop_loop_spec w.ts.tasks w.taskMem p
    have htasks : (TaskScheduler.Stop w).2.ts.tasks = w.ts.tasks := by
      simp [TaskScheduler.Stop, h]
    refine ⟨by simp [TaskScheduler.Stop, h], by simp [TaskScheduler.Stop, h], htasks, ?_, ?_, ?_⟩
    · intro p hreg hrun
      exact (hmem p).1 hreg hrun
    · intro p hnot
      exact (hmem p).2 hnot
    · intro kv hkv
      rw [htasks] at hkv
      by_cases hrun : (w.taskMem kv.2).Status = TaskStatus.TaskStatusRunning
      · rw [(hmem kv.2).1 ⟨kv, hkv, rfl⟩ hrun]
        simp
      · rw [(hmem kv.2).2 (fun hh => hrun hh.2)]
        exact hrun

/-- On the fixture `runningWorld` the scheduler is started and the hello-world
task is registered and Running: Stop succeeds and sets it to Stopped, and a
second Stop fails. -/
theorem TaskScheduler.start_stop_spec_witness :
    runningWorld.ts.running = true ∧
    (runningWorld.taskMem 1).Status = TaskStatus.TaskStatusRunning ∧
    (TaskScheduler.Stop runningWorld).1 = none ∧
    ((TaskScheduler.Stop runningWorld).2.taskMem 1).Status = TaskStatus.TaskStatusStopped ∧
    (TaskScheduler.Stop (TaskScheduler.Stop runningWorld).2).1.isSome = true := by
  have hrunning : runningWorld.ts.running = true := by decide
  have hstatus : (runningWorld.taskMem 1).Status = TaskStatus.TaskStatusRunning := by decide
  have hstop := (TaskScheduler.start_stop_spec runningWorld).2.2.2.2.2 hrunning
  have hagain := (TaskScheduler.start_stop_spec (TaskScheduler.Stop runningWorld).2).2.2.2.1
  refine ⟨hrunning, hstatus, by decide, ?_, hagain.mpr hstop.1⟩
  rw [hstop.2.2.2.1 1 ⟨("hello-world", 1), by decide, rfl⟩ hstatus]

/-! ## The executor registry -/

/-- One call on the registry against the finite map: the lookup after the call
is the lookup before it, changed as the finite map changes. -/
theorem Manager.call_lookup (em : Manager) (execMem : Ptr → Executor) (c : RegistryCall)
    (executorID : String) :
    mapGet (em.call execMem c).2.executors executorID
      = (finiteMapCall (fun k => mapGet em.executors k) execMem c).2 executorID := by
  cases c with
  | add executor =>
    cases h : mapGet em.executors (execMem executor).GetID with
    | some q => simp [Manager.call, Manager.AddExecutor, finiteMapCall, h]
    | none =>
      simp only [Manager.call, Manager.AddExecutor, finiteMapCall, h, Option.isSome_none,
        Bool.false_eq_true, if_false]
      rw [mapGet_mapSet_of_none _ _ _ _ h]
      by_cases hk : executorID = (execMem executor).GetID
      · subst hk
        simp
      · simp [hk, Function.update_noteq hk]
  | remove removed =>
    cases h : mapGet em.executors removed with
    | some q =>
      simp only [Manager.call, Manager.RemoveExecutor, finiteMapCall, h, Option.isSome_some,
        Bool.true_eq_false, if_false, if_true]
      rw [mapGet_mapDelete]
      by_cases hk : executorID = removed
      · subst hk
        simp
      · simp [hk, Function.update_noteq hk]
    | none => simp [Manager.call, Manager.RemoveExecutor, finiteMapCall, h]

/-- The lookup after a sequence of calls, read off the history of the calls. -/
theorem Manager.calls_lookup (execMem : Ptr → Executor) (executorID : String)
    (cs : List RegistryCall) :
    ∀ em : Manager,
      mapGet (em.calls execMem cs).2.executors executorID
        = lastRegisteredFrom execMem executorID (mapGet em.executors executorID)
            (em.calls execMem cs).1 := by
  induction cs with
  | nil => intro em; rfl
  | cons c cs ih =>
    intro em
    have hstep : mapGet (em.call execMem c).2.executors executorID
        = lastRegisteredFrom execMem executorID (mapGet em.executors executorID)
            [(c, (em.call execMem c).1)] := by
      cases c with
      | add executor =>
        cases h : mapGet em.executors (execMem executor).GetID with
        | some q =>
          simp [Manager.call, Manager.AddExecutor, lastRegisteredFrom, h]
        | none =>
          simp only [Manager.call, Manager.AddExecutor, lastRegisteredFrom, h,
            Option.isSome_none, Bool.false_eq_true, if_false, List.foldl_cons, List.foldl_nil]
          rw [mapGet_mapSet_of_none _ _ _ _ h]
          by_cases hk : executorID = (execMem executor).GetID
          · simp [hk]
          · have hk1 : ¬ (execMem executor).GetID = executorID := fun h1 => hk h1.symm
            simp [hk, hk1]
      | remove removed =>
        cases h : mapGet em.executors removed with
        | some q =>
          simp only [Manager.call, Manager.RemoveExecutor, lastRegisteredFrom, h,
            Option.isSome_some, Bool.true_eq_false, if_false, List.foldl_cons, List.foldl_nil]
          rw [mapGet_mapDelete]
          by_cases hk : executorID = removed
          · simp [hk]
          · have hk1 : ¬ removed = executorID := fun h1 => hk h1.symm
            simp [hk, hk1]
        | none =>
          simp [Manager.call, Manager.RemoveExecutor, lastRegisteredFrom, h]
    show mapGet ((em.call execMem c).2.calls execMem cs).2.executors executorID
      = lastRegisteredFrom execMem executorID (mapGet em.executors executorID)
          ((c, (em.call execMem c).1) :: ((em.call execMem c).2.calls execMem cs).1)
    rw [ih, hstep]
    rfl

/-- Claim C22. The executor registry refines a finite map keyed by executor
ID. In every registry state, AddExecutor fails exactly when GetExecutor finds
the ID of the executor and RemoveExecutor fails exactly when GetExecutor does
not find the ID, a failing call returns the registry as it was, and every call
changes the lookup as the corresponding call changes the finite map. After
every sequence of calls on a fresh registry, GetExecutor of an ID returns the
executor of the last successful AddExecutor for that ID when no successful
RemoveExecutor of that ID followed it, and the error "not found" otherwise. -/
theorem Manager.registry_refines_finite_map (execMem : Ptr → Executor) :
    (∀ (em : Manager) (executor : Ptr),
      ((em.AddExecutor execMem executor).1.isSome = true
        ↔ (em.GetExecutor (execMem executor).GetID).1.isSome = true) ∧
      ((em.AddExecutor execMem executor).1.isSome = true →
        (em.AddExecutor execMem executor).2 = em)) ∧
    (∀ (em : Manager) (executorID : String),
      ((em.RemoveExecutor executorID).1.isSome = true
        ↔ (em.GetExecutor executorID).1 = none) ∧
      ((em.RemoveExecutor executorID).1.isSome = true →
        (em.RemoveExecutor executorID).2 = em)) ∧
    (∀ (em : Manager) (c : RegistryCall),
      ((em.call execMem c).1.isSome, fun k => ((em.call execMem c).2.GetExecutor k).1)
        = finiteMapCall (fun k => (em.GetExecutor k).1) execMem c) ∧
    (∀ (cs : List RegistryCall) (executorID : String),
      (NewManager.calls execMem cs).2.GetExecutor executorID
        = match lastRegistered execMem executorID (NewManager.calls execMem cs).1 with
          | some executor => (some executor, none)
          | none => (none, some ("executor " ++ executorID ++ " not found"))) := by
  have hget : ∀ (em : Manager) (k : String), (em.GetExecutor k).1 = mapGet em.executors k := by
    intro em k
    unfold Manager.GetExecutor
    cases mapGet em.executors k <;> rfl
  refine ⟨?_, ?_, ?_, ?_⟩
  · intro em executor
    rw [hget]
    cases h : mapGet em.executors (execMem executor).GetID <;>
      simp [Manager.AddExecutor, h]
  · intro em executorID
    rw [hget]
    cases h : mapGet em.executors executorID <;>
      simp [Manager.RemoveExecutor, h]
  · intro em c
    have hfun : (fun k => ((em.call execMem c).2.GetExecutor k).1)
        = (finiteMapCall (fun k => mapGet em.executors k) execMem c).2 := by
      funext k
      rw [hget, Manager.call_lookup]
    have hfun0 : (fun k => (em.GetExecutor k).1) = fun k => mapGet em.executors k := by
      funext k
      rw [hget]
    rw [hfun, hfun0]
    cases c with
    | add executor =>
      cases h : mapGet em.executors (execMem executor).GetID <;>
        simp [Manager.call, Manager.AddExecutor, finiteMapCall, h]
    | remove removed =>
      cases h : mapGet em.executors removed <;>
        simp [Manager.call, Manager.RemoveExecutor, finiteMapCall, h]
  · intro cs executorID
    have h := Manager.calls_lookup execMem executorID cs NewManager
    unfold Manager.GetExecutor lastRegistered
    rw [h]
    rfl

/-- The registry of the three test executors after adding exec-1, adding
exec-2, adding exec-1 again (refused), removing exec-1 and removing it again
(refused): exec-2 is found, exec-1 is not. -/
theorem Manager.registry_refines_finite_map_witness :
    ((NewManager.calls demoWorld.execMem
        [RegistryCall.add 0, RegistryCall.add 1, RegistryCall.add 0,
         RegistryCall.remove "exec-1", RegistryCall.remove "exec-1"]).1.map
      (fun entry => entry.2.isSome) = [false, false, true, false, true]) ∧
    (NewManager.calls demoWorld.execMem
        [RegistryCall.add 0, RegistryCall.add 1, RegistryCall.add 0,
         RegistryCall.remove "exec-1", RegistryCall.remove "exec-1"]).2.GetExecutor "exec-2"
      = (some 1, none) ∧
    (NewManager.calls demoWorld.execMem
        [RegistryCall.add 0, RegistryCall.add 1, RegistryCall.add 0,
         RegistryCall.remove "exec-1", RegistryCall.remove "exec-1"]).2.GetExecutor "exec-1"
      = (none, some "executor exec-1 not found") := by
  refine ⟨by decide, ?_, ?_⟩
  · rw [(Manager.registry_refines_finite_map demoWorld.execMem).2.2.2]
    decide
  · rw [(Manager.registry_refines_finite_map demoWorld.execMem).2.2.2]
    decide

/-! ## The healthy executors -/

/-- A key that `m[k]` does not find is not among the keys of the entries. -/
theorem mapGet_none_not_key {α : Type} (m : List (String × α)) (k : String)
    (h : mapGet m k = none) : k ∉ m.map Prod.fst := by
  induction m with
  | nil => simp
  | cons kv rest ih =>
    rw [mapGet_cons] at h
    by_cases hkv : kv.1 = k
    · simp [hkv] at h
    · simp only [hkv, if_false] at h
      simp only [List.map_cons, List.mem_cons, not_or]
      exact ⟨fun h1 => hkv h1.symm, ih h⟩

/-- One call keeps the registry a map: the keys of the entries are pairwise
distinct and every entry is keyed by the ID of its executor. -/
theorem Manager.call_keyed (execMem : Ptr → Executor) (em : Manager) (c : RegistryCall)
    (h : (em.executors.map Prod.fst).Nodup ∧
      ∀ kv ∈ em.executors, kv.1 = (execMem kv.2).GetID) :
    ((em.call execMem c).2.executors.map Prod.fst).Nodup ∧
      ∀ kv ∈ (em.call execMem c).2.executors, kv.1 = (execMem kv.2).GetID := by
  cases c with
  | add executor =>
    cases hget : mapGet em.executors (execMem executor).GetID with
    | some q =>
      simp only [Manager.call, Manager.AddExecutor, hget, Option.isSome_some, if_true]
      exact h
    | none =>
      have hset : mapSet em.executors (execMem executor).GetID executor
          = em.executors ++ [((execMem executor).GetID, executor)] := by
        unfold mapSet
        simp [hget]
      simp only [Manager.call, Manager.AddExecutor, hget, Option.isSome_none,
        Bool.false_eq_true, if_false, hset]
      constructor
      · rw [List.map_append, List.nodup_append]
        refine ⟨h.1, by simp, ?_⟩
        intro a ha hb
        simp only [List.map_cons, List.map_nil, List.mem_singleton] at hb
        rw [hb] at ha
        exact mapGet_none_not_key _ _ hget ha
      · intro kv hkv
        rcases List.mem_append.mp hkv with h1 | h1
        · exact h.2 kv h1
        · simp only [List.mem_singleton] at h1
          rw [h1]
  | remove removed =>
    cases hget : mapGet em.executors removed with
    | none =>
      simp only [Manager.call, Manager.RemoveExecutor, hget, Option.isSome_none, if_true]
      exact h
    | some q =>
      simp only [Manager.call, Manager.RemoveExecutor, hget, Option.isSome_some,
        Bool.true_eq_false, if_false]
      constructor
      · exact h.1.sublist ((List.filter_sublist _).map Prod.fst)
      · intro kv hkv
        exact h.2 kv (List.mem_of_mem_filter hkv)

/-- Every registry built from a fresh one by calls is a map: the keys of the
entries are pairwise distinct and every entry is keyed by the ID of its
executor. -/
theorem Manager.calls_keyed (execMem : Ptr → Executor) (cs : List RegistryCall) :
    ∀ em : Manager,
      ((em.executors.map Prod.fst).Nodup ∧
        ∀ kv ∈ em.executors, kv.1 = (execMem kv.2).GetID) →
      (((em.calls execMem cs).2.executors.map Prod.fst).Nodup ∧
        ∀ kv ∈ (em.calls execMem cs).2.executors, kv.1 = (execMem kv.2).GetID) := by
  induction cs with
  | nil => intro em h; exact h
  | cons c cs ih =>
    intro em h
    exact ih (em.call execMem c).2 (Manager.call_keyed execMem em c h)

/-- Claim C23. On every registry built from a fresh one by a sequence of
AddExecutor and RemoveExecutor calls, whatever order the runtime iterates the
map in and whatever the health flags are at the time of the call, the list
GetExecutors returns has no executor twice, and an executor is in it exactly
when it is registered and its health flag is true. (GetExecutors only reads:
it returns the list and writes neither the registry nor an executor.) The
executor objects at registration are `registered`, those at the time of the
call are `execMem`. -/
theorem Manager.getExecutors_exact (registered execMem : Ptr → Executor)
    (cs : List RegistryCall) (order : List (String × Ptr) → List (String × Ptr))
    (horder : ∀ l : List (String × Ptr), (order l).Perm l) :
    ((NewManager.calls registered cs).2.GetExecutors execMem order).Nodup ∧
    ∀ p : Ptr, p ∈ (NewManager.calls registered cs).2.GetExecutors execMem order ↔
      ((∃ kv ∈ (NewManager.calls registered cs).2.executors, kv.2 = p) ∧
        (execMem p).IsHealthy = true) := by
  have hkeyed := Manager.calls_keyed registered cs NewManager
    ⟨by simp [NewManager], by simp [NewManager]⟩
  generalize (NewManager.calls registered cs).2 = em at hkeyed ⊢
  have hfst : em.executors.map Prod.fst
      = (em.executors.map Prod.snd).map (fun q => (registered q).GetID) := by
    rw [List.map_map]
    exact List.map_congr_left (fun kv hkv => hkeyed.2 kv hkv)
  have hsnd : (em.executors.map Prod.snd).Nodup := by
    have h1 := hkeyed.1
    rw [hfst] at h1
    exact List.Nodup.of_map _ h1
  have hentries : em.executors.Nodup := List.Nodup.of_map _ hsnd
  have hinj : ∀ a ∈ em.executors, ∀ b ∈ em.executors, a.2 = b.2 → a = b := by
    intro a ha b hb hab
    exact List.inj_on_of_nodup_map hsnd ha hb hab
  unfold Manager.GetExecutors
  constructor
  · have hnodup : ((order em.executors).filter (fun kv => (execMem kv.2).IsHealthy)).Nodup :=
      ((horder em.executors).nodup_iff.mpr hentries).filter _
    refine List.Nodup.map_on ?_ hnodup
    intro a ha b hb hab
    exact hinj a ((horder em.executors).mem_iff.mp (List.mem_of_mem_filter ha))
      b ((horder em.executors).mem_iff.mp (List.mem_of_mem_filter hb)) hab
  · intro p
    simp only [List.mem_map, List.mem_filter]
    constructor
    · rintro ⟨kv, ⟨hkv, hhealthy⟩, hp⟩
      subst hp
      exact ⟨⟨kv, (horder em.executors).mem_iff.mp hkv, rfl⟩, hhealthy⟩
    · rintro ⟨⟨kv, hkv, hp⟩, hhealthy⟩
      subst hp
      exact ⟨kv, ⟨(horder em.executors).mem_iff.mpr hkv, hhealthy⟩, rfl⟩

/-- The three test executors registered, exec-2 marked unhealthy afterwards,
the map iterated from the last entry to the first: GetExecutors returns exec-3
and exec-1. -/
theorem Manager.getExecutors_exact_witness :
    (NewManager.calls demoWorld.execMem
        [RegistryCall.add 0, RegistryCall.add 1, RegistryCall.add 2]).2.GetExecutors
      (Function.update demoWorld.execMem 1 (exec2.SetHealthy false)) List.reverse = [2, 0] ∧
    ((NewManager.calls demoWorld.execMem
        [RegistryCall.add 0, RegistryCall.add 1, RegistryCall.add 2]).2.GetExecutors
      (Function.update demoWorld.execMem 1 (exec2.SetHealthy false)) List.reverse).Nodup ∧
    ∀ p : Ptr, p ∈ (NewManager.calls demoWorld.execMem
        [RegistryCall.add 0, RegistryCall.add 1, RegistryCall.add 2]).2.GetExecutors
      (Function.update demoWorld.execMem 1 (exec2.SetHealthy false)) List.reverse ↔
      ((∃ kv ∈ (NewManager.calls demoWorld.execMem
          [RegistryCall.add 0, RegistryCall.add 1, RegistryCall.add 2]).2.executors, kv.2 = p) ∧
        ((Function.update demoWorld.execMem 1 (exec2.SetHealthy false)) p).IsHealthy = true) :=
  ⟨by decide,
    Manager.getExecutors_exact demoWorld.execMem
      (Function.update demoWorld.execMem 1 (exec2.SetHealthy false))
      [RegistryCall.add 0, RegistryCall.add 1, RegistryCall.add 2] List.reverse
      (fun l => List.reverse_perm l)⟩

/-! ## Task statistics -/

/-- The counting loop of `GetTaskStats` from given counters: every counter grows
by the number of visited tasks with that status, or with that strategy. -/
theorem stats_loop_counts (taskMem : Ptr → Task) (l : List (String × Ptr)) :
    ∀ (acc : (TaskStatus → Option Int) × (RouteStrategy → Option Int)),
      (∀ s : TaskStatus,
        (((l.foldl
          (fun acc kv =>
            (mapIncr acc.1 (taskMem kv.2).Status, mapIncr acc.2 (taskMem kv.2).Strategy))
          acc).1 s).getD 0)
          = (acc.1 s).getD 0 + (l.countP (fun kv => decide ((taskMem kv.2).Status = s)) : Int)) ∧
      (∀ s : RouteStrategy,
        (((l.foldl
          (fun acc kv =>
            (mapIncr acc.1 (taskMem kv.2).Status, mapIncr acc.2 (taskMem kv.2).Strategy))
          acc).2 s).getD 0)
          = (acc.2 s).getD 0
            + (l.countP (fun kv => decide ((taskMem kv.2).Strategy = s)) : Int)) := by
  induction l with
  | nil => intro acc; simp
  | cons kv rest ih =>
    intro acc
    obtain ⟨ih1, ih2⟩ := ih (mapIncr acc.1 (taskMem kv.2).Status,
      mapIncr acc.2 (taskMem kv.2).Strategy)
    constructor
    · intro s
      rw [List.foldl_cons, ih1 s, List.countP_cons]
      by_cases hs : (taskMem kv.2).Status = s
      · subst hs
        simp [mapIncr]
        ring
      · have hs1 : s ≠ (taskMem kv.2).Status := fun h => hs h.symm
        simp [mapIncr, hs, Function.update_noteq hs1]
    · intro s
      rw [List.foldl_cons, ih2 s, List.countP_cons]
      by_cases hs : (taskMem kv.2).Strategy = s
      · subst hs
        simp [mapIncr]
        ring
      · have hs1 : s ≠ (taskMem kv.2).Strategy := fun h => hs h.symm
        simp [mapIncr, hs, Function.update_noteq hs1]

/-- The task side of `GetTaskStats`, whatever order the runtime iterates the
task map in: `total_tasks` is the number of registered tasks, and the count
under a status or a strategy is the number of registered tasks with that status
or strategy. -/
theorem TaskScheduler.getTaskStats_task_counts (w : World)
    (taskOrder execOrder : List (String × Ptr) → List (String × Ptr))
    (horder : ∀ l : List (String × Ptr), (taskOrder l).Perm l) :
    (TaskScheduler.GetTaskStats w taskOrder execOrder).total_tasks = (w.ts.tasks.length : Int) ∧
    (∀ s : TaskStatus,
      ((TaskScheduler.GetTaskStats w taskOrder execOrder).status_distribution s).getD 0
        = (w.ts.tasks.countP (fun kv => decide ((w.taskMem kv.2).Status = s)) : Int)) ∧
    (∀ s : RouteStrategy,
      ((TaskScheduler.GetTaskStats w taskOrder execOrder).strategy_distribution s).getD 0
        = (w.ts.tasks.countP (fun kv => decide ((w.taskMem kv.2).Strategy = s)) : Int)) := by
  have h := stats_loop_counts w.taskMem (taskOrder w.ts.tasks) (fun _ => none, fun _ => none)
  refine ⟨rfl, ?_, ?_⟩
  · intro s
    simp only [TaskScheduler.GetTaskStats]
    rw [h.1 s, (horder w.ts.tasks).countP_eq]
    simp
  · intro s
    simp only [TaskScheduler.GetTaskStats]
    rw [h.2 s, (horder w.ts.tasks).countP_eq]
    simp

/-- Claim C24, evaluated. With exec-1 and exec-2 registered and exec-2 marked
unhealthy, `GetExecutor` finds both executors and the registry holds two
entries, but `GetTaskStats` reports `total_executors` 1: the number it reports
is the length of the list of healthy executors. The task side of the snapshot
is as claimed: `total_tasks` is 1, and the manual task is counted once under
Pending and once under app round robin. -/
theorem TaskScheduler.getTaskStats_total_executors_healthy_only :
    oneUnhealthyWorld.ts.executorManager.executors.length = 2 ∧
    (oneUnhealthyWorld.ts.executorManager.GetExecutor "exec-1").1 = some 0 ∧
    (oneUnhealthyWorld.ts.executorManager.GetExecutor "exec-2").1 = some 1 ∧
    (oneUnhealthyWorld.execMem 0).IsHealthy = true ∧
    (oneUnhealthyWorld.execMem 1).IsHealthy = false ∧
    (TaskScheduler.GetTaskStats oneUnhealthyWorld (fun l => l) (fun l => l)).total_executors
      = 1 ∧
    (TaskScheduler.GetTaskStats oneUnhealthyWorld (fun l => l) (fun l => l)).total_tasks = 1 ∧
    (TaskScheduler.GetTaskStats oneUnhealthyWorld (fun l => l) (fun l => l)).status_distribution
      TaskStatus.TaskStatusPending = some 1 ∧
    (TaskScheduler.GetTaskStats oneUnhealthyWorld (fun l => l) (fun l => l)).strategy_distribution
      RoundRobinApp = some 1 := by
  refine ⟨by decide, by decide, by decide, by decide, by decide, by decide, by decide,
    by decide, by decide⟩

/-! ## Two calls in flight on a round-robin router -/

/-- A call of `RoundRobinAppRouter.Route` that takes its atomic operations
without another call in between is the method `Route`. -/
theorem RoundRobinAppRouter.app_call_alone (r : RoundRobinAppRouter) (task : Task)
    (executors : List Executor) :
    (RoundRobinAppRouter.concurrent executors [true, true]
        (r, AppCall.entered, AppCall.entered))
      = ((r.Route task executors).2, AppCall.returned (r.Route task executors).1,
          AppCall.entered) := by
  by_cases hlen : executors.length = 0
  · simp [RoundRobinAppRouter.concurrent, RoundRobinAppRouter.stepCall,
      RoundRobinAppRouter.Route, hlen]
  · by_cases hcount : r.globalCounter + 1 > 1000000
    · simp only [RoundRobinAppRouter.concurrent, RoundRobinAppRouter.stepCall,
        RoundRobinAppRouter.Route, hlen, hcount, if_true, if_false, roundRobinPick]
      cases index? executors (goMod 0 executors.length) <;> rfl
    · simp only [RoundRobinAppRouter.concurrent, RoundRobinAppRouter.stepCall,
        RoundRobinAppRouter.Route, hlen, hcount, if_true, if_false, roundRobinPick]
      cases index? executors (goMod (r.globalCounter + 1) executors.length) <;> rfl

/-- A call of `RoundRobinTaskRouter.Route` that takes its atomic operations
without another call in between is the method `Route`: the same result, the
same counters and the same generator. -/
theorem RoundRobinTaskRouter.task_call_alone (r : RoundRobinTaskRouter) (g : Rand) (task : Task)
    (executors : List Executor) :
    (RoundRobinTaskRouter.concurrent task executors [true, true, true, true]
        (r, g, TaskCall.entered, TaskCall.entered)).2.2.1
      = TaskCall.returned (r.Route g task executors).1 ∧
    (RoundRobinTaskRouter.concurrent task executors [true, true, true, true]
        (r, g, TaskCall.entered, TaskCall.entered)).1.taskCounters
      = (r.Route g task executors).2.1.taskCounters ∧
    (RoundRobinTaskRouter.concurrent task executors [true, true, true, true]
        (r, g, TaskCall.entered, TaskCall.entered)).2.1
      = (r.Route g task executors).2.2 := by
  by_cases hlen : executors.length = 0
  · simp [RoundRobinTaskRouter.concurrent, RoundRobinTaskRouter.stepCall,
      RoundRobinTaskRouter.Route, hlen]
  · cases hc : r.taskCounters task.ID with
    | some c =>
      by_cases hcount : c + 1 > 1000000
      · simp only [RoundRobinTaskRouter.concurrent, RoundRobinTaskRouter.stepCall,
          RoundRobinTaskRouter.Route, hlen, hc, hcount, if_true, if_false, roundRobinPick,
          Option.getD_some, Function.update_same, Function.update_idem]
        cases index? executors (goMod ((g.Intn 100).1 : Int) executors.length) <;>
          exact ⟨rfl, rfl, rfl⟩
      · simp only [RoundRobinTaskRouter.concurrent, RoundRobinTaskRouter.stepCall,
          RoundRobinTaskRouter.Route, hlen, hc, hcount, if_true, if_false, roundRobinPick,
          Option.getD_some, Function.update_same, Function.update_idem]
        cases index? executors (goMod (c + 1) executors.length) <;>
          exact ⟨rfl, rfl, rfl⟩
    | none =>
      by_cases hcount : ((g.Intn 100).1 : Int) + 1 > 1000000
      · simp only [RoundRobinTaskRouter.concurrent, RoundRobinTaskRouter.stepCall,
          RoundRobinTaskRouter.Route, hlen, hc, hcount, if_true, if_false, roundRobinPick,
          Option.getD_some, Function.update_same, Function.update_idem]
        cases index? executors (goMod (((g.Intn 100).2.Intn 100).1 : Int) executors.length) <;>
          exact ⟨rfl, rfl, rfl⟩
      · simp only [RoundRobinTaskRouter.concurrent, RoundRobinTaskRouter.stepCall,
          RoundRobinTaskRouter.Route, hlen, hc, hcount, if_true, if_false, roundRobinPick,
          Option.getD_some, Function.update_same, Function.update_idem]
        cases index? executors (goMod (((g.Intn 100).1 : Int) + 1) executors.length) <;>
          exact ⟨rfl, rfl, rfl⟩

/-- Claim C25, evaluated. The app round-robin counter stands at 1000000 (a
state calls of Route reach) and two calls with the same two candidates are in
flight. When both perform `atomic.AddInt64` before either performs the
comparison and `atomic.StoreInt64`, both calls return the first candidate and
the counter ends at 0; run one after the other, in either order, the calls
return the first and the second candidate and the counter ends at 1. The same
schedule on the task round-robin router, with the counter of the task at
1000000 and a generator that draws 7: both calls load the value 7 and return
the second candidate, and the counter ends at 7; one after the other they
return the second and the first candidate and the counter ends at 8. -/
theorem roundRobin_reset_interleaved :
    RoundRobinAppRouter.Reachable ⟨1000000⟩ ∧
    RoundRobinAppRouter.concurrent twoExecutors [true, false, true, false]
        (⟨1000000⟩, AppCall.entered, AppCall.entered)
      = (⟨0⟩, AppCall.returned (some (twoExecutors[0]?, none)),
          AppCall.returned (some (twoExecutors[0]?, none))) ∧
    RoundRobinAppRouter.concurrent twoExecutors [true, true, false, false]
        (⟨1000000⟩, AppCall.entered, AppCall.entered)
      = (⟨1⟩, AppCall.returned (some (twoExecutors[0]?, none)),
          AppCall.returned (some (twoExecutors[1]?, none))) ∧
    RoundRobinAppRouter.concurrent twoExecutors [false, false, true, true]
        (⟨1000000⟩, AppCall.entered, AppCall.entered)
      = (⟨1⟩, AppCall.returned (some (twoExecutors[1]?, none)),
          AppCall.returned (some (twoExecutors[0]?, none))) ∧
    (((⟨1000000⟩ : RoundRobinAppRouter).Route (createTestTask "t" RoundRobinApp)
        twoExecutors).2.Route (createTestTask "t" RoundRobinApp) twoExecutors)
      = (some (twoExecutors[1]?, none), ⟨1⟩) ∧
    twoExecutors[0]? ≠ twoExecutors[1]? ∧
    (RoundRobinTaskRouter.concurrent (createTestTask "t" RoundRobinTask) twoExecutors
        [true, false, true, false, true, false, true, false]
        (taskRouterAtLimit, Rand.const 7, TaskCall.entered, TaskCall.entered)).2.2
      = (TaskCall.returned (some (twoExecutors[1]?, none)),
          TaskCall.returned (some (twoExecutors[1]?, none))) ∧
    (RoundRobinTaskRouter.concurrent (createTestTask "t" RoundRobinTask) twoExecutors
        [true, false, true, false, true, false, true, false]
        (taskRouterAtLimit, Rand.const 7, TaskCall.entered, TaskCall.entered)).1.taskCounters "t"
      = some 7 ∧
    (RoundRobinTaskRouter.concurrent (createTestTask "t" RoundRobinTask) twoExecutors
        [true, true, true, true, false, false, false, false]
        (taskRouterAtLimit, Rand.const 7, TaskCall.entered, TaskCall.entered)).2.2
      = (TaskCall.returned (some (twoExecutors[1]?, none)),
          TaskCall.returned (some (twoExecutors[0]?, none))) ∧
    (RoundRobinTaskRouter.concurrent (createTestTask "t" RoundRobinTask) twoExecutors
        [true, true, true, true, false, false, false, false]
        (taskRouterAtLimit, Rand.const 7, TaskCall.entered, TaskCall.entered)).1.taskCounters "t"
      = some 8 := by
  refine ⟨RoundRobinAppRouter.reachable_of_le 1000000 (by decide), by decide, by decide,
    by decide, by decide, by decide, by decide, by decide, by decide, by decide⟩

end TaskScheduler
